import Mathlib

/-!
# pwcarmafiller: MIRIAD visibility archive to MeasurementSet

A shallow embedding of the state-tracking and row-mapping core of
`src/pwcarmafiller.cc` (class `CarmaFiller`), and theorems about it.

Conventions of the embedding.

* C `int` values are `Int`; loop counters that start at zero and only grow are `Nat`.
* `float` and `double` archive values are only copied, negated, compared and
  multiplied by a sign in the code modelled here; they are represented by `Val`
  (exact integers).
* A fixed-size C array is a total map from indices; a growable casa `Vector` is a
  `List`, and an access outside a `Vector` is the error `Err.outOfBounds`.
* The MIRIAD uv library is not part of the program: what `uv_hasvar`, `uvrdvr_c`,
  `uvgetvr_c`, `uvread_c` return at a call is an input of the model.
* `throw AipsError` and `exit (1)` are `Except.error`.
-/

namespace CarmaFiller

/-! ## Values, errors, archive variables -/

/-- Archive numbers of type `float` or `double`. -/
abbrev Val := Int

/-- Ways in which the run stops abnormally. -/
inductive Err where
  /-- Raised by `throw(AipsError("missing <var>"))` in `init_window`. -/
  | missing (var : String)
  /-- Raised by `throw AipsError ("CarmaFiller: unexpected MIRIAD polarization " + mirpol)`. -/
  | unexpectedPolarization (mirpol : Int)
  /-- Stands for `exit(1)` after "Cannot handle more than MAXFIELD fields." -/
  | tooManyFields
  /-- An index outside a casa `Vector`: no defined behaviour in the C++ code. -/
  | outOfBounds
  /-- Raised by `throw AipsError ("no UV data present")` in `checkInput`. -/
  | noData
  /-- Raised by `throw(AipsError("Bad code for a spectral window"))`. -/
  | badCode
  deriving DecidableEq, Repr

deriving instance DecidableEq for Except

/-- Names of the uv variables the code asks for. -/
inductive Var where
  | nchan | nspect | nwide | ischan | nschan | restfreq | sdf | sfreq | wfreq | wwidth
  | inttime | antpos | systemp | wsystemp | source | dra | ddec
  deriving DecidableEq, Repr

/-- What the uv library returns about the archive variables at one point of the stream. -/
structure Vars where
  /-- Result of `uv_hasvar (name)`: the update flag reported by `uvprobvr_c`. -/
  has : Var → Bool
  nchan : Int
  nspect : Int
  nwide : Int
  ischan : Nat → Int
  nschan : Nat → Int
  restfreq : Nat → Val
  sdf : Nat → Val
  sfreq : Nat → Val
  wfreq : Nat → Val
  wwidth : Nat → Val
  inttime : Val
  nants : Int
  antpos : Nat → Val
  systemp : Nat → Val
  wsystemp : Nat → Val
  source : String
  ra : Val
  dec : Val
  /-- The archive's pointing offsets; `Tracking` never reads them. -/
  dra : Val
  ddec : Val

/-- Assignment `a[i] = v` on a C array. -/
def setAt {α : Type} (a : Nat → α) (i : Nat) (v : α) : Nat → α :=
  fun k => if k = i then v else a k

/-- Effect of `uvgetvr_c (..., dst, n)`: the first `n` cells of `dst` are overwritten. -/
def copyIn {α : Type} (n : Int) (src dst : Nat → α) : Nat → α :=
  fun k => if (k : Int) < n then src k else dst k

/-- A C array given by its first cells (zero elsewhere), for concrete inputs. -/
def ofList (l : List Int) : Nat → Int :=
  fun k => l.getD k 0

/-! ## Polarization lookup (`checkInput`, lines 301-306; `fillMSMainTable`, lines 619-625) -/

/-- Table `polmapping` as `checkInput` leaves it: 13 cells set to -1, then four entries. -/
def polmapping : List Int :=
  ((((List.replicate 13 (-1 : Int)).set (-5 + 8 : Int).toNat 0).set
    (-6 + 8 : Int).toNat 3).set (-7 + 8 : Int).toNat 1).set (-8 + 8 : Int).toNat 2

/-- Lookup `casapolidx = polmapping (mirpol + 8)` followed by the test `casapolidx < 0`.
The C++ read is unchecked: for an index outside the 13 cells it has no defined behaviour,
which `outOfBounds` stands for. -/
def casapolidx (mirpol : Int) : Except Err Int :=
  if mirpol + 8 < 0 then .error .outOfBounds
  else
    match polmapping[(mirpol + 8).toNat]? with
    | none => .error .outOfBounds
    | some idx => if idx < 0 then .error (.unexpectedPolarization mirpol) else .ok idx

/-! ## Window layout (`struct window`, `init_window`) -/

/-- The `WINDOW` structure. -/
structure WINDOW where
  nspect : Int
  nschan : Nat → Int
  ischan : Nat → Int
  sdf : Nat → Val
  sfreq : Nat → Val
  restfreq : Nat → Val
  code : Nat → Char
  keep : Nat → Int
  nwide : Int
  wfreq : Nat → Val
  wwidth : Nat → Val

/-- Lines 1410-1415: `ischan`, with the default 1 for a single window. -/
def readIschan (uv : Vars) (nspect : Int) (win : WINDOW) : Except Err WINDOW :=
  if uv.has .ischan then .ok { win with ischan := copyIn nspect uv.ischan win.ischan }
  else if nspect = 1 then .ok { win with ischan := setAt win.ischan 0 1 }
  else .error (.missing "ischan")

/-- Lines 1417-1422: `nschan`, with the default `nchan_p` for a single window. -/
def readNschan (nchan_p : Int) (uv : Vars) (nspect : Int) (win : WINDOW) : Except Err WINDOW :=
  if uv.has .nschan then .ok { win with nschan := copyIn nspect uv.nschan win.nschan }
  else if nspect = 1 then .ok { win with nschan := setAt win.nschan 0 nchan_p }
  else .error (.missing "nschan")

/-- Lines 1424-1427: `restfreq`. -/
def readRestfreq (uv : Vars) (nspect : Int) (win : WINDOW) : Except Err WINDOW :=
  if uv.has .restfreq then .ok { win with restfreq := copyIn nspect uv.restfreq win.restfreq }
  else .error (.missing "restfreq")

/-- Lines 1429-1432: `sdf`; a single window without `sdf` keeps the old contents. -/
def readSdf (uv : Vars) (nspect : Int) (win : WINDOW) : Except Err WINDOW :=
  if uv.has .sdf then .ok { win with sdf := copyIn nspect uv.sdf win.sdf }
  else if nspect > 1 then .error (.missing "sdf")
  else .ok win

/-- Lines 1434-1437: `sfreq`. -/
def readSfreq (uv : Vars) (nspect : Int) (win : WINDOW) : Except Err WINDOW :=
  if uv.has .sfreq then .ok { win with sfreq := copyIn nspect uv.sfreq win.sfreq }
  else .error (.missing "sfreq")

/-- Lines 1409-1438: the narrow-window variables, read when `0 < nspect <= MAXWIN`. -/
def readNarrow (nchan_p : Int) (uv : Vars) (nspect : Int) (win : WINDOW) : Except Err WINDOW :=
  (readIschan uv nspect win).bind fun win =>
  (readNschan nchan_p uv nspect win).bind fun win =>
  (readRestfreq uv nspect win).bind fun win =>
  (readSdf uv nspect win).bind fun win =>
  readSfreq uv nspect win

/-- Lines 1440-1445: the wide-band variables, read when `0 < nwide <= MAXWIDE`. -/
def readWide (uv : Vars) (nwide : Int) (win : WINDOW) : WINDOW :=
  let win : WINDOW :=
    if uv.has .wfreq then { win with wfreq := copyIn nwide uv.wfreq win.wfreq } else win
  if uv.has .wwidth then { win with wwidth := copyIn nwide uv.wwidth win.wwidth } else win

/-- Lines 1447-1450: the loop `for (i=0; i<nspect; i++)` over the indices still to do. -/
def markNarrow : List Nat → WINDOW → WINDOW
  | [], win => win
  | i :: rest, win =>
    markNarrow rest { win with code := setAt win.code i 'N', keep := setAt win.keep i 1 }

/-- Lines 1454-1462: the body of the wide-band loop for wide channel `i`, which fills
position `idx` of the combined arrays. -/
def wideEntry (nchan : Int) (i idx : Nat) (win : WINDOW) : WINDOW :=
  let side : Int := if win.sdf i < 0 then -1 else 1
  { win with
    code := setAt win.code idx 'S'
    keep := setAt win.keep idx 1
    ischan := setAt win.ischan idx (nchan + i + 1)
    nschan := setAt win.nschan idx 1
    sfreq := setAt win.sfreq idx (win.wfreq i)
    sdf := setAt win.sdf idx (side * win.wwidth i)
    restfreq := setAt win.restfreq idx (-1) }

/-- Lines 1453-1463: the loop `for (i=0; i<nwide; i++)` over the indices still to do,
with the running position `idx` (incremented at the end of each turn). -/
def buildWide (nchan : Int) : List Nat → Nat → WINDOW → WINDOW
  | [], _, win => win
  | i :: rest, idx, win => buildWide nchan rest (idx + 1) (wideEntry nchan i idx win)

/-- Lines 1390-1395: local `nchan`, zero when `uv_hasvar ("nchan")` is false. -/
def nchanRead (uv : Vars) : Int := if uv.has .nchan then uv.nchan else 0

/-- Lines 1397-1401: local `nspect` (also stored in `win.nspect`). -/
def nspectRead (uv : Vars) : Int := if uv.has .nspect then uv.nspect else 0

/-- Lines 1403-1407: local `nwide` (also stored in `win.nwide`). -/
def nwideRead (uv : Vars) : Int := if uv.has .nwide then uv.nwide else 0

/-- Function `CarmaFiller::init_window`, on the previous contents `win` of the member;
`nchan_p` is the member read by the single-window default of `nschan`. -/
def init_window (MAXWIN MAXWIDE : Nat) (nchan_p : Int) (uv : Vars) (win : WINDOW) :
    Except Err WINDOW :=
  let nchan : Int := nchanRead uv
  let nspect : Int := nspectRead uv
  let nwide : Int := nwideRead uv
  let win : WINDOW := { win with nspect := nspect, nwide := nwide }
  match (if 0 < nspect ∧ nspect ≤ MAXWIN then readNarrow nchan_p uv nspect win else .ok win) with
  | .error e => .error e
  | .ok win =>
    let win : WINDOW := if 0 < nwide ∧ nwide ≤ MAXWIDE then readWide uv nwide win else win
    let win : WINDOW := markNarrow (List.range nspect.toNat) win
    let idx : Nat := (if nspect > 0 then nspect else 0).toNat
    .ok (buildWide nchan (List.range nwide.toNat) idx win)

/-! ### Concrete layouts -/

/-- A `WINDOW` whose cells are all zero (blank code), as previous contents. -/
def blankWindow : WINDOW :=
  { nspect := 0, nschan := fun _ => 0, ischan := fun _ => 0, sdf := fun _ => 0,
    sfreq := fun _ => 0, restfreq := fun _ => 0, code := fun _ => ' ', keep := fun _ => 0,
    nwide := 0, wfreq := fun _ => 0, wwidth := fun _ => 0 }

/-- Archive variables with every variable reported: `nspect` narrow windows with the given
channel counts, starts and spacings, `nwide` wide channels with the given widths. -/
def layoutVars (nchan nspect nwide : Int) (nschan ischan sdf wwidth : List Int) : Vars :=
  { has := fun _ => true, nchan := nchan, nspect := nspect, nwide := nwide,
    ischan := ofList ischan, nschan := ofList nschan, restfreq := fun _ => 100,
    sdf := ofList sdf, sfreq := fun k => 90 + k, wfreq := fun k => 95 + k,
    wwidth := ofList wwidth, inttime := 10, nants := 2, antpos := fun _ => 0,
    systemp := fun _ => 50, wsystemp := fun _ => 50, source := "A", ra := 0, dec := 0,
    dra := 0, ddec := 0 }

/-- Two narrow windows of 2 and 4 channels (6 channels in all) and one wide channel. -/
def twoNarrowOneWide : Vars := layoutVars 6 2 1 [2, 4] [1, 3] [1, 1] [5]

/-- One narrow window; `ischan` and `nschan` are not reported by `uv_hasvar`. -/
def singleWindowNoChannels : Vars :=
  { layoutVars 6 1 0 [] [] [1] [] with
    has := fun v => !(v == Var.ischan || v == Var.nschan) }

/-- Two narrow windows; `sdf` is not reported by `uv_hasvar`. -/
def twoWindowsNoSdf : Vars :=
  { layoutVars 6 2 0 [2, 4] [1, 3] [] [] with has := fun v => !(v == Var.sdf) }

/-! ## The `CarmaFiller` object and `Tracking` -/

/-- Compile-time bound `MAXFIELD` (line 58). -/
def MAXFIELD : Nat := 256

/-- The members of `CarmaFiller` used by the code modelled here. The counters `nfield` and
`npoint` start at zero and only grow. `fcount` is addressed by `ifield`, which the code
never range-checks, so it is a map on all integers. -/
structure Filler where
  nArray_p : Int
  nAnt_p : List Int
  ras_p : List Val
  decs_p : List Val
  source_p : List String
  purpose_p : List String
  ifield : Int
  nfield : Nat
  npoint : Nat
  dra : Nat → Val
  ddec : Nat → Val
  ra : Nat → Val
  dec : Nat → Val
  field : Nat → Int
  fcount : Int → Int
  sid_p : Nat → Int
  dra_p : Val
  ddec_p : Val
  object_p : String
  nIF_p : Int
  nants_p : Int
  nchan_p : Int
  nwide_p : Int
  npol_p : Int
  antpos : Nat → Val
  ra_p : Val
  dec_p : Val
  inttime_p : Val
  time_p : Val
  win : WINDOW
  apply_tsys : Bool
  systemp : Int → Val
  zero_tsys : Int

/-- Constructor `CarmaFiller::CarmaFiller` (lines 160-181): the counters are cleared and the
casa vectors start empty; every other member keeps whatever `junk` holds. The closing call
`Tracking (-1)` only registers variables with the uv library. -/
def construct (apply_tsys : Bool) (junk : Filler) : Filler :=
  { junk with
    nArray_p := 0, nfield := 0, npoint := 0, apply_tsys := apply_tsys, zero_tsys := 0,
    fcount := fun _ => 0, nAnt_p := [], ras_p := [], decs_p := [], source_p := [],
    purpose_p := [] }

/-- Lines 1323-1328: `j = -1`, then the first `i` with `source_p[i] == object_p`; the list
holds the entries from position `i` on. -/
def findSource (object_p : String) : List String → Nat → Int
  | [], _ => -1
  | name :: rest, i => if name = object_p then (i : Int) else findSource object_p rest (i + 1)

/-- Lines 1331-1336: `k = -1`, then the first `i < nfield` whose stored offsets equal
`dra_p`, `ddec_p` and whose source index equals `j`; the list holds the `i` still to test. -/
def findField (s : Filler) (j : Int) : List Nat → Int
  | [] => -1
  | i :: rest =>
    if s.dra i = s.dra_p ∧ s.ddec i = s.ddec_p ∧ s.field i = j then (i : Int)
    else findField s j rest

/-- Lines 1254-1256. -/
def trackInttime (uv : Vars) (s : Filler) : Filler :=
  if uv.has .inttime then { s with inttime_p := uv.inttime } else s

/-- Lines 1258-1270. -/
def trackAntpos (record : Int) (uv : Vars) (s : Filler) : Filler :=
  if uv.has .antpos ∧ record ≠ 0 then
    { s with nants_p := uv.nants, antpos := copyIn (3 * uv.nants) uv.antpos s.antpos }
  else s

/-- Effect of `uvgetvr_c (..., systemp, n)` on the array `systemp`, which the row loop
addresses by antenna numbers of type `Int`. -/
def copyInZ (n : Int) (src : Nat → Val) (dst : Int → Val) : Int → Val :=
  fun k => if 0 ≤ k ∧ k < n then src k.toNat else dst k

/-- Lines 1272-1290. -/
def trackSystemp (uv : Vars) (s : Filler) : Filler :=
  if s.win.nspect > 0 then
    if uv.has .systemp then
      { s with systemp := copyInZ (s.nants_p * s.win.nspect) uv.systemp s.systemp }
    else s
  else
    if uv.has .wsystemp then { s with systemp := copyInZ s.nants_p uv.wsystemp s.systemp }
    else s

/-- Lines 1293-1314: a reported `source` appends one entry to `source_p`, `ras_p`, `decs_p`
and `purpose_p`, whether or not the name is already listed. -/
def trackSource (uv : Vars) (s : Filler) : Filler :=
  if uv.has .source then
    { s with
      object_p := uv.source
      source_p := s.source_p ++ [uv.source]
      ras_p := s.ras_p ++ [0]
      decs_p := s.decs_p ++ [0]
      purpose_p := s.purpose_p ++ ["S"] }
  else s

/-- Lines 1345-1371, branch `k < 0`: a new field for source index `j`. -/
def newField (j : Int) (s : Filler) : Except Err Filler :=
  let ifield : Nat := s.nfield
  let s : Filler := { s with ifield := ifield, nfield := s.nfield + 1 }
  if s.nfield ≥ MAXFIELD then .error .tooManyFields
  else
    let s : Filler :=
      { s with
        ra := setAt s.ra ifield s.ra_p
        dec := setAt s.dec ifield s.dec_p
        dra := setAt s.dra ifield s.dra_p
        ddec := setAt s.ddec ifield s.ddec_p
        field := setAt s.field ifield j
        sid_p := setAt s.sid_p ifield (j + 1) }
    if s.dra_p = 0 ∧ s.ddec_p = 0 then
      if 0 ≤ j ∧ j.toNat < s.ras_p.length ∧ j.toNat < s.decs_p.length then
        .ok { s with
          ras_p := s.ras_p.set j.toNat s.ra_p
          decs_p := s.decs_p.set j.toNat s.dec_p
          sid_p := setAt s.sid_p ifield (-(s.sid_p ifield)) }
      else .error .outOfBounds
    else .ok s

/-- Lines 1316-1372: the field lookup, run when `source`, `dra` or `ddec` is reported. The
offsets `dra_p`, `ddec_p` are set to zero (line 1320), not read from the archive. -/
def trackField (uv : Vars) (s : Filler) : Except Err Filler :=
  if uv.has .source || uv.has .dra || uv.has .ddec then
    let s : Filler :=
      { s with
        npoint := s.npoint + 1, ra_p := uv.ra, dec_p := uv.dec, dra_p := 0, ddec_p := 0,
        object_p := uv.source }
    let j : Int := findSource s.object_p s.source_p 0
    let k : Int := findField s j (List.range s.nfield)
    if k < 0 then newField j s else .ok { s with ifield := k }
  else .ok s

/-- Lines 1254-1314: the updates of `Tracking` that precede the field lookup. -/
def beforeLookup (s : Filler) (record : Int) (uv : Vars) : Filler :=
  trackSource uv (trackSystemp uv (trackAntpos record uv (trackInttime uv s)))

/-- Function `CarmaFiller::Tracking (record)`, with the archive variables `uv` as the uv
library reports them during the call. A negative `record` only registers variables. -/
def Tracking (s : Filler) (record : Int) (uv : Vars) : Except Err Filler :=
  if record < 0 then .ok s
  else trackField uv (beforeLookup s record uv)

/-- A sequence of calls of `Tracking`, each with its record number and archive variables. -/
def trackAll : Filler → List (Int × Vars) → Except Err Filler
  | s, [] => .ok s
  | s, (record, uv) :: rest =>
    match Tracking s record uv with
    | .error e => .error e
    | .ok s1 => trackAll s1 rest

/-! ## `fillSourceTable` -/

/-- One row of the SOURCE table: the values put by lines 1111-1128 (rest frequencies in
GHz, without the factor 1e9). -/
structure SourceRow where
  sourceId : Nat
  name : String
  spectralWindowId : Int
  direction : Val × Val
  restFrequency : List Val
  deriving DecidableEq, Repr

/-- Lines 1097-1129: the loop over `src`, the list holding the names from `src` on. An entry
whose name occurs at a lower index sets `skip` and the loop is left by `break`. -/
def sourceRows (s : Filler) : Nat → List String → List SourceRow
  | _, [] => []
  | src, name :: rest =>
    if name ∈ s.source_p.take src then []
    else
      { sourceId := src, name := name, spectralWindowId := 0,
        direction := (s.ras_p.getD src 0, s.decs_p.getD src 0),
        restFrequency := (List.range s.win.nspect.toNat).map s.win.restfreq }
        :: sourceRows s (src + 1) rest

/-- Function `CarmaFiller::fillSourceTable`: the rows added to the SOURCE table. -/
def fillSourceTable (s : Filler) : List SourceRow :=
  sourceRows s 0 s.source_p

/-! ### Pointing updates as the specification describes them -/

/-- A call reaches the field lookup. -/
def isLookup (c : Int × Vars) : Bool :=
  decide (0 ≤ c.1) && (c.2.has .source || c.2.has .dra || c.2.has .ddec)

/-- The list of source names after a call: a reported `source` adds its name. -/
def namesAfter (names : List String) (c : Int × Vars) : List String :=
  if decide (0 ≤ c.1) && c.2.has .source then names ++ [c.2.source] else names

/-- One lookup as observed from outside: the offset pair attributed to it, the source
index of its name among the names listed so far, and the current `ra`, `dec`. -/
structure Pointing where
  offset : Val × Val
  source : Int
  ra : Val
  dec : Val
  deriving DecidableEq, Repr

/-- The pointings of a call sequence, in order; `offset` tells which offset pair a call
carries and `names` are the source names listed before the first call. -/
def pointings (offset : Vars → Val × Val) : List String → List (Int × Vars) → List Pointing
  | _, [] => []
  | names, c :: rest =>
    if isLookup c then
      { offset := offset c.2, source := findSource c.2.source (namesAfter names c) 0,
        ra := c.2.ra, dec := c.2.dec } :: pointings offset (namesAfter names c) rest
    else pointings offset (namesAfter names c) rest

/-- The offset pair of the archive variables `dra`, `ddec`. -/
def archiveOffset (uv : Vars) : Val × Val := (uv.dra, uv.ddec)

/-- The offset pair that line 1320 gives to every lookup. -/
def zeroOffset (_ : Vars) : Val × Val := (0, 0)

/-- Key of a pointing: offset pair and source index. -/
def Pointing.key (p : Pointing) : Val × Val × Int := (p.offset.1, p.offset.2, p.source)

/-- The distinct elements of a list, in order of first appearance. -/
def firstSeen {α : Type} [DecidableEq α] : List α → List α
  | [] => []
  | a :: rest => a :: (firstSeen rest).filter (fun b => b ≠ a)

/-- Linear-scan insertion: `k` is appended to the directory `acc` unless already there. -/
def insertNew {α : Type} [DecidableEq α] (acc : List α) (k : α) : List α :=
  if k ∈ acc then acc else acc ++ [k]

/-- Keys of the fields `0 .. nfield-1` of the object. -/
def fieldKeys (s : Filler) : List (Val × Val × Int) :=
  (List.range s.nfield).map fun i => (s.dra i, s.ddec i, s.field i)

/-- An object all of whose cells are zero, for concrete runs. -/
def zeroFiller : Filler :=
  { nArray_p := 0, nAnt_p := [], ras_p := [], decs_p := [], source_p := [], purpose_p := [],
    ifield := 0, nfield := 0, npoint := 0, dra := fun _ => 0, ddec := fun _ => 0,
    ra := fun _ => 0, dec := fun _ => 0, field := fun _ => 0, fcount := fun _ => 0,
    sid_p := fun _ => 0, dra_p := 0, ddec_p := 0, object_p := "", nIF_p := 0, nants_p := 0,
    nchan_p := 0, nwide_p := 0, npol_p := 0, antpos := fun _ => 0, ra_p := 0, dec_p := 0,
    inttime_p := 0, time_p := 0, win := blankWindow, apply_tsys := false,
    systemp := fun _ => 0, zero_tsys := 0 }

/-- Archive variables at a call of `Tracking`: which of `source`, `dra`, `ddec` are
reported, the source name, the position and the archive's offset pair. -/
def pointingVars (hasSource hasDra hasDdec : Bool) (source : String) (ra dec dra ddec : Val) :
    Vars :=
  { layoutVars 6 2 0 [2, 4] [1, 3] [1, 1] [] with
    has := fun v =>
      (v == Var.source && hasSource) || (v == Var.dra && hasDra) || (v == Var.ddec && hasDdec)
    source := source, ra := ra, dec := dec, dra := dra, ddec := ddec }

/-- Two calls for source "A": the first reports `source`, `dra`, `ddec` with archive offset
(0, 0); the second reports a changed `dra`, the archive offset being (1, 0). -/
def sameSourceTwoOffsets : List (Int × Vars) :=
  [(0, pointingVars true true true "A" 5 7 0 0), (1, pointingVars false true false "A" 5 7 1 0)]

/-- Four calls reporting the source names "A", "B", "A", "C". -/
def namesABAC : List (Int × Vars) :=
  [(0, pointingVars true false false "A" 5 7 0 0), (1, pointingVars true false false "B" 6 8 0 0),
   (2, pointingVars true false false "A" 5 7 0 0), (3, pointingVars true false false "C" 9 4 0 0)]

/-- One call for source "A" at position (5, 7) whose archive offset is (1, 0). -/
def offsetOnlyPointing : List (Int × Vars) :=
  [(0, pointingVars true true true "A" 5 7 1 0)]

/-! ## `fillMSMainTable` -/

/-- One record of the stream, as `uvread_c`, `uvwread_c`, `uvrdvr_c` and `uvupdate_c`
deliver it: channel counts, preamble (u, v, w, time, baseline), (Re, Im) pairs, validity
flags, the variables `npol` and `pol`, the change signal, and the archive variables.
The preamble cells are whole numbers; cell 4 holds the baseline number. -/
structure Visibility where
  nread : Int
  nwread : Int
  preamble : Nat → Val
  data : Nat → Val
  flags : Nat → Int
  npol : Int
  pol : Int
  uvupdate : Bool
  vars : Vars

/-- Value put into the WEIGHT or SIGMA column: all correlations equal to one, to zero, or
to `1 / sqrt (t1 * t2)` for two system temperatures. -/
inductive Weight where
  | one
  | zero
  | invSqrt (t1 t2 : Val)
  deriving DecidableEq, Repr

/-- The values put into one row of the main table. `flagRow`, `weight` and `sigma` are
`none` when the row loop puts nothing into that column at this row. `time` and `uvw` are
the archive values before the fixed unit conversions (floating point, not modelled); the
sign flip of `uvw` is kept. `rowFlag` is not a column: it records the local `rowFlag`
computed for the row at line 699. -/
structure MainRow where
  flagRow : Option Bool
  rowFlag : Bool
  scanNumber : Int
  exposure : Val
  interval : Val
  data : List (List (Val × Val))
  flag : List (List Bool)
  antenna1 : Int
  antenna2 : Int
  time : Val
  weight : Option Weight
  sigma : Option Weight
  uvw : Val × Val × Val
  arrayId : Int
  dataDescId : Int
  fieldId : Int
  deriving DecidableEq, Repr

/-- The object together with the locals of `fillMSMainTable` and the rows added so far.
`nCorr`, `nChan` are the locals copied from `npol_p`, `nchan_p` at entry; `vis` and `flag`
are the matrices of shape `(nCorr, nChan)`, as maps on index pairs. -/
structure MainLoop where
  f : Filler
  rows : List MainRow
  nCorr : Int
  nChan : Int
  group : Nat
  row : Int
  polsleft : Int
  lastRowFlag : Bool
  iscan : Int
  ifield_old : Int
  ant1 : Int
  ant2 : Int
  time : Val
  interval : Val
  uvw : Val × Val × Val
  vis : Int → Int → Val × Val
  flag : Int → Int → Bool

/-- Lines 478-515: the locals before the first record; `junk` gives the locals that are
not initialised. -/
def mainStart (f : Filler) (snumbase : Int) (junk : MainLoop) : MainLoop :=
  { junk with
    f := { f with nAnt_p := [0] }, rows := [], nCorr := f.npol_p, nChan := f.nchan_p,
    group := 0, row := -1, polsleft := 0,
    lastRowFlag := false, iscan := snumbase,
    vis := fun _ _ => (0, 0), flag := fun _ _ => false }

/-- Test `allTrue (flag)` (also `allEQ (flag, True)`) on the `nCorr` by `nChan` matrix. -/
def allTrue (nCorr nChan : Int) (flag : Int → Int → Bool) : Bool :=
  (List.range nCorr.toNat).all fun j => (List.range nChan.toNat).all fun c => flag j c

/-- Lines 592-593: `nAnt_p[nArray_p-1] = max (nAnt_p[nArray_p-1], ant)`. -/
def raiseAnt (f : Filler) (ant : Int) : Except Err Filler :=
  if 0 ≤ f.nArray_p - 1 then
    match f.nAnt_p[(f.nArray_p - 1).toNat]? with
    | none => .error .outOfBounds
    | some old => .ok { f with nAnt_p := f.nAnt_p.set (f.nArray_p - 1).toNat (max old ant) }
  else .error .outOfBounds

/-- Number of halvings that bring `n` below `2 ^ 24`, the width of the significand of
a `float`; `fuel` bounds the search (a `float` has no value from `2 ^ 128` on). -/
def excessBits : Nat → Nat → Nat
  | 0, _ => 0
  | fuel + 1, n => if n < 16777216 then 0 else excessBits fuel (n / 2) + 1

/-- Conversion of a whole `double` to `float` (line 542, `baseline = preamble[4]`): the
nearest value with a 24-bit significand, ties to the even significand. Whole numbers
of magnitude below `2 ^ 24` are kept. -/
def toFloat (x : Val) : Val :=
  if x.natAbs < 16777216 then x
  else
    let e : Nat := excessBits 128 x.natAbs
    let q : Nat := x.natAbs / 2 ^ e
    let rest : Nat := x.natAbs % 2 ^ e
    let half : Nat := 2 ^ e / 2
    let q : Nat := if rest > half ∨ (rest = half ∧ q % 2 = 1) then q + 1 else q
    x.sign * ((q * 2 ^ e : Nat) : Int)

/-- Lines 538-617: the start of a group of simultaneous polarizations. -/
def seedGroup (m : MainLoop) (r : Visibility) : Except Err MainLoop :=
  let polsleft : Int := r.npol
  let baseline : Val := toFloat (r.preamble 4)
  let ant1 : Int := Int.tdiv baseline 256
  let ant2 : Int := baseline - ant1 * 256
  let time : Val := r.preamble 3
  let f : Filler := { m.f with time_p := time }
  let interval : Val := f.inttime_p
  match (if r.uvupdate then Tracking f m.group r.vars else .ok f) with
  | .error e => .error e
  | .ok f =>
    match raiseAnt f ant1 with
    | .error e => .error e
    | .ok f =>
      match raiseAnt f ant2 with
      | .error e => .error e
      | .ok f =>
        .ok { m with
          f := f, polsleft := polsleft, ant1 := ant1 - 1, ant2 := ant2 - 1, time := time,
          interval := interval,
          uvw := (-(r.preamble 0), -(r.preamble 1), -(r.preamble 2)),
          flag := fun _ _ => true, vis := fun _ _ => (0, 0) }

/-- Lines 634-647: the channel loop for correlation `casapolidx`, over the channels still
to do, with the running index `count` into `data`. -/
def channelLoop (r : Visibility) (casapolidx : Int) :
    List Nat → Nat → (Int → Int → Val × Val) × (Int → Int → Bool) →
      (Int → Int → Val × Val) × (Int → Int → Bool)
  | [], _, b => b
  | chan :: rest, count, (vis, flag) =>
    let visFlag : Bool := if r.flags (count / 2) = 0 then false else true
    let visReal : Val := r.data count
    let visImag : Val := -(r.data (count + 1))
    let wt : Int := if visFlag then 1 else -1
    channelLoop r casapolidx rest (count + 2)
      (fun j c => if j = casapolidx ∧ c = (chan : Int) then (visReal, visImag) else vis j c,
       fun j c => if j = casapolidx ∧ c = (chan : Int) then decide (wt ≤ 0) else flag j c)

/-- Lines 632-649: the samples of one record are written into the buffers, and `polsleft`
is decremented. -/
def accumulate (m : MainLoop) (r : Visibility) (casapolidx : Int) : MainLoop :=
  let b := channelLoop r casapolidx (List.range m.nChan.toNat) 0 (m.vis, m.flag)
  { m with vis := b.1, flag := b.2, polsleft := m.polsleft - 1 }

/-- Lines 710-721: the weight of a row and the count of zero system temperatures. -/
def rowWeight (m : MainLoop) : Option Weight × Option Weight × Int :=
  if m.f.apply_tsys then
    if m.f.systemp m.ant1 = 0 ∨ m.f.systemp m.ant2 = 0 then
      (some .zero, some .one, m.f.zero_tsys + 1)
    else (some (.invSqrt (m.f.systemp m.ant1) (m.f.systemp m.ant2)), some .one, m.f.zero_tsys)
  else
    (if m.row + 1 = 0 then some .one else none, if m.row + 1 = 0 then some .one else none,
      m.f.zero_tsys)

/-- Lines 655-732: the body of the loop over `ifno`. A window whose `keep` is zero is
passed over; otherwise one row is added and filled. -/
def emitRow (m : MainLoop) (ifno : Nat) : MainLoop :=
  if m.f.win.keep ifno = 0 then m
  else
    let row : Int := m.row + 1
    let ifield_old : Int := if row = 0 then m.f.ifield else m.ifield_old
    let lastRowFlag : Bool := if row = 0 then false else m.lastRowFlag
    let nCorr : Int := m.nCorr
    let woffset : Int := m.f.win.ischan ifno - 1
    let wsize : Int := m.f.win.nschan ifno
    let tvis : List (List (Val × Val)) :=
      (List.range nCorr.toNat).map fun j =>
        (List.range wsize.toNat).map fun i => m.vis j (i + woffset)
    let tflag : List (List Bool) :=
      (List.range nCorr.toNat).map fun j =>
        (List.range wsize.toNat).map fun i => m.flag j (i + woffset)
    let rowFlag : Bool := allTrue nCorr m.nChan m.flag
    let w := rowWeight m
    let iscan : Int := if ifield_old ≠ m.f.ifield then m.iscan + 1 else m.iscan
    let newRow : MainRow :=
      { flagRow :=
          if rowFlag ≠ lastRowFlag then some rowFlag
          else if row = 0 then some false else none
        rowFlag := rowFlag
        scanNumber := iscan
        exposure := m.interval
        interval := m.interval
        data := tvis
        flag := tflag
        antenna1 := m.ant1
        antenna2 := m.ant2
        time := m.time
        weight := w.1
        sigma := w.2.1
        uvw := m.uvw
        arrayId := m.f.nArray_p - 1
        dataDescId := ifno
        fieldId := m.f.ifield }
    { m with
      f := { m.f with zero_tsys := w.2.2 }
      rows := m.rows ++ [newRow]
      row := row
      lastRowFlag := if rowFlag ≠ lastRowFlag then rowFlag else lastRowFlag
      iscan := iscan
      ifield_old := m.f.ifield }

/-- Lines 651-736: when the group is complete and not wholly flagged, the loop over the
first `nIF_p` windows, then `fcount[ifield]++`. -/
def flushGroup (m : MainLoop) : MainLoop :=
  if m.polsleft = 0 ∧ allTrue m.nCorr m.nChan m.flag = false then
    let m : MainLoop := (List.range m.f.nIF_p.toNat).foldl emitRow m
    { m with f := { m.f with fcount := fun k =>
        if k = m.f.ifield then m.f.fcount k + 1 else m.f.fcount k } }
  else m

/-- How one turn of the record loop ends. -/
inductive Outcome where
  /-- The loop goes on with the next record. -/
  | next (m : MainLoop)
  /-- The loop is left by `break`. -/
  | done (m : MainLoop)

/-- Lines 517-736: one turn of the loop `for (group=0; ; group++)` on the record `r`. -/
def processRecord (m : MainLoop) (r : Visibility) : Except Err Outcome :=
  if r.nread ≤ 0 then .ok (.done m)
  else
    let nwread : Int := if m.f.win.nspect > 0 then r.nwread else 0
    if r.nread ≠ m.f.nchan_p then .ok (.done m)
    else if nwread ≠ m.f.nwide_p then .ok (.done m)
    else
      match (if m.polsleft = 0 then seedGroup m r else .ok m) with
      | .error e => .error e
      | .ok m1 =>
        match casapolidx r.pol with
        | .error e => .error e
        | .ok idx =>
          let m2 : MainLoop := flushGroup (accumulate m1 r idx)
          .ok (.next { m2 with group := m2.group + 1 })

/-- The record loop of `fillMSMainTable` on the records of the stream; the end of the list
is the end of the archive (`nread <= 0`). -/
def fillLoop : MainLoop → List Visibility → Except Err MainLoop
  | m, [] => .ok m
  | m, r :: rest =>
    match processRecord m r with
    | .error e => .error e
    | .ok (.done m1) => .ok m1
    | .ok (.next m1) => fillLoop m1 rest

/-- The state reached when the loop takes every record of the list without `break`. -/
def advance : MainLoop → List Visibility → Option MainLoop
  | m, [] => some m
  | m, r :: rest =>
    match processRecord m r with
    | .ok (.next m1) => advance m1 rest
    | _ => none

/-! ### The steps of `main` before the record loop -/

/-- Function `CarmaFiller::checkInput` on the first record `r` of the archive, for the
members used by the record loop: the window layout, `nchan_p`, `nwide_p`, the antenna and
temperature tables, `inttime_p`, `ra_p`, `dec_p`, and `npol_p = 4` (line 295). -/
def checkInput (MAXWIN MAXWIDE : Nat) (f : Filler) (r : Visibility) : Except Err Filler :=
  if r.nread ≤ 0 ∧ r.nwread ≤ 0 then .error .noData
  else
    match init_window MAXWIN MAXWIDE f.nchan_p r.vars f.win with
    | .error e => .error e
    | .ok win =>
      let f : Filler := { f with win := win }
      let f : Filler :=
        if f.win.nspect > 0 then { f with nchan_p := r.nread, nwide_p := r.nwread }
        else { f with nchan_p := r.nread, nwide_p := 0 }
      let f : Filler :=
        { f with nants_p := r.vars.nants,
                 antpos := copyIn (3 * r.vars.nants) r.vars.antpos f.antpos }
      let f : Filler :=
        if f.win.nspect > 0 then
          { f with systemp := copyInZ (f.nants_p * f.win.nspect) r.vars.systemp f.systemp }
        else { f with systemp := copyInZ f.nants_p r.vars.wsystemp f.systemp }
      let f : Filler :=
        if f.win.nspect > 0 then
          { f with win :=
              { f.win with restfreq := copyIn f.win.nspect r.vars.restfreq f.win.restfreq } }
        else f
      .ok { f with
        object_p := r.vars.source, inttime_p := r.vars.inttime, ra_p := r.vars.ra,
        dec_p := r.vars.dec, npol_p := 4 }

/-- Line 330 of `setupMeasurementSet`: `nIF_p = win.nspect`, the number of spectral windows
"for narrow channels only". -/
def setupMeasurementSet (f : Filler) : Filler :=
  { f with nIF_p := f.win.nspect }

/-- Lines 864-866 of `fillAntennaTable`: a new array, with antenna count zero. -/
def fillAntennaTable (f : Filler) : Filler :=
  { f with nArray_p := f.nArray_p + 1,
           nAnt_p := ((f.nAnt_p ++
             List.replicate ((f.nArray_p + 1).toNat - f.nAnt_p.length) 0).take
               (f.nArray_p + 1).toNat).set f.nArray_p.toNat 0 }

/-- The calls of `main` up to the entry of the record loop, on the first record of the
archive: constructor, `checkInput`, `setupMeasurementSet`, `fillAntennaTable`, and the
initialisation of the locals of `fillMSMainTable`. -/
def enterLoop (MAXWIN MAXWIDE : Nat) (apply_tsys : Bool) (snumbase : Int) (junk : MainLoop)
    (r : Visibility) : Except Err MainLoop :=
  match checkInput MAXWIN MAXWIDE (construct apply_tsys junk.f) r with
  | .error e => .error e
  | .ok f => .ok (mainStart (fillAntennaTable (setupMeasurementSet f)) snumbase junk)

/-! ### Concrete streams -/

/-- Locals all zero, for concrete runs. -/
def zeroLoop : MainLoop :=
  { f := zeroFiller, rows := [], nCorr := 0, nChan := 0, group := 0, row := 0, polsleft := 0,
    lastRowFlag := false, iscan := 0, ifield_old := 0, ant1 := 0, ant2 := 0, time := 0,
    interval := 0, uvw := (0, 0, 0), vis := fun _ _ => (0, 0), flag := fun _ _ => false }

/-- A record of baseline 1-2 with `nread` channels, all samples (3, 4), the given validity
flags, `npol`, `pol` and archive variables; the change signal is set. -/
def visRecord (vars : Vars) (nread nwread npol pol : Int) (flags : List Int) : Visibility :=
  { nread := nread, nwread := nwread,
    preamble := ofList [10, 20, 30, 2455000, 258],
    data := fun k => if k % 2 = 0 then 3 else 4,
    flags := ofList flags, npol := npol, pol := pol, uvupdate := true, vars := vars }

/-- Archive with two narrow windows (2 and 4 channels) and one wide channel, source "A"
reported. -/
def narrowWideVars : Vars :=
  { twoNarrowOneWide with source := "A" }

/-- Archive with one wide channel only: `nspect` is not reported. -/
def wideOnlyVars : Vars :=
  { layoutVars 0 0 1 [] [] [] [5] with
    has := fun v => !(v == Var.nspect || v == Var.nchan) }

/-- The archive with two narrow windows and one wide channel: a record of 6 channels, all
valid, for a group of `npol` polarizations. -/
def narrowWideRecord (npol pol : Int) : Visibility :=
  visRecord narrowWideVars 6 1 npol pol [1, 1, 1, 1, 1, 1]

/-- The same record with every channel flagged invalid. -/
def narrowWideFlagged (npol pol : Int) : Visibility :=
  visRecord narrowWideVars 6 1 npol pol [0, 0, 0, 0, 0, 0]

/-- The wide-only archive: a record with one valid channel, one polarization. -/
def wideOnlyRecord : Visibility :=
  visRecord wideOnlyVars 1 1 1 (-5) [1]

/-- The loop state at entry for the archive with two narrow windows and one wide channel
(`MAXWIN = 16`, `MAXWIDE = 18`, unit weights, scan numbers from 0). -/
def narrowWideStart : MainLoop :=
  match enterLoop 16 18 false 0 zeroLoop (narrowWideRecord 2 (-5)) with
  | .ok m => m
  | .error _ => zeroLoop

/-- The object after the calls of `Tracking` for the source names "A" and "B". -/
def afterAB : Filler :=
  match trackAll (construct false zeroFiller) (namesABAC.take 2) with
  | .ok s => s
  | .error _ => zeroFiller

/-! ## `fillSpectralWindowTable` -/

/-- Specification side: a column written at the first row and afterwards only at a row
whose value differs from the value of the row before; `prev` is the value of the row
before, if any. -/
def writesOnChange : Option Bool → List Bool → List (Option Bool)
  | _, [] => []
  | prev, b :: rest =>
    (if prev = some b then none else some b) :: writesOnChange (some b) rest

/-- Reading a column back, a cell that was not written taking the last written value
(`last` before the first cell). -/
def carryForward : Bool → List (Option Bool) → List Bool
  | _, [] => []
  | last, none :: rest => last :: carryForward last rest
  | _, some b :: rest => b :: carryForward b rest

/-- Specification side: the number of rows `k` with `1 <= k <= r` whose field id differs
from the field id of row `k - 1`. -/
def changesUpTo (fieldIds : List Int) (r : Nat) : Nat :=
  ((List.range r).filter fun k => decide (fieldIds.getD (k + 1) 0 ≠ fieldIds.getD k 0)).length

/-- Specification side: scan numbers counted from `snumbase`, one more at every change of
field id. -/
def scanNumbers (snumbase : Int) (fieldIds : List Int) : List Int :=
  (List.range fieldIds.length).map fun r => snumbase + (changesUpTo fieldIds r : Int)

/-! ### States of the row loop between two rows -/

/-- The state of the FLAG_ROW column and of `lastRowFlag` between two rows. -/
def flagRowInv (m : MainLoop) : Prop :=
  m.row + 1 = (m.rows.length : Int) ∧
  m.rows.map MainRow.flagRow = writesOnChange none (m.rows.map MainRow.rowFlag) ∧
  ∀ (l : List MainRow) (last : MainRow), m.rows = l ++ [last] → m.lastRowFlag = last.rowFlag

/-- The state of the SCAN_NUMBER column, of `iscan` and of `ifield_old` between two rows. -/
def scanInv (snumbase : Int) (m : MainLoop) : Prop :=
  m.row + 1 = (m.rows.length : Int) ∧
  m.rows.map MainRow.scanNumber = scanNumbers snumbase (m.rows.map MainRow.fieldId) ∧
  (m.rows = [] → m.iscan = snumbase) ∧
  ∀ (l : List MainRow) (last : MainRow), m.rows = l ++ [last] →
    m.iscan = snumbase + (changesUpTo (m.rows.map MainRow.fieldId) l.length : Int) ∧
    m.ifield_old = last.fieldId

/-! ### More concrete archives -/

/-- Archive reporting 17 narrow windows of one channel and 19 wide channels. -/
def manyWindows : Vars :=
  layoutVars 17 17 19 (List.replicate 17 1) ((List.range 17).map fun i : Nat => Int.ofNat (i + 1))
    (List.replicate 17 1) (List.replicate 19 5)

/-- A record of the archive with two narrow windows whose first two channels (window 0)
are invalid and whose last four channels (window 1) are valid. -/
def narrowWideHalfFlagged : Visibility :=
  visRecord narrowWideVars 6 1 1 (-5) [0, 0, 1, 1, 1, 1]

/-- The archive with two narrow windows, the system temperature of antenna 0 in window 0
being zero. -/
def zeroTempVars : Vars :=
  { narrowWideVars with systemp := fun k => if k = 0 then 0 else 50 }

/-- A record of the archive `zeroTempVars` (baseline 1-2), all channels valid. -/
def zeroTempRecord : Visibility :=
  visRecord zeroTempVars 6 1 1 (-5) [1, 1, 1, 1, 1, 1]

/-- The loop state at entry for the archive `zeroTempVars`, weights from the system
temperatures. -/
def zeroTempStart : MainLoop :=
  match enterLoop 16 18 true 0 zeroLoop zeroTempRecord with
  | .ok m => m
  | .error _ => zeroLoop

/-- A record of the archive with two narrow windows whose baseline number is
`256 * 65536 + 1`. -/
def largeBaselineRecord : Visibility :=
  { narrowWideRecord 1 (-5) with preamble := ofList [10, 20, 30, 2455000, 16777217] }

/-- The source name number `i`: the letter 'a' repeated `i + 1` times. -/
def sourceName (i : Nat) : String := String.mk (List.replicate (i + 1) 'a')

/-- Calls of `Tracking` number 0 to `n - 1`, call `i` reporting the new source
`sourceName i`. -/
def distinctSources (n : Nat) : List (Int × Vars) :=
  (List.range n).map fun i => (Int.ofNat i, pointingVars true false false (sourceName i) 0 0 0 0)
/-! ## Lemmas on the window layout -/

theorem setAt_same {α : Type} (a : Nat → α) (i : Nat) (v : α) : setAt a i v i = v := by
  simp [setAt]

theorem setAt_other {α : Type} (a : Nat → α) (i k : Nat) (v : α) (h : k ≠ i) :
    setAt a i v k = a k := by
  simp [setAt, h]

theorem markNarrow_keep (l : List Nat) (win : WINDOW) (k : Nat) :
    (markNarrow l win).keep k = if k ∈ l then 1 else win.keep k := by
  induction l generalizing win with
  | nil => simp [markNarrow]
  | cons i rest ih =>
    simp only [markNarrow, ih, List.mem_cons]
    by_cases h1 : k ∈ rest
    · simp [h1]
    · by_cases h2 : k = i <;> simp [h1, h2, setAt]

theorem markNarrow_code (l : List Nat) (win : WINDOW) (k : Nat) :
    (markNarrow l win).code k = if k ∈ l then 'N' else win.code k := by
  induction l generalizing win with
  | nil => simp [markNarrow]
  | cons i rest ih =>
    simp only [markNarrow, ih, List.mem_cons]
    by_cases h1 : k ∈ rest
    · simp [h1]
    · by_cases h2 : k = i <;> simp [h1, h2, setAt]

theorem markNarrow_frame (l : List Nat) (win : WINDOW) :
    (markNarrow l win).nspect = win.nspect ∧ (markNarrow l win).nwide = win.nwide ∧
    (markNarrow l win).nschan = win.nschan ∧ (markNarrow l win).ischan = win.ischan ∧
    (markNarrow l win).sdf = win.sdf ∧ (markNarrow l win).sfreq = win.sfreq ∧
    (markNarrow l win).restfreq = win.restfreq ∧ (markNarrow l win).wfreq = win.wfreq ∧
    (markNarrow l win).wwidth = win.wwidth := by
  induction l generalizing win with
  | nil => simp [markNarrow]
  | cons i rest ih => simpa [markNarrow] using ih _

theorem buildWide_append (nchan : Int) (l1 l2 : List Nat) (idx : Nat) (win : WINDOW) :
    buildWide nchan (l1 ++ l2) idx win
      = buildWide nchan l2 (idx + l1.length) (buildWide nchan l1 idx win) := by
  induction l1 generalizing idx win with
  | nil => simp [buildWide]
  | cons i rest ih =>
    have h : idx + 1 + rest.length = idx + (rest.length + 1) := by omega
    rw [List.cons_append, buildWide, buildWide, ih, List.length_cons, h]

theorem buildWide_range_succ (nchan : Int) (m idx : Nat) (win : WINDOW) :
    buildWide nchan (List.range (m + 1)) idx win
      = wideEntry nchan m (idx + m) (buildWide nchan (List.range m) idx win) := by
  rw [List.range_succ, buildWide_append]
  simp [buildWide]

theorem buildWide_frame (nchan : Int) (m idx : Nat) (win : WINDOW) :
    (buildWide nchan (List.range m) idx win).nspect = win.nspect ∧
    (buildWide nchan (List.range m) idx win).nwide = win.nwide ∧
    (buildWide nchan (List.range m) idx win).wfreq = win.wfreq ∧
    (buildWide nchan (List.range m) idx win).wwidth = win.wwidth := by
  induction m with
  | zero => simp [buildWide]
  | succ m ih => rw [buildWide_range_succ]; simpa [wideEntry] using ih

theorem buildWide_keep (nchan : Int) (m idx : Nat) (win : WINDOW) (k : Nat) :
    (buildWide nchan (List.range m) idx win).keep k
      = if idx ≤ k ∧ k < idx + m then 1 else win.keep k := by
  induction m with
  | zero =>
    have : ¬ (idx ≤ k ∧ k < idx) := by omega
    simp [buildWide, this]
  | succ m ih =>
    rw [buildWide_range_succ]
    simp only [wideEntry, setAt, ih]
    by_cases h : k = idx + m
    · subst h; simp
    · simp only [h, if_false]
      by_cases h2 : idx ≤ k ∧ k < idx + m
      · have : idx ≤ k ∧ k < idx + (m + 1) := ⟨h2.1, by omega⟩
        simp [h2, this]
      · have : ¬ (idx ≤ k ∧ k < idx + (m + 1)) := by omega
        simp [h2, this]

theorem buildWide_code (nchan : Int) (m idx : Nat) (win : WINDOW) (k : Nat) :
    (buildWide nchan (List.range m) idx win).code k
      = if idx ≤ k ∧ k < idx + m then 'S' else win.code k := by
  induction m with
  | zero =>
    have : ¬ (idx ≤ k ∧ k < idx) := by omega
    simp [buildWide, this]
  | succ m ih =>
    rw [buildWide_range_succ]
    simp only [wideEntry, setAt, ih]
    by_cases h : k = idx + m
    · subst h; simp
    · simp only [h, if_false]
      by_cases h2 : idx ≤ k ∧ k < idx + m
      · have : idx ≤ k ∧ k < idx + (m + 1) := ⟨h2.1, by omega⟩
        simp [h2, this]
      · have : ¬ (idx ≤ k ∧ k < idx + (m + 1)) := by omega
        simp [h2, this]

theorem buildWide_nschan (nchan : Int) (m idx : Nat) (win : WINDOW) (k : Nat) :
    (buildWide nchan (List.range m) idx win).nschan k
      = if idx ≤ k ∧ k < idx + m then 1 else win.nschan k := by
  induction m with
  | zero =>
    have : ¬ (idx ≤ k ∧ k < idx) := by omega
    simp [buildWide, this]
  | succ m ih =>
    rw [buildWide_range_succ]
    simp only [wideEntry, setAt, ih]
    by_cases h : k = idx + m
    · subst h; simp
    · simp only [h, if_false]
      by_cases h2 : idx ≤ k ∧ k < idx + m
      · have : idx ≤ k ∧ k < idx + (m + 1) := ⟨h2.1, by omega⟩
        simp [h2, this]
      · have : ¬ (idx ≤ k ∧ k < idx + (m + 1)) := by omega
        simp [h2, this]

theorem buildWide_restfreq (nchan : Int) (m idx : Nat) (win : WINDOW) (k : Nat) :
    (buildWide nchan (List.range m) idx win).restfreq k
      = if idx ≤ k ∧ k < idx + m then -1 else win.restfreq k := by
  induction m with
  | zero =>
    have : ¬ (idx ≤ k ∧ k < idx) := by omega
    simp [buildWide, this]
  | succ m ih =>
    rw [buildWide_range_succ]
    simp only [wideEntry, setAt, ih]
    by_cases h : k = idx + m
    · subst h; simp
    · simp only [h, if_false]
      by_cases h2 : idx ≤ k ∧ k < idx + m
      · have : idx ≤ k ∧ k < idx + (m + 1) := ⟨h2.1, by omega⟩
        simp [h2, this]
      · have : ¬ (idx ≤ k ∧ k < idx + (m + 1)) := by omega
        simp [h2, this]

theorem buildWide_ischan (nchan : Int) (m idx : Nat) (win : WINDOW) (k : Nat) :
    (buildWide nchan (List.range m) idx win).ischan k
      = if idx ≤ k ∧ k < idx + m then nchan + ((k - idx : Nat) : Int) + 1 else win.ischan k := by
  induction m with
  | zero =>
    have : ¬ (idx ≤ k ∧ k < idx) := by omega
    simp [buildWide, this]
  | succ m ih =>
    rw [buildWide_range_succ]
    simp only [wideEntry, setAt, ih]
    by_cases h : k = idx + m
    · subst h; simp
    · simp only [h, if_false]
      by_cases h2 : idx ≤ k ∧ k < idx + m
      · have : idx ≤ k ∧ k < idx + (m + 1) := ⟨h2.1, by omega⟩
        simp [h2, this]
      · have : ¬ (idx ≤ k ∧ k < idx + (m + 1)) := by omega
        simp [h2, this]

theorem buildWide_sfreq (nchan : Int) (m idx : Nat) (win : WINDOW) (k : Nat) :
    (buildWide nchan (List.range m) idx win).sfreq k
      = if idx ≤ k ∧ k < idx + m then win.wfreq (k - idx) else win.sfreq k := by
  induction m with
  | zero =>
    have : ¬ (idx ≤ k ∧ k < idx) := by omega
    simp [buildWide, this]
  | succ m ih =>
    rw [buildWide_range_succ]
    simp only [wideEntry, setAt, ih, (buildWide_frame nchan m idx win).2.2.1]
    by_cases h : k = idx + m
    · subst h; simp
    · simp only [h, if_false]
      by_cases h2 : idx ≤ k ∧ k < idx + m
      · have : idx ≤ k ∧ k < idx + (m + 1) := ⟨h2.1, by omega⟩
        simp [h2, this]
      · have : ¬ (idx ≤ k ∧ k < idx + (m + 1)) := by omega
        simp [h2, this]

/-- Cells of `sdf` outside the block written by the wide loop keep their value. -/
theorem buildWide_sdf_outside (nchan : Int) (m idx : Nat) (win : WINDOW) (k : Nat)
    (h : k < idx ∨ idx + m ≤ k) :
    (buildWide nchan (List.range m) idx win).sdf k = win.sdf k := by
  induction m with
  | zero => simp [buildWide]
  | succ m ih =>
    rw [buildWide_range_succ]
    have hk : k ≠ idx + m := by omega
    simp only [wideEntry, setAt, hk, if_false]
    exact ih (by omega)

theorem readWide_frame (uv : Vars) (nwide : Int) (win : WINDOW) :
    (readWide uv nwide win).nspect = win.nspect ∧ (readWide uv nwide win).nwide = win.nwide ∧
    (readWide uv nwide win).nschan = win.nschan ∧ (readWide uv nwide win).ischan = win.ischan ∧
    (readWide uv nwide win).sdf = win.sdf ∧ (readWide uv nwide win).sfreq = win.sfreq ∧
    (readWide uv nwide win).restfreq = win.restfreq ∧ (readWide uv nwide win).code = win.code ∧
    (readWide uv nwide win).keep = win.keep := by
  unfold readWide
  cases uv.has .wfreq <;> cases uv.has .wwidth <;> simp

theorem readWide_wfreq (uv : Vars) (nwide : Int) (win : WINDOW) :
    (readWide uv nwide win).wfreq
      = if uv.has .wfreq then copyIn nwide uv.wfreq win.wfreq else win.wfreq := by
  unfold readWide
  cases uv.has .wfreq <;> cases uv.has .wwidth <;> simp

theorem readWide_wwidth (uv : Vars) (nwide : Int) (win : WINDOW) :
    (readWide uv nwide win).wwidth
      = if uv.has .wwidth then copyIn nwide uv.wwidth win.wwidth else win.wwidth := by
  unfold readWide
  cases uv.has .wfreq <;> cases uv.has .wwidth <;> simp

/-- What a successful `readNarrow` leaves in the structure. -/
theorem readNarrow_ok (nchan_p : Int) (uv : Vars) (nspect : Int) (win w : WINDOW)
    (h : readNarrow nchan_p uv nspect win = .ok w) :
    w.nspect = win.nspect ∧ w.nwide = win.nwide ∧ w.wfreq = win.wfreq ∧ w.wwidth = win.wwidth ∧
    w.code = win.code ∧ w.keep = win.keep ∧
    w.ischan = (if uv.has .ischan then copyIn nspect uv.ischan win.ischan
      else setAt win.ischan 0 1) ∧
    w.nschan = (if uv.has .nschan then copyIn nspect uv.nschan win.nschan
      else setAt win.nschan 0 nchan_p) ∧
    w.restfreq = copyIn nspect uv.restfreq win.restfreq ∧
    w.sdf = (if uv.has .sdf then copyIn nspect uv.sdf win.sdf else win.sdf) ∧
    w.sfreq = copyIn nspect uv.sfreq win.sfreq ∧
    (uv.has .ischan = false → nspect = 1) ∧ (uv.has .nschan = false → nspect = 1) ∧
    uv.has .restfreq = true ∧ (uv.has .sdf = false → nspect ≤ 1) ∧ uv.has .sfreq = true := by
  unfold readNarrow readIschan readNschan readRestfreq readSdf readSfreq at h
  by_cases h6 : nspect = 1
  · subst h6
    cases h1 : uv.has .ischan <;> cases h2 : uv.has .nschan <;> cases h3 : uv.has .restfreq <;>
      cases h4 : uv.has .sdf <;> cases h5 : uv.has .sfreq <;>
      simp [h1, h2, h3, h4, h5, Except.bind] at h <;> subst h <;> simp
  · cases h1 : uv.has .ischan <;> cases h2 : uv.has .nschan <;> cases h3 : uv.has .restfreq <;>
      cases h4 : uv.has .sdf <;> cases h5 : uv.has .sfreq <;>
      by_cases h7 : nspect > 1 <;>
      simp [h1, h2, h3, h4, h5, h6, h7, Except.bind] at h <;>
      (subst h; simp; try omega)

/-- When every narrow-window variable is reported, `readNarrow` succeeds. -/
theorem readNarrow_total (nchan_p : Int) (uv : Vars) (nspect : Int) (win : WINDOW)
    (h1 : uv.has .ischan = true) (h2 : uv.has .nschan = true) (h3 : uv.has .restfreq = true)
    (h4 : uv.has .sdf = true) (h5 : uv.has .sfreq = true) :
    ∃ w, readNarrow nchan_p uv nspect win = .ok w := by
  simp [readNarrow, readIschan, readNschan, readRestfreq, readSdf, readSfreq, h1, h2, h3, h4, h5,
    Except.bind]
/-- The result of `init_window` in terms of its four stages. -/
theorem init_window_ok (MAXWIN MAXWIDE : Nat) (nchan_p : Int) (uv : Vars) (win w : WINDOW)
    (h : init_window MAXWIN MAXWIDE nchan_p uv win = .ok w) :
    ∃ w1 : WINDOW,
      (if 0 < nspectRead uv ∧ nspectRead uv ≤ MAXWIN
        then readNarrow nchan_p uv (nspectRead uv)
          { win with nspect := nspectRead uv, nwide := nwideRead uv }
        else .ok { win with nspect := nspectRead uv, nwide := nwideRead uv }) = .ok w1 ∧
      w = buildWide (nchanRead uv) (List.range (nwideRead uv).toNat)
        ((if nspectRead uv > 0 then nspectRead uv else 0).toNat)
        (markNarrow (List.range (nspectRead uv).toNat)
          (if 0 < nwideRead uv ∧ nwideRead uv ≤ MAXWIDE
            then readWide uv (nwideRead uv) w1 else w1)) := by
  unfold init_window at h
  simp only at h
  split at h
  · exact absurd h (by simp)
  · rename_i w1 hw1
    refine ⟨w1, hw1, ?_⟩
    injection h with h
    exact h.symm

/-- Stage view of `init_window` for a narrow-window count within the bound. -/
theorem init_window_stages (MAXWIN MAXWIDE : Nat) (nchan_p : Int) (uv : Vars) (win w : WINDOW)
    (nSpect : Nat) (hns : nspectRead uv = nSpect) (hs : nSpect ≤ MAXWIN)
    (h : init_window MAXWIN MAXWIDE nchan_p uv win = .ok w) :
    ∃ w1 w2 : WINDOW,
      (nSpect = 0 → w1 = { win with nspect := nSpect, nwide := nwideRead uv }) ∧
      (0 < nSpect → readNarrow nchan_p uv nSpect
          { win with nspect := nSpect, nwide := nwideRead uv } = .ok w1) ∧
      (w2 = w1 ∨ w2 = readWide uv (nwideRead uv) w1) ∧
      (0 < nwideRead uv → nwideRead uv ≤ MAXWIDE → w2 = readWide uv (nwideRead uv) w1) ∧
      w = buildWide (nchanRead uv) (List.range (nwideRead uv).toNat) nSpect
        (markNarrow (List.range nSpect) w2) := by
  obtain ⟨w1, h1, h2⟩ := init_window_ok MAXWIN MAXWIDE nchan_p uv win w h
  rw [hns] at h1 h2
  have e1 : (if (nSpect : Int) > 0 then (nSpect : Int) else 0).toNat = nSpect := by
    split <;> omega
  simp only [Int.toNat_ofNat, e1] at h2
  refine ⟨w1, _, ?_, ?_, ?_, ?_, h2⟩
  · intro h0
    subst h0
    simpa using h1.symm
  · intro hpos
    have : (0 : Int) < nSpect ∧ (nSpect : Int) ≤ MAXWIN := ⟨by omega, by omega⟩
    simpa [this] using h1
  · split
    · exact Or.inr rfl
    · exact Or.inl rfl
  · intro ha hb
    simp [ha, hb]
theorem copyIn_lt {α : Type} (n : Int) (src dst : Nat → α) (k : Nat) (h : (k : Int) < n) :
    copyIn n src dst k = src k := by
  simp [copyIn, h]

/-- How `readNarrow` fails. -/
theorem readNarrow_error (nchan_p : Int) (uv : Vars) (nspect : Int) (win : WINDOW) (e : Err)
    (h : readNarrow nchan_p uv nspect win = .error e) :
    (e = .missing "ischan" ∧ uv.has .ischan = false ∧ nspect ≠ 1) ∨
    (e = .missing "nschan" ∧ uv.has .nschan = false ∧ nspect ≠ 1) ∨
    (e = .missing "restfreq" ∧ uv.has .restfreq = false) ∨
    (e = .missing "sdf" ∧ uv.has .sdf = false ∧ 1 < nspect) ∨
    (e = .missing "sfreq" ∧ uv.has .sfreq = false) := by
  unfold readNarrow readIschan readNschan readRestfreq readSdf readSfreq at h
  cases h1 : uv.has .ischan <;> cases h2 : uv.has .nschan <;> cases h3 : uv.has .restfreq <;>
    cases h4 : uv.has .sdf <;> cases h5 : uv.has .sfreq <;>
    by_cases h6 : nspect = 1 <;> by_cases h7 : nspect > 1 <;>
    simp [h1, h2, h3, h4, h5, h6, h7, Except.bind] at h <;>
    (subst h; simp; try omega)

/-- When `readNarrow` succeeds. -/
theorem readNarrow_isOk (nchan_p : Int) (uv : Vars) (nspect : Int) (win : WINDOW)
    (h1 : uv.has .ischan = true ∨ nspect = 1) (h2 : uv.has .nschan = true ∨ nspect = 1)
    (h3 : uv.has .restfreq = true) (h4 : uv.has .sdf = true ∨ nspect ≤ 1)
    (h5 : uv.has .sfreq = true) :
    ∃ w, readNarrow nchan_p uv nspect win = .ok w := by
  unfold readNarrow readIschan readNschan readRestfreq readSdf readSfreq
  have h4n : uv.has .sdf = true ∨ ¬ nspect > 1 := by
    rcases h4 with h | h
    · exact Or.inl h
    · exact Or.inr (by omega)
  have hi : ∃ w1, (if uv.has .ischan = true then
        Except.ok { win with ischan := copyIn nspect uv.ischan win.ischan }
      else if nspect = 1 then Except.ok { win with ischan := setAt win.ischan 0 1 }
      else Except.error (Err.missing "ischan")) = Except.ok w1 := by
    rcases h1 with h | h
    · exact ⟨_, if_pos h⟩
    · by_cases g : uv.has .ischan = true
      · exact ⟨_, if_pos g⟩
      · rw [if_neg g, if_pos h]; exact ⟨_, rfl⟩
  obtain ⟨w1, e1⟩ := hi
  rw [e1]
  have hn : ∃ w2, (if uv.has .nschan = true then
        Except.ok { w1 with nschan := copyIn nspect uv.nschan w1.nschan }
      else if nspect = 1 then Except.ok { w1 with nschan := setAt w1.nschan 0 nchan_p }
      else Except.error (Err.missing "nschan")) = Except.ok w2 := by
    rcases h2 with h | h
    · exact ⟨_, if_pos h⟩
    · by_cases g : uv.has .nschan = true
      · exact ⟨_, if_pos g⟩
      · rw [if_neg g, if_pos h]; exact ⟨_, rfl⟩
  obtain ⟨w2, e2⟩ := hn
  simp only [Except.bind, e2, h3, h5, if_true]
  rcases h4n with h | h
  · simp [h]
  · by_cases g : uv.has .sdf = true
    · simp [g]
    · simp [g, h]

/-- For a window count in `1..MAXWIN`, `init_window` fails exactly when `readNarrow` does. -/
theorem init_window_narrow (MAXWIN MAXWIDE : Nat) (nchan_p : Int) (uv : Vars) (win : WINDOW)
    (nSpect : Nat) (hns : nspectRead uv = nSpect) (h1 : 1 ≤ nSpect) (hs : nSpect ≤ MAXWIN) :
    (∀ e, init_window MAXWIN MAXWIDE nchan_p uv win = .error e ↔
      readNarrow nchan_p uv nSpect { win with nspect := nSpect, nwide := nwideRead uv }
        = .error e) ∧
    ((∃ w, init_window MAXWIN MAXWIDE nchan_p uv win = .ok w) ↔
      ∃ w1, readNarrow nchan_p uv nSpect { win with nspect := nSpect, nwide := nwideRead uv }
        = .ok w1) := by
  have h0 : (0 : Int) < nSpect ∧ (nSpect : Int) ≤ MAXWIN := ⟨by omega, by omega⟩
  unfold init_window
  simp only [hns, h0, and_self, if_true]
  cases hr : readNarrow nchan_p uv nSpect { win with nspect := nSpect, nwide := nwideRead uv }
    with
  | error e0 => simp
  | ok w1 => simp

/-! ## Lemmas on `firstSeen` -/

theorem mem_firstSeen {α : Type} [DecidableEq α] (l : List α) (a : α) :
    a ∈ firstSeen l ↔ a ∈ l := by
  induction l with
  | nil => simp [firstSeen]
  | cons b rest ih =>
    simp only [firstSeen, List.mem_cons, List.mem_filter, ih, decide_eq_true_eq]
    by_cases h : a = b
    · simp [h]
    · simp [h]

theorem nodup_firstSeen {α : Type} [DecidableEq α] (l : List α) : (firstSeen l).Nodup := by
  induction l with
  | nil => simp [firstSeen]
  | cons b rest ih =>
    simp only [firstSeen, List.nodup_cons, List.mem_filter, decide_eq_true_eq]
    exact ⟨fun h => h.2 rfl, ih.filter _⟩

theorem length_firstSeen {α : Type} [DecidableEq α] (l : List α) :
    (firstSeen l).length = l.toFinset.card := by
  rw [← List.toFinset_card_of_nodup (nodup_firstSeen l)]
  congr 1
  ext a
  simp [mem_firstSeen]

/-- Linear-scan insertion of the keys `l` into the directory `acc`. -/
theorem foldl_insert_eq {α : Type} [DecidableEq α] (l acc : List α) :
    l.foldl insertNew acc = acc ++ (firstSeen l).filter (fun b => b ∉ acc) := by
  induction l generalizing acc with
  | nil => simp [firstSeen]
  | cons a rest ih =>
    simp only [List.foldl_cons, firstSeen, insertNew]
    by_cases h : a ∈ acc
    · rw [if_pos h, ih, List.filter_cons]
      simp only [h, not_true_eq_false, decide_False, Bool.false_eq_true, if_false,
        List.filter_filter]
      congr 1
      apply List.filter_congr
      intro b _
      by_cases hb : b ∈ acc
      · simp [hb]
      · have : b ≠ a := fun e => hb (e ▸ h)
        simp [hb, this]
    · rw [if_neg h, ih, List.filter_cons]
      simp only [h, not_false_eq_true, decide_True, if_true, List.filter_filter,
        List.append_assoc, List.singleton_append]
      congr 2
      apply List.filter_congr
      intro b _
      by_cases hb : b ∈ acc <;> by_cases hba : b = a <;> simp [hb, hba]
/-! ## Lemmas on `Tracking` -/

theorem findField_neg_iff (s : Filler) (j : Int) (l : List Nat) :
    findField s j l < 0 ↔
      ∀ i ∈ l, ¬ (s.dra i = s.dra_p ∧ s.ddec i = s.ddec_p ∧ s.field i = j) := by
  induction l with
  | nil => simp [findField]
  | cons i rest ih =>
    simp only [findField, List.mem_cons, forall_eq_or_imp]
    by_cases h : s.dra i = s.dra_p ∧ s.ddec i = s.ddec_p ∧ s.field i = j
    · rw [if_pos h]
      constructor
      · intro h2; omega
      · intro h2; exact absurd h h2.1
    · rw [if_neg h, ih]
      exact ⟨fun h2 => ⟨h, h2⟩, fun h2 => h2.2⟩

/-- A scan that finds a field returns the first matching index of the list. -/
theorem findField_found (s : Filler) (j : Int) (l : List Nat)
    (h : ¬ findField s j l < 0) :
    ∃ i ∈ l, findField s j l = (i : Int) ∧
      s.dra i = s.dra_p ∧ s.ddec i = s.ddec_p ∧ s.field i = j := by
  induction l with
  | nil => simp [findField] at h
  | cons i rest ih =>
    simp only [findField] at h ⊢
    by_cases hm : s.dra i = s.dra_p ∧ s.ddec i = s.ddec_p ∧ s.field i = j
    · rw [if_pos hm]
      exact ⟨i, List.mem_cons_self _ _, rfl, hm⟩
    · rw [if_neg hm] at h ⊢
      obtain ⟨i', hi', h1, h2⟩ := ih h
      exact ⟨i', List.mem_cons_of_mem _ hi', h1, h2⟩

theorem mem_fieldKeys (s : Filler) (key : Val × Val × Int) :
    key ∈ fieldKeys s ↔ ∃ i, i < s.nfield ∧ (s.dra i, s.ddec i, s.field i) = key := by
  simp [fieldKeys]

theorem length_fieldKeys (s : Filler) : (fieldKeys s).length = s.nfield := by
  simp [fieldKeys]

/-- The scan of the lookup fails exactly when the key is not a key of the directory. -/
theorem findField_neg_iff_not_mem (s : Filler) (j : Int) :
    findField s j (List.range s.nfield) < 0 ↔ (s.dra_p, s.ddec_p, j) ∉ fieldKeys s := by
  rw [findField_neg_iff, mem_fieldKeys]
  simp only [List.mem_range, Prod.mk.injEq, not_exists, not_and]

theorem trackInttime_frame (uv : Vars) (s : Filler) :
    (trackInttime uv s).nfield = s.nfield ∧
    (trackInttime uv s).dra = s.dra ∧ (trackInttime uv s).ddec = s.ddec ∧
    (trackInttime uv s).ra = s.ra ∧ (trackInttime uv s).dec = s.dec ∧
    (trackInttime uv s).field = s.field ∧ (trackInttime uv s).sid_p = s.sid_p ∧
    (trackInttime uv s).ifield = s.ifield ∧ (trackInttime uv s).source_p = s.source_p ∧
    (trackInttime uv s).ras_p = s.ras_p ∧ (trackInttime uv s).decs_p = s.decs_p := by
  unfold trackInttime
  split <;> simp

theorem trackAntpos_frame (record : Int) (uv : Vars) (s : Filler) :
    (trackAntpos record uv s).nfield = s.nfield ∧
    (trackAntpos record uv s).dra = s.dra ∧ (trackAntpos record uv s).ddec = s.ddec ∧
    (trackAntpos record uv s).ra = s.ra ∧ (trackAntpos record uv s).dec = s.dec ∧
    (trackAntpos record uv s).field = s.field ∧ (trackAntpos record uv s).sid_p = s.sid_p ∧
    (trackAntpos record uv s).ifield = s.ifield ∧
    (trackAntpos record uv s).source_p = s.source_p ∧
    (trackAntpos record uv s).ras_p = s.ras_p ∧ (trackAntpos record uv s).decs_p = s.decs_p := by
  unfold trackAntpos
  split <;> simp

theorem trackSystemp_frame (uv : Vars) (s : Filler) :
    (trackSystemp uv s).nfield = s.nfield ∧
    (trackSystemp uv s).dra = s.dra ∧ (trackSystemp uv s).ddec = s.ddec ∧
    (trackSystemp uv s).ra = s.ra ∧ (trackSystemp uv s).dec = s.dec ∧
    (trackSystemp uv s).field = s.field ∧ (trackSystemp uv s).sid_p = s.sid_p ∧
    (trackSystemp uv s).ifield = s.ifield ∧ (trackSystemp uv s).source_p = s.source_p ∧
    (trackSystemp uv s).ras_p = s.ras_p ∧ (trackSystemp uv s).decs_p = s.decs_p := by
  unfold trackSystemp
  split <;> split <;> simp

theorem trackSource_frame (uv : Vars) (s : Filler) :
    (trackSource uv s).nfield = s.nfield ∧
    (trackSource uv s).dra = s.dra ∧ (trackSource uv s).ddec = s.ddec ∧
    (trackSource uv s).ra = s.ra ∧ (trackSource uv s).dec = s.dec ∧
    (trackSource uv s).field = s.field ∧ (trackSource uv s).sid_p = s.sid_p ∧
    (trackSource uv s).ifield = s.ifield ∧
    (trackSource uv s).source_p
      = (if uv.has .source then s.source_p ++ [uv.source] else s.source_p) ∧
    (trackSource uv s).ras_p = (if uv.has .source then s.ras_p ++ [0] else s.ras_p) ∧
    (trackSource uv s).decs_p = (if uv.has .source then s.decs_p ++ [0] else s.decs_p) := by
  unfold trackSource
  split <;> simp

/-- What the updates before the lookup leave of the two directories. -/
theorem beforeLookup_frame (s : Filler) (record : Int) (uv : Vars) :
    (beforeLookup s record uv).nfield = s.nfield ∧
    (beforeLookup s record uv).dra = s.dra ∧ (beforeLookup s record uv).ddec = s.ddec ∧
    (beforeLookup s record uv).ra = s.ra ∧ (beforeLookup s record uv).dec = s.dec ∧
    (beforeLookup s record uv).field = s.field ∧ (beforeLookup s record uv).sid_p = s.sid_p ∧
    (beforeLookup s record uv).ifield = s.ifield ∧
    (beforeLookup s record uv).source_p
      = (if uv.has .source then s.source_p ++ [uv.source] else s.source_p) ∧
    (beforeLookup s record uv).ras_p = (if uv.has .source then s.ras_p ++ [0] else s.ras_p) ∧
    (beforeLookup s record uv).decs_p
      = (if uv.has .source then s.decs_p ++ [0] else s.decs_p) := by
  unfold beforeLookup
  obtain ⟨a1, a2, a3, a4, a5, a6, a7, a8, a9, a10, a11⟩ := trackInttime_frame uv s
  obtain ⟨b1, b2, b3, b4, b5, b6, b7, b8, b9, b10, b11⟩ :=
    trackAntpos_frame record uv (trackInttime uv s)
  obtain ⟨c1, c2, c3, c4, c5, c6, c7, c8, c9, c10, c11⟩ :=
    trackSystemp_frame uv (trackAntpos record uv (trackInttime uv s))
  obtain ⟨d1, d2, d3, d4, d5, d6, d7, d8, d9, d10, d11⟩ :=
    trackSource_frame uv (trackSystemp uv (trackAntpos record uv (trackInttime uv s)))
  refine ⟨?_, ?_, ?_, ?_, ?_, ?_, ?_, ?_, ?_, ?_, ?_⟩
  · rw [d1, c1, b1, a1]
  · rw [d2, c2, b2, a2]
  · rw [d3, c3, b3, a3]
  · rw [d4, c4, b4, a4]
  · rw [d5, c5, b5, a5]
  · rw [d6, c6, b6, a6]
  · rw [d7, c7, b7, a7]
  · rw [d8, c8, b8, a8]
  · rw [d9, c9, b9, a9]
  · rw [d10, c10, b10, a10]
  · rw [d11, c11, b11, a11]
/-- Without a reported `source`, `dra` or `ddec` the lookup is skipped. -/
theorem trackField_skip (uv : Vars) (t : Filler)
    (hl : (uv.has .source || uv.has .dra || uv.has .ddec) = false) :
    trackField uv t = .ok t := by
  unfold trackField
  simp [hl]

/-- The lookup when the key `(0, 0, j)` is already a key of the directory. -/
theorem trackField_found (uv : Vars) (t s1 : Filler)
    (hl : (uv.has .source || uv.has .dra || uv.has .ddec) = true)
    (hk : ((0 : Val), (0 : Val), findSource uv.source t.source_p 0) ∈ fieldKeys t)
    (h : trackField uv t = .ok s1) :
    s1.nfield = t.nfield ∧ s1.dra = t.dra ∧ s1.ddec = t.ddec ∧ s1.ra = t.ra ∧
    s1.dec = t.dec ∧ s1.field = t.field ∧ s1.sid_p = t.sid_p ∧ s1.source_p = t.source_p ∧
    s1.ras_p = t.ras_p ∧ s1.decs_p = t.decs_p ∧
    (∃ i, i < t.nfield ∧ s1.ifield = (i : Int) ∧ t.dra i = 0 ∧ t.ddec i = 0 ∧
      t.field i = findSource uv.source t.source_p 0) := by
  unfold trackField at h
  simp only [hl, if_true] at h
  have hnot : ¬ findField
      { t with npoint := t.npoint + 1, ra_p := uv.ra, dec_p := uv.dec, dra_p := 0,
               ddec_p := 0, object_p := uv.source }
      (findSource uv.source t.source_p 0) (List.range t.nfield) < 0 := by
    intro hneg
    have := (findField_neg_iff_not_mem
      { t with npoint := t.npoint + 1, ra_p := uv.ra, dec_p := uv.dec, dra_p := 0,
               ddec_p := 0, object_p := uv.source } (findSource uv.source t.source_p 0)).1 hneg
    exact this hk
  rw [if_neg hnot] at h
  injection h with h
  obtain ⟨i, hi, h1, h2, h3, h4⟩ := findField_found _ _ _ hnot
  subst h
  refine ⟨rfl, rfl, rfl, rfl, rfl, rfl, rfl, rfl, rfl, rfl, i, List.mem_range.1 hi, h1, h2, h3, h4⟩

/-- The lookup when the key `(0, 0, j)` is new: a field is appended at index `nfield`. -/
theorem trackField_new (uv : Vars) (t s1 : Filler)
    (hl : (uv.has .source || uv.has .dra || uv.has .ddec) = true)
    (hk : ((0 : Val), (0 : Val), findSource uv.source t.source_p 0) ∉ fieldKeys t)
    (h : trackField uv t = .ok s1) :
    s1.nfield = t.nfield + 1 ∧ t.nfield + 1 < MAXFIELD ∧
    0 ≤ findSource uv.source t.source_p 0 ∧
    (findSource uv.source t.source_p 0).toNat < t.ras_p.length ∧
    (findSource uv.source t.source_p 0).toNat < t.decs_p.length ∧
    s1.dra = setAt t.dra t.nfield 0 ∧ s1.ddec = setAt t.ddec t.nfield 0 ∧
    s1.ra = setAt t.ra t.nfield uv.ra ∧ s1.dec = setAt t.dec t.nfield uv.dec ∧
    s1.field = setAt t.field t.nfield (findSource uv.source t.source_p 0) ∧
    s1.sid_p = setAt t.sid_p t.nfield (-(findSource uv.source t.source_p 0 + 1)) ∧
    s1.source_p = t.source_p ∧
    s1.ras_p = t.ras_p.set (findSource uv.source t.source_p 0).toNat uv.ra ∧
    s1.decs_p = t.decs_p.set (findSource uv.source t.source_p 0).toNat uv.dec ∧
    s1.ifield = (t.nfield : Int) := by
  unfold trackField at h
  simp only [hl, if_true] at h
  have hneg : findField
      { t with npoint := t.npoint + 1, ra_p := uv.ra, dec_p := uv.dec, dra_p := 0,
               ddec_p := 0, object_p := uv.source }
      (findSource uv.source t.source_p 0) (List.range t.nfield) < 0 :=
    (findField_neg_iff_not_mem
      { t with npoint := t.npoint + 1, ra_p := uv.ra, dec_p := uv.dec, dra_p := 0,
               ddec_p := 0, object_p := uv.source } (findSource uv.source t.source_p 0)).2 hk
  rw [if_pos hneg] at h
  unfold newField at h
  simp only [and_self, if_true] at h
  split at h
  · exact absurd h (by simp)
  · rename_i hcap
    split at h
    · rename_i hj
      injection h with h
      subst h
      refine ⟨rfl, by simpa using hcap, hj.1, hj.2.1, hj.2.2, rfl, rfl, rfl, rfl, rfl, ?_, rfl,
        rfl, rfl, rfl⟩
      funext k
      simp only [setAt]
      split <;> simp
    · exact absurd h (by simp)
/-- Keys of the directory after a field has been appended at index `nfield`. -/
theorem fieldKeys_append (t s1 : Filler) (j : Int) (hn : s1.nfield = t.nfield + 1)
    (h1 : s1.dra = setAt t.dra t.nfield 0) (h2 : s1.ddec = setAt t.ddec t.nfield 0)
    (h3 : s1.field = setAt t.field t.nfield j) :
    fieldKeys s1 = fieldKeys t ++ [((0 : Val), (0 : Val), j)] := by
  unfold fieldKeys
  rw [hn, List.range_succ, List.map_append, h1, h2, h3]
  congr 1
  · apply List.map_congr_left
    intro i hi
    have : i ≠ t.nfield := by
      have := List.mem_range.1 hi
      omega
    simp [setAt, this]
  · simp [setAt]

theorem fieldKeys_congr (t s1 : Filler) (hn : s1.nfield = t.nfield)
    (h1 : s1.dra = t.dra) (h2 : s1.ddec = t.ddec) (h3 : s1.field = t.field) :
    fieldKeys s1 = fieldKeys t := by
  unfold fieldKeys
  rw [hn, h1, h2, h3]

/-- One call of `Tracking` seen on the two directories. -/
theorem Tracking_step (s s1 : Filler) (record : Int) (uv : Vars)
    (h : Tracking s record uv = .ok s1) :
    s1.source_p = namesAfter s.source_p (record, uv) ∧
    (isLookup (record, uv) = false →
      fieldKeys s1 = fieldKeys s ∧
      s1.ras_p = (if decide (0 ≤ record) && uv.has .source then s.ras_p ++ [0] else s.ras_p) ∧
      s1.decs_p
        = (if decide (0 ≤ record) && uv.has .source then s.decs_p ++ [0] else s.decs_p)) ∧
    (isLookup (record, uv) = true →
      (((0 : Val), (0 : Val), findSource uv.source (namesAfter s.source_p (record, uv)) 0)
          ∈ fieldKeys s →
        fieldKeys s1 = fieldKeys s ∧
        s1.ras_p = (if uv.has .source then s.ras_p ++ [0] else s.ras_p) ∧
        s1.decs_p = (if uv.has .source then s.decs_p ++ [0] else s.decs_p)) ∧
      (((0 : Val), (0 : Val), findSource uv.source (namesAfter s.source_p (record, uv)) 0)
          ∉ fieldKeys s →
        fieldKeys s1 = fieldKeys s ++
          [((0 : Val), (0 : Val),
            findSource uv.source (namesAfter s.source_p (record, uv)) 0)] ∧
        0 ≤ findSource uv.source (namesAfter s.source_p (record, uv)) 0 ∧
        (findSource uv.source (namesAfter s.source_p (record, uv)) 0).toNat
          < (if uv.has .source then s.ras_p ++ [0] else s.ras_p).length ∧
        (findSource uv.source (namesAfter s.source_p (record, uv)) 0).toNat
          < (if uv.has .source then s.decs_p ++ [0] else s.decs_p).length ∧
        s1.ras_p = (if uv.has .source then s.ras_p ++ [0] else s.ras_p).set
          (findSource uv.source (namesAfter s.source_p (record, uv)) 0).toNat uv.ra ∧
        s1.decs_p = (if uv.has .source then s.decs_p ++ [0] else s.decs_p).set
          (findSource uv.source (namesAfter s.source_p (record, uv)) 0).toNat uv.dec)) := by
  unfold Tracking at h
  by_cases hr : record < 0
  · rw [if_pos hr] at h
    injection h with h
    subst h
    have hd : decide (0 ≤ record) = false := by simp; omega
    simp [namesAfter, isLookup, hd]
  · rw [if_neg hr] at h
    have hd : decide (0 ≤ record) = true := by simp; omega
    obtain ⟨b1, b2, b3, b4, b5, b6, b7, b8, b9, b10, b11⟩ := beforeLookup_frame s record uv
    have hkeys : fieldKeys (beforeLookup s record uv) = fieldKeys s :=
      fieldKeys_congr _ _ b1 b2 b3 b6
    have hnames : namesAfter s.source_p (record, uv) = (beforeLookup s record uv).source_p := by
      rw [b9]; simp [namesAfter, hd]
    rw [hnames]
    simp only [isLookup, hd, Bool.true_and]
    by_cases hl : (uv.has .source || uv.has .dra || uv.has .ddec) = true
    · refine ⟨?_, fun hf => absurd hl (by simp [hf]), fun _ => ⟨?_, ?_⟩⟩
      · by_cases hk : ((0 : Val), (0 : Val),
            findSource uv.source (beforeLookup s record uv).source_p 0)
            ∈ fieldKeys (beforeLookup s record uv)
        · exact (trackField_found uv _ s1 hl hk h).2.2.2.2.2.2.2.1
        · exact (trackField_new uv _ s1 hl hk h).2.2.2.2.2.2.2.2.2.2.2.1
      · intro hk
        rw [← hkeys] at hk
        obtain ⟨f1, f2, f3, f4, f5, f6, f7, f8, f9, f10, _⟩ := trackField_found uv _ s1 hl hk h
        refine ⟨?_, ?_, ?_⟩
        · rw [← hkeys]; exact fieldKeys_congr _ _ f1 f2 f3 f6
        · rw [f9, b10]
        · rw [f10, b11]
      · intro hk
        rw [← hkeys] at hk
        obtain ⟨n1, n2, n3, n4, n5, n6, n7, n8, n9, n10, n11, n12, n13, n14, n15⟩ :=
          trackField_new uv _ s1 hl hk h
        rw [b10] at n4 n13
        rw [b11] at n5 n14
        refine ⟨?_, n3, n4, n5, n13, n14⟩
        rw [← hkeys]
        exact fieldKeys_append _ _ _ n1 n6 n7 n10
    · have hl2 : (uv.has .source || uv.has .dra || uv.has .ddec) = false := by
        simpa using hl
      rw [trackField_skip uv _ hl2] at h
      injection h with h
      subst h
      have hs : uv.has .source = false := by
        cases hh : uv.has .source
        · rfl
        · simp [hh] at hl2
      refine ⟨rfl, fun _ => ⟨hkeys, ?_, ?_⟩, fun hf => absurd hf (by simp [hl2])⟩
      · rw [b10]
      · rw [b11]
/-- The directory of fields after a run: linear-scan insertion of the lookup keys. -/
theorem trackAll_fieldKeys (calls : List (Int × Vars)) (s0 s : Filler)
    (h : trackAll s0 calls = .ok s) :
    fieldKeys s = ((pointings zeroOffset s0.source_p calls).map Pointing.key).foldl
      insertNew (fieldKeys s0) := by
  induction calls generalizing s0 with
  | nil =>
    simp only [trackAll] at h
    injection h with h
    subst h
    simp [pointings]
  | cons c rest ih =>
    obtain ⟨record, uv⟩ := c
    simp only [trackAll] at h
    cases hT : Tracking s0 record uv with
    | error e => rw [hT] at h; exact absurd h (by simp)
    | ok s1 =>
      rw [hT] at h
      simp only at h
      obtain ⟨hn, hno, hyes⟩ := Tracking_step s0 s1 record uv hT
      rw [ih s1 h, hn]
      simp only [pointings]
      cases hl : isLookup (record, uv) with
      | false =>
        simp only [Bool.false_eq_true, if_false]
        rw [(hno hl).1]
      | true =>
        simp only [if_true, List.map_cons, List.foldl_cons, Pointing.key, zeroOffset, insertNew]
        by_cases hk : ((0 : Val), (0 : Val),
            findSource uv.source (namesAfter s0.source_p (record, uv)) 0) ∈ fieldKeys s0
        · rw [if_pos hk, ((hyes hl).1 hk).1]
        · rw [if_neg hk, ((hyes hl).2 hk).1]
theorem getD_append_zero (l : List Val) (j : Nat) : (l ++ [0]).getD j 0 = l.getD j 0 := by
  simp only [List.getD_eq_getElem?_getD]
  rcases Nat.lt_trichotomy j l.length with h | h | h
  · rw [List.getElem?_append_left h]
  · subst h
    simp
  · rw [List.getElem?_eq_none (by simp; omega), List.getElem?_eq_none (by omega)]

theorem getD_set_same (l : List Val) (j : Nat) (v : Val) (h : j < l.length) :
    (l.set j v).getD j 0 = v := by
  simp [List.getD_eq_getElem?_getD, List.getElem?_set, h]

theorem getD_set_other (l : List Val) (i j : Nat) (v : Val) (h : i ≠ j) :
    (l.set i v).getD j 0 = l.getD j 0 := by
  simp [List.getD_eq_getElem?_getD, List.getElem?_set, h]

/-- The catalog positions after a run, for a start state whose three source vectors have the
same length: an index already resolved keeps its position; otherwise the first lookup that
resolves to it gives the position. -/
theorem trackAll_catalog (calls : List (Int × Vars)) (s0 s : Filler)
    (h : trackAll s0 calls = .ok s)
    (hr : s0.ras_p.length = s0.source_p.length) (hd : s0.decs_p.length = s0.source_p.length) :
    s.ras_p.length = s.source_p.length ∧ s.decs_p.length = s.source_p.length ∧
    ∀ j : Nat, (s.ras_p.getD j 0, s.decs_p.getD j 0) =
      if ((0 : Val), (0 : Val), (j : Int)) ∈ fieldKeys s0 then
        (s0.ras_p.getD j 0, s0.decs_p.getD j 0)
      else
        (((pointings zeroOffset s0.source_p calls).find?
          (fun p => decide (p.source = (j : Int)))).map (fun p => (p.ra, p.dec))).getD
          (s0.ras_p.getD j 0, s0.decs_p.getD j 0) := by
  induction calls generalizing s0 with
  | nil =>
    simp only [trackAll] at h
    injection h with h
    subst h
    simp [pointings, hr, hd]
  | cons c rest ih =>
    obtain ⟨record, uv⟩ := c
    simp only [trackAll] at h
    cases hT : Tracking s0 record uv with
    | error e => rw [hT] at h; exact absurd h (by simp)
    | ok s1 =>
      rw [hT] at h
      simp only at h
      obtain ⟨hn, hno, hyes⟩ := Tracking_step s0 s1 record uv hT
      have hlenN : (namesAfter s0.source_p (record, uv)).length
          = (if decide (0 ≤ record) && uv.has .source then s0.source_p.length + 1
              else s0.source_p.length) := by
        unfold namesAfter
        split <;> simp
      cases hl : isLookup (record, uv) with
      | false =>
        obtain ⟨k1, k2, k3⟩ := hno hl
        have hr1 : s1.ras_p.length = s1.source_p.length := by
          rw [k2, hn, hlenN]; split <;> simp [hr]
        have hd1 : s1.decs_p.length = s1.source_p.length := by
          rw [k3, hn, hlenN]; split <;> simp [hd]
        obtain ⟨i1, i2, i3⟩ := ih s1 h hr1 hd1
        refine ⟨i1, i2, fun j => ?_⟩
        have e1 : s1.ras_p.getD j 0 = s0.ras_p.getD j 0 := by
          rw [k2]; split
          · exact getD_append_zero _ _
          · rfl
        have e2 : s1.decs_p.getD j 0 = s0.decs_p.getD j 0 := by
          rw [k3]; split
          · exact getD_append_zero _ _
          · rfl
        rw [i3 j, k1, e1, e2, hn]
        simp only [pointings, hl, Bool.false_eq_true, if_false]
      | true =>
        have hdec : decide (0 ≤ record) = true := by
          simp only [isLookup, Bool.and_eq_true] at hl
          exact hl.1
        have hlenN2 : (namesAfter s0.source_p (record, uv)).length
            = (if uv.has .source then s0.source_p.length + 1 else s0.source_p.length) := by
          rw [hlenN, hdec]; simp
        by_cases hk : ((0 : Val), (0 : Val),
            findSource uv.source (namesAfter s0.source_p (record, uv)) 0) ∈ fieldKeys s0
        · obtain ⟨k1, k2, k3⟩ := (hyes hl).1 hk
          have hr1 : s1.ras_p.length = s1.source_p.length := by
            rw [k2, hn, hlenN2]; split <;> simp [hr]
          have hd1 : s1.decs_p.length = s1.source_p.length := by
            rw [k3, hn, hlenN2]; split <;> simp [hd]
          obtain ⟨i1, i2, i3⟩ := ih s1 h hr1 hd1
          refine ⟨i1, i2, fun j => ?_⟩
          have e1 : s1.ras_p.getD j 0 = s0.ras_p.getD j 0 := by
            rw [k2]; split
            · exact getD_append_zero _ _
            · rfl
          have e2 : s1.decs_p.getD j 0 = s0.decs_p.getD j 0 := by
            rw [k3]; split
            · exact getD_append_zero _ _
            · rfl
          rw [i3 j, k1, e1, e2, hn]
          by_cases hj : ((0 : Val), (0 : Val), (j : Int)) ∈ fieldKeys s0
          · simp only [hj, if_true]
          · have hne : ¬ findSource uv.source (namesAfter s0.source_p (record, uv)) 0
                = (j : Int) := fun e => hj (e ▸ hk)
            simp only [hj, if_false, pointings, hl, if_true, List.find?_cons, hne,
              decide_False]
        · obtain ⟨k1, k0, kr, kd, k2, k3⟩ := (hyes hl).2 hk
          have hr1 : s1.ras_p.length = s1.source_p.length := by
            rw [k2, hn, hlenN2, List.length_set]; split <;> simp [hr]
          have hd1 : s1.decs_p.length = s1.source_p.length := by
            rw [k3, hn, hlenN2, List.length_set]; split <;> simp [hd]
          obtain ⟨i1, i2, i3⟩ := ih s1 h hr1 hd1
          refine ⟨i1, i2, fun j => ?_⟩
          rw [i3 j, k1, hn]
          by_cases hjj : findSource uv.source (namesAfter s0.source_p (record, uv)) 0
              = (j : Int)
          · -- the lookup of this call resolves to `j`: a new field, position stored
            have hjn : (findSource uv.source (namesAfter s0.source_p (record, uv)) 0).toNat
                = j := by omega
            have hj0 : ((0 : Val), (0 : Val), (j : Int)) ∉ fieldKeys s0 := hjj ▸ hk
            rw [hjn] at kr kd k2 k3
            simp only [hj0, if_false, pointings, hl, if_true, List.find?_cons, hjj,
              decide_True, Option.map_some', Option.getD_some, List.mem_append,
              List.mem_singleton, or_true]
            rw [k2, k3, getD_set_same _ _ _ kr, getD_set_same _ _ _ kd]
          · have hjn : (findSource uv.source (namesAfter s0.source_p (record, uv)) 0).toNat
                ≠ j := by omega
            have e1 : s1.ras_p.getD j 0 = s0.ras_p.getD j 0 := by
              rw [k2, getD_set_other _ _ _ _ hjn]; split
              · exact getD_append_zero _ _
              · rfl
            have e2 : s1.decs_p.getD j 0 = s0.decs_p.getD j 0 := by
              rw [k3, getD_set_other _ _ _ _ hjn]; split
              · exact getD_append_zero _ _
              · rfl
            have hmem : ((0 : Val), (0 : Val), (j : Int)) ∈ fieldKeys s0 ++
                [((0 : Val), (0 : Val),
                  findSource uv.source (namesAfter s0.source_p (record, uv)) 0)]
                ↔ ((0 : Val), (0 : Val), (j : Int)) ∈ fieldKeys s0 := by
              simp only [List.mem_append, List.mem_singleton, Prod.mk.injEq, true_and]
              constructor
              · rintro (a | a)
                · exact a
                · exact absurd a.symm hjj
              · exact Or.inl
            simp only [hmem, e1, e2, pointings, hl, if_true, List.find?_cons, hjj,
              decide_False]
/-! ## Lemmas on the record loop -/

/-- `Tracking` leaves the window layout and the sizes used by the record loop alone. -/
theorem Tracking_layout (s s1 : Filler) (record : Int) (uv : Vars)
    (h : Tracking s record uv = .ok s1) :
    s1.win = s.win ∧ s1.nIF_p = s.nIF_p ∧ s1.npol_p = s.npol_p ∧ s1.nchan_p = s.nchan_p ∧
    s1.nwide_p = s.nwide_p ∧ s1.nArray_p = s.nArray_p ∧ s1.nAnt_p = s.nAnt_p ∧
    s1.apply_tsys = s.apply_tsys ∧ s1.zero_tsys = s.zero_tsys := by
  unfold Tracking at h
  split at h
  · injection h with h; subst h; simp
  · have hb : (beforeLookup s record uv).win = s.win ∧
        (beforeLookup s record uv).nIF_p = s.nIF_p ∧
        (beforeLookup s record uv).npol_p = s.npol_p ∧
        (beforeLookup s record uv).nchan_p = s.nchan_p ∧
        (beforeLookup s record uv).nwide_p = s.nwide_p ∧
        (beforeLookup s record uv).nArray_p = s.nArray_p ∧
        (beforeLookup s record uv).nAnt_p = s.nAnt_p ∧
        (beforeLookup s record uv).apply_tsys = s.apply_tsys ∧
        (beforeLookup s record uv).zero_tsys = s.zero_tsys := by
      have e1 : ∀ t : Filler, (trackInttime uv t).win = t.win ∧
          (trackInttime uv t).nIF_p = t.nIF_p ∧ (trackInttime uv t).npol_p = t.npol_p ∧
          (trackInttime uv t).nchan_p = t.nchan_p ∧ (trackInttime uv t).nwide_p = t.nwide_p ∧
          (trackInttime uv t).nArray_p = t.nArray_p ∧ (trackInttime uv t).nAnt_p = t.nAnt_p ∧
          (trackInttime uv t).apply_tsys = t.apply_tsys ∧
          (trackInttime uv t).zero_tsys = t.zero_tsys := by
        intro t; unfold trackInttime; split <;> simp
      have e2 : ∀ t : Filler, (trackAntpos record uv t).win = t.win ∧
          (trackAntpos record uv t).nIF_p = t.nIF_p ∧
          (trackAntpos record uv t).npol_p = t.npol_p ∧
          (trackAntpos record uv t).nchan_p = t.nchan_p ∧
          (trackAntpos record uv t).nwide_p = t.nwide_p ∧
          (trackAntpos record uv t).nArray_p = t.nArray_p ∧
          (trackAntpos record uv t).nAnt_p = t.nAnt_p ∧
          (trackAntpos record uv t).apply_tsys = t.apply_tsys ∧
          (trackAntpos record uv t).zero_tsys = t.zero_tsys := by
        intro t; unfold trackAntpos; split <;> simp
      have e3 : ∀ t : Filler, (trackSystemp uv t).win = t.win ∧
          (trackSystemp uv t).nIF_p = t.nIF_p ∧ (trackSystemp uv t).npol_p = t.npol_p ∧
          (trackSystemp uv t).nchan_p = t.nchan_p ∧ (trackSystemp uv t).nwide_p = t.nwide_p ∧
          (trackSystemp uv t).nArray_p = t.nArray_p ∧ (trackSystemp uv t).nAnt_p = t.nAnt_p ∧
          (trackSystemp uv t).apply_tsys = t.apply_tsys ∧
          (trackSystemp uv t).zero_tsys = t.zero_tsys := by
        intro t; unfold trackSystemp; split <;> split <;> simp
      have e4 : ∀ t : Filler, (trackSource uv t).win = t.win ∧
          (trackSource uv t).nIF_p = t.nIF_p ∧ (trackSource uv t).npol_p = t.npol_p ∧
          (trackSource uv t).nchan_p = t.nchan_p ∧ (trackSource uv t).nwide_p = t.nwide_p ∧
          (trackSource uv t).nArray_p = t.nArray_p ∧ (trackSource uv t).nAnt_p = t.nAnt_p ∧
          (trackSource uv t).apply_tsys = t.apply_tsys ∧
          (trackSource uv t).zero_tsys = t.zero_tsys := by
        intro t; unfold trackSource; split <;> simp
      unfold beforeLookup
      obtain ⟨a1, a2, a3, a4, a5, a6, a7, a8, a9⟩ := e1 s
      obtain ⟨b1, b2, b3, b4, b5, b6, b7, b8, b9⟩ := e2 (trackInttime uv s)
      obtain ⟨c1, c2, c3, c4, c5, c6, c7, c8, c9⟩ := e3 (trackAntpos record uv (trackInttime uv s))
      obtain ⟨d1, d2, d3, d4, d5, d6, d7, d8, d9⟩ :=
        e4 (trackSystemp uv (trackAntpos record uv (trackInttime uv s)))
      exact ⟨by rw [d1, c1, b1, a1], by rw [d2, c2, b2, a2], by rw [d3, c3, b3, a3],
        by rw [d4, c4, b4, a4], by rw [d5, c5, b5, a5], by rw [d6, c6, b6, a6],
        by rw [d7, c7, b7, a7], by rw [d8, c8, b8, a8], by rw [d9, c9, b9, a9]⟩
    have hf : ∀ t t1 : Filler, trackField uv t = .ok t1 →
        t1.win = t.win ∧ t1.nIF_p = t.nIF_p ∧ t1.npol_p = t.npol_p ∧ t1.nchan_p = t.nchan_p ∧
        t1.nwide_p = t.nwide_p ∧ t1.nArray_p = t.nArray_p ∧ t1.nAnt_p = t.nAnt_p ∧
        t1.apply_tsys = t.apply_tsys ∧ t1.zero_tsys = t.zero_tsys := by
      intro t t1 ht
      unfold trackField at ht
      split at ht
      · simp only at ht
        split at ht
        · unfold newField at ht
          simp only at ht
          split at ht
          · exact absurd ht (by simp)
          · split at ht
            · split at ht
              · injection ht with ht; subst ht; simp
              · exact absurd ht (by simp)
            · injection ht with ht; subst ht; simp
        · injection ht with ht; subst ht; simp
      · injection ht with ht; subst ht; simp
    obtain ⟨f1, f2, f3, f4, f5, f6, f7, f8, f9⟩ := hf _ _ h
    obtain ⟨g1, g2, g3, g4, g5, g6, g7, g8, g9⟩ := hb
    exact ⟨by rw [f1, g1], by rw [f2, g2], by rw [f3, g3], by rw [f4, g4], by rw [f5, g5],
      by rw [f6, g6], by rw [f7, g7], by rw [f8, g8], by rw [f9, g9]⟩

theorem raiseAnt_layout (f f1 : Filler) (ant : Int) (h : raiseAnt f ant = .ok f1) :
    f1.win = f.win ∧ f1.nIF_p = f.nIF_p ∧ f1.npol_p = f.npol_p ∧ f1.nchan_p = f.nchan_p ∧
    f1.nwide_p = f.nwide_p ∧ f1.nArray_p = f.nArray_p ∧ f1.apply_tsys = f.apply_tsys ∧
    f1.zero_tsys = f.zero_tsys ∧ f1.ifield = f.ifield := by
  unfold raiseAnt at h
  split at h
  · split at h
    · exact absurd h (by simp)
    · injection h with h; subst h; simp
  · exact absurd h (by simp)
/-- What `seedGroup` leaves of the loop state. -/
theorem seedGroup_ok (m m1 : MainLoop) (r : Visibility) (h : seedGroup m r = .ok m1) :
    m1.rows = m.rows ∧ m1.polsleft = r.npol ∧ m1.nCorr = m.nCorr ∧ m1.nChan = m.nChan ∧
    m1.f.win = m.f.win ∧ m1.f.nIF_p = m.f.nIF_p ∧ m1.group = m.group ∧ m1.row = m.row ∧
    m1.f.nchan_p = m.f.nchan_p ∧ m1.f.nwide_p = m.f.nwide_p := by
  unfold seedGroup at h
  simp only at h
  split at h
  · exact absurd h (by simp)
  · rename_i f1 hf1
    split at h
    · exact absurd h (by simp)
    · rename_i f2 hf2
      split at h
      · exact absurd h (by simp)
      · rename_i f3 hf3
        injection h with h
        subst h
        obtain ⟨a1, a2, _, a4, a5, _⟩ := raiseAnt_layout _ _ _ hf3
        obtain ⟨b1, b2, _, b4, b5, _⟩ := raiseAnt_layout _ _ _ hf2
        have hc : f1.win = m.f.win ∧ f1.nIF_p = m.f.nIF_p ∧ f1.nchan_p = m.f.nchan_p ∧
            f1.nwide_p = m.f.nwide_p := by
          split at hf1
          · obtain ⟨c1, c2, _, c4, c5, _⟩ := Tracking_layout _ _ _ _ hf1
            exact ⟨c1, c2, c4, c5⟩
          · injection hf1 with hf1; subst hf1; simp
        refine ⟨rfl, rfl, rfl, rfl, ?_, ?_, rfl, rfl, ?_, ?_⟩
        · simp only; rw [a1, b1, hc.1]
        · simp only; rw [a2, b2, hc.2.1]
        · simp only; rw [a4, b4, hc.2.2.1]
        · simp only; rw [a5, b5, hc.2.2.2]

theorem emitRow_frame (m : MainLoop) (ifno : Nat) :
    (emitRow m ifno).nCorr = m.nCorr ∧ (emitRow m ifno).nChan = m.nChan ∧
    (emitRow m ifno).flag = m.flag ∧ (emitRow m ifno).vis = m.vis ∧
    (emitRow m ifno).polsleft = m.polsleft ∧ (emitRow m ifno).f.win = m.f.win ∧
    (emitRow m ifno).f.nIF_p = m.f.nIF_p ∧ (emitRow m ifno).group = m.group ∧
    (emitRow m ifno).f.nchan_p = m.f.nchan_p ∧ (emitRow m ifno).f.nwide_p = m.f.nwide_p := by
  unfold emitRow
  split <;> simp

/-- A window whose `keep` is zero adds no row; any other window adds one row, tagged with
the window index. -/
theorem emitRow_rows (m : MainLoop) (ifno : Nat) :
    ∃ new : List MainRow, (emitRow m ifno).rows = m.rows ++ new ∧
      new.map MainRow.dataDescId = (if m.f.win.keep ifno = 0 then [] else [(ifno : Int)]) := by
  unfold emitRow
  split
  · exact ⟨[], by simp, rfl⟩
  · exact ⟨_, rfl, rfl⟩

/-- The loop over the windows `l`: one row per window of `l` whose `keep` is not zero. -/
theorem foldl_emitRow (l : List Nat) (m : MainLoop) :
    (∃ new : List MainRow, (l.foldl emitRow m).rows = m.rows ++ new ∧
      new.map MainRow.dataDescId
        = (l.filter (fun i => decide (m.f.win.keep i ≠ 0))).map Int.ofNat) ∧
    (l.foldl emitRow m).nCorr = m.nCorr ∧ (l.foldl emitRow m).nChan = m.nChan ∧
    (l.foldl emitRow m).flag = m.flag ∧ (l.foldl emitRow m).vis = m.vis ∧
    (l.foldl emitRow m).polsleft = m.polsleft ∧ (l.foldl emitRow m).f.win = m.f.win ∧
    (l.foldl emitRow m).f.nIF_p = m.f.nIF_p ∧ (l.foldl emitRow m).group = m.group ∧
    (l.foldl emitRow m).f.nchan_p = m.f.nchan_p ∧
    (l.foldl emitRow m).f.nwide_p = m.f.nwide_p := by
  induction l generalizing m with
  | nil => exact ⟨⟨[], by simp, rfl⟩, rfl, rfl, rfl, rfl, rfl, rfl, rfl, rfl, rfl, rfl⟩
  | cons i rest ih =>
    obtain ⟨⟨new2, hr2, hd2⟩, a1, a2, a3, a4, a5, a6, a7, a8, a9, a10⟩ := ih (emitRow m i)
    obtain ⟨b1, b2, b3, b4, b5, b6, b7, b8, b9, b10⟩ := emitRow_frame m i
    obtain ⟨new1, hr1, hd1⟩ := emitRow_rows m i
    simp only [List.foldl_cons]
    refine ⟨⟨new1 ++ new2, ?_, ?_⟩, a1.trans b1, a2.trans b2, a3.trans b3, a4.trans b4,
      a5.trans b5, a6.trans b6, a7.trans b7, a8.trans b8, a9.trans b9, a10.trans b10⟩
    · rw [hr2, hr1, List.append_assoc]
    · rw [List.map_append, hd1, hd2, b6, List.filter_cons]
      by_cases hk : m.f.win.keep i = 0
      · simp [hk]
      · simp [hk]

/-- The flush: rows are added exactly when the group is complete and not wholly flagged,
one per window below `nIF_p` whose `keep` is not zero. -/
theorem flushGroup_rows (m : MainLoop) :
    (∃ new : List MainRow, (flushGroup m).rows = m.rows ++ new ∧
      new.map MainRow.dataDescId =
        (if m.polsleft = 0 ∧ allTrue m.nCorr m.nChan m.flag = false then
          ((List.range m.f.nIF_p.toNat).filter
            (fun i => decide (m.f.win.keep i ≠ 0))).map Int.ofNat
        else [])) ∧
    (flushGroup m).nCorr = m.nCorr ∧ (flushGroup m).nChan = m.nChan ∧
    (flushGroup m).flag = m.flag ∧ (flushGroup m).vis = m.vis ∧
    (flushGroup m).polsleft = m.polsleft ∧ (flushGroup m).f.win = m.f.win ∧
    (flushGroup m).f.nIF_p = m.f.nIF_p ∧ (flushGroup m).group = m.group ∧
    (flushGroup m).f.nchan_p = m.f.nchan_p ∧ (flushGroup m).f.nwide_p = m.f.nwide_p := by
  unfold flushGroup
  by_cases hc : m.polsleft = 0 ∧ allTrue m.nCorr m.nChan m.flag = false
  · rw [if_pos hc, if_pos hc]
    obtain ⟨⟨new, hr, hd⟩, a1, a2, a3, a4, a5, a6, a7, a8, a9, a10⟩ :=
      foldl_emitRow (List.range m.f.nIF_p.toNat) m
    exact ⟨⟨new, hr, hd⟩, a1, a2, a3, a4, a5, a6, a7, a8, a9, a10⟩
  · rw [if_neg hc, if_neg hc]
    exact ⟨⟨[], by simp, rfl⟩, rfl, rfl, rfl, rfl, rfl, rfl, rfl, rfl, rfl, rfl⟩

/-- One turn of the record loop that goes on: the state it leaves. -/
theorem processRecord_next (m m2 : MainLoop) (r : Visibility)
    (h : processRecord m r = .ok (.next m2)) :
    ∃ m1 idx,
      (if m.polsleft = 0 then seedGroup m r else .ok m) = .ok m1 ∧
      casapolidx r.pol = .ok idx ∧
      m2 = { flushGroup (accumulate m1 r idx) with
        group := (flushGroup (accumulate m1 r idx)).group + 1 } := by
  unfold processRecord at h
  by_cases h1 : r.nread ≤ 0
  · rw [if_pos h1] at h
    injection h with h
    exact absurd h (by simp)
  · rw [if_neg h1] at h
    simp only at h
    by_cases h2 : r.nread ≠ m.f.nchan_p
    · rw [if_pos h2] at h
      injection h with h
      exact absurd h (by simp)
    · rw [if_neg h2] at h
      by_cases h3 : (if m.f.win.nspect > 0 then r.nwread else 0) ≠ m.f.nwide_p
      · rw [if_pos h3] at h
        injection h with h
        exact absurd h (by simp)
      · rw [if_neg h3] at h
        cases hm1 : (if m.polsleft = 0 then seedGroup m r else .ok m) with
        | error e => rw [hm1] at h; exact absurd h (by simp)
        | ok m1 =>
          rw [hm1] at h
          simp only at h
          cases hidx : casapolidx r.pol with
          | error e => rw [hidx] at h; exact absurd h (by simp)
          | ok idx =>
            rw [hidx] at h
            simp only at h
            injection h with h
            injection h with h
            exact ⟨m1, idx, rfl, rfl, h.symm⟩
/-- One turn of the record loop that goes on, seen on the rows: `p` is the number of
records the group still expects, this one included. -/
theorem processRecord_step (m m2 : MainLoop) (r : Visibility)
    (h : processRecord m r = .ok (.next m2)) :
    m2.polsleft = (if m.polsleft = 0 then r.npol else m.polsleft) - 1 ∧
    m2.nCorr = m.nCorr ∧ m2.nChan = m.nChan ∧ m2.f.win = m.f.win ∧ m2.f.nIF_p = m.f.nIF_p ∧
    ∃ new : List MainRow, m2.rows = m.rows ++ new ∧
      new.map MainRow.dataDescId =
        (if m2.polsleft = 0 ∧ allTrue m2.nCorr m2.nChan m2.flag = false then
          ((List.range m.f.nIF_p.toNat).filter
            (fun i => decide (m.f.win.keep i ≠ 0))).map Int.ofNat
        else []) := by
  obtain ⟨m1, idx, hm1, _, hm2⟩ := processRecord_next m m2 r h
  have hs : m1.rows = m.rows ∧ m1.polsleft = (if m.polsleft = 0 then r.npol else m.polsleft) ∧
      m1.nCorr = m.nCorr ∧ m1.nChan = m.nChan ∧ m1.f.win = m.f.win ∧
      m1.f.nIF_p = m.f.nIF_p := by
    by_cases hp : m.polsleft = 0
    · rw [if_pos hp] at hm1
      obtain ⟨a1, a2, a3, a4, a5, a6, _⟩ := seedGroup_ok m m1 r hm1
      rw [if_pos hp]
      exact ⟨a1, a2, a3, a4, a5, a6⟩
    · rw [if_neg hp] at hm1
      injection hm1 with hm1
      subst hm1
      rw [if_neg hp]
      exact ⟨rfl, rfl, rfl, rfl, rfl, rfl⟩
  obtain ⟨s1, s2, s3, s4, s5, s6⟩ := hs
  obtain ⟨⟨new, hr, hd⟩, a1, a2, a3, a4, a5, a6, a7, _⟩ := flushGroup_rows (accumulate m1 r idx)
  have e1 : m2.polsleft = (flushGroup (accumulate m1 r idx)).polsleft := by rw [hm2]
  have e2 : m2.nCorr = (flushGroup (accumulate m1 r idx)).nCorr := by rw [hm2]
  have e3 : m2.nChan = (flushGroup (accumulate m1 r idx)).nChan := by rw [hm2]
  have e4 : m2.flag = (flushGroup (accumulate m1 r idx)).flag := by rw [hm2]
  have e5 : m2.rows = (flushGroup (accumulate m1 r idx)).rows := by rw [hm2]
  have e6 : m2.f = (flushGroup (accumulate m1 r idx)).f := by rw [hm2]
  have c1 : (accumulate m1 r idx).polsleft = m1.polsleft - 1 := rfl
  have c2 : (accumulate m1 r idx).nCorr = m1.nCorr := rfl
  have c3 : (accumulate m1 r idx).nChan = m1.nChan := rfl
  have c4 : (accumulate m1 r idx).f = m1.f := rfl
  have c5 : (accumulate m1 r idx).rows = m1.rows := rfl
  refine ⟨?_, ?_, ?_, ?_, ?_, new, ?_, ?_⟩
  · rw [e1, a5, c1, s2]
  · rw [e2, a1, c2, s3]
  · rw [e3, a2, c3, s4]
  · rw [e6, a6, c4, s5]
  · rw [e6, a7, c4, s6]
  · rw [e5, hr, c5, s1]
  · rw [hd, e1, e2, e3, e4, a5, a1, a2, a3, c4, s5, s6]

/-- While a group still expects more records than the list holds, no row is added. -/
theorem advance_pending (rs : List Visibility) (m mk : MainLoop) (p : Int)
    (h : advance m rs = some mk)
    (hp : ∀ r, rs.head? = some r → (if m.polsleft = 0 then r.npol else m.polsleft) = p)
    (hlen : (rs.length : Int) < p) :
    mk.rows = m.rows ∧ mk.nCorr = m.nCorr ∧ mk.nChan = m.nChan ∧ mk.f.win = m.f.win ∧
    mk.f.nIF_p = m.f.nIF_p ∧ (rs ≠ [] → mk.polsleft = p - rs.length) := by
  induction rs generalizing m p with
  | nil =>
    simp only [advance] at h
    injection h with h
    subst h
    exact ⟨rfl, rfl, rfl, rfl, rfl, fun hne => absurd rfl hne⟩
  | cons r rest ih =>
    simp only [advance] at h
    cases hpr : processRecord m r with
    | error e => rw [hpr] at h; exact absurd h (by simp)
    | ok o =>
      cases o with
      | done m1 => rw [hpr] at h; exact absurd h (by simp)
      | next m1 =>
        rw [hpr] at h
        simp only at h
        obtain ⟨s1, s2, s3, s4, s5, new, s6, s7⟩ := processRecord_step m m1 r hpr
        have hp0 := hp r rfl
        rw [hp0] at s1
        simp only [List.length_cons, Nat.cast_add, Nat.cast_one] at hlen
        have hne : m1.polsleft ≠ 0 := by omega
        have hnew : new = [] := by
          have : new.map MainRow.dataDescId = [] := by
            rw [s7, if_neg (fun hc => hne hc.1)]
          simpa using this
        rw [hnew, List.append_nil] at s6
        have hp1 : ∀ r1, rest.head? = some r1 →
            (if m1.polsleft = 0 then r1.npol else m1.polsleft) = p - 1 := by
          intro r1 _
          rw [if_neg hne, s1]
        obtain ⟨i1, i2, i3, i4, i5, i6⟩ := ih m1 (p - 1) h hp1 (by omega)
        refine ⟨i1.trans s6, i2.trans s2, i3.trans s3, i4.trans s4, i5.trans s5, fun _ => ?_⟩
        by_cases hr : rest = []
        · subst hr
          simp only [advance] at h
          injection h with h
          subst h
          simp [s1]
        · rw [i6 hr]
          simp only [List.length_cons, Nat.cast_add, Nat.cast_one]
          omega

theorem advance_append (a b : List Visibility) (m : MainLoop) :
    advance m (a ++ b) = (advance m a).bind fun m1 => advance m1 b := by
  induction a generalizing m with
  | nil => simp [advance]
  | cons r rest ih =>
    simp only [List.cons_append, advance]
    cases hpr : processRecord m r with
    | error e => simp
    | ok o =>
      cases o with
      | done m1 => simp
      | next m1 => simp [ih]
/-- A group that receives exactly the records it expects: rows are added at its last
record only, one per retained window below `nIF_p`, and only if some flag is not set. -/
theorem advance_complete (rs : List Visibility) (m m2 : MainLoop) (p : Int)
    (h : advance m rs = some m2)
    (hp : ∀ r, rs.head? = some r → (if m.polsleft = 0 then r.npol else m.polsleft) = p)
    (hlen : (rs.length : Int) = p) (hne : rs ≠ []) :
    m2.polsleft = 0 ∧ m2.nCorr = m.nCorr ∧ m2.nChan = m.nChan ∧ m2.f.win = m.f.win ∧
    m2.f.nIF_p = m.f.nIF_p ∧
    ∃ new : List MainRow, m2.rows = m.rows ++ new ∧
      new.map MainRow.dataDescId =
        (if allTrue m2.nCorr m2.nChan m2.flag = false then
          ((List.range m.f.nIF_p.toNat).filter
            (fun i => decide (m.f.win.keep i ≠ 0))).map Int.ofNat
        else []) := by
  induction rs generalizing m p with
  | nil => exact absurd rfl hne
  | cons r rest ih =>
    simp only [advance] at h
    cases hpr : processRecord m r with
    | error e => rw [hpr] at h; exact absurd h (by simp)
    | ok o =>
      cases o with
      | done m1 => rw [hpr] at h; exact absurd h (by simp)
      | next m1 =>
        rw [hpr] at h
        simp only at h
        obtain ⟨s1, s2, s3, s4, s5, new, s6, s7⟩ := processRecord_step m m1 r hpr
        rw [hp r rfl] at s1
        simp only [List.length_cons, Nat.cast_add, Nat.cast_one] at hlen
        by_cases hr : rest = []
        · subst hr
          simp only [advance] at h
          injection h with h
          subst h
          have h0 : m1.polsleft = 0 := by
            rw [s1]
            simp at hlen
            omega
          refine ⟨h0, s2, s3, s4, s5, new, s6, ?_⟩
          rw [s7]
          by_cases hf : allTrue m1.nCorr m1.nChan m1.flag = false
          · rw [if_pos ⟨h0, hf⟩, if_pos hf]
          · rw [if_neg (fun hc => hf hc.2), if_neg hf]
        · have hpos : 0 < rest.length := List.length_pos.2 hr
          have hne1 : m1.polsleft ≠ 0 := by omega
          have hnew : new = [] := by
            have : new.map MainRow.dataDescId = [] := by
              rw [s7, if_neg (fun hc => hne1 hc.1)]
            simpa using this
          rw [hnew, List.append_nil] at s6
          have hp1 : ∀ r1, rest.head? = some r1 →
              (if m1.polsleft = 0 then r1.npol else m1.polsleft) = p - 1 := by
            intro r1 _
            rw [if_neg hne1, s1]
          obtain ⟨i1, i2, i3, i4, i5, new2, i6, i7⟩ := ih m1 (p - 1) h hp1 (by omega) hr
          refine ⟨i1, i2.trans s2, i3.trans s3, i4.trans s4, i5.trans s5, new2, ?_, ?_⟩
          · rw [i6, s6]
          · rw [i7, s4, s5]

/-! ## When a run of `Tracking` does not abort -/

theorem findSource_bounds (object_p : String) (l : List String) (i : Nat) :
    findSource object_p l i = -1 ∨
      ((i : Int) ≤ findSource object_p l i ∧ findSource object_p l i < (i : Int) + l.length) := by
  induction l generalizing i with
  | nil => exact Or.inl rfl
  | cons name rest ih =>
    simp only [findSource, List.length_cons, Nat.cast_add, Nat.cast_one]
    split
    · exact Or.inr ⟨le_refl _, by omega⟩
    · rcases ih (i + 1) with h | h
      · exact Or.inl h
      · refine Or.inr ⟨?_, ?_⟩
        · have := h.1
          push_cast at this
          omega
        · have := h.2
          push_cast at this
          omega

theorem length_foldl_insertNew {α : Type} [DecidableEq α] (l acc : List α) :
    acc.length ≤ (l.foldl insertNew acc).length := by
  induction l generalizing acc with
  | nil => exact le_refl _
  | cons a rest ih =>
    simp only [List.foldl_cons]
    refine le_trans ?_ (ih _)
    unfold insertNew
    split
    · exact le_refl _
    · simp

/-- The lookup returns as soon as a new key leaves room in the directory and its source
index lies inside `ras_p` and `decs_p`. -/
theorem trackField_total (uv : Vars) (t : Filler)
    (h : (uv.has .source || uv.has .dra || uv.has .ddec) = true →
      ((0 : Val), (0 : Val), findSource uv.source t.source_p 0) ∉ fieldKeys t →
      t.nfield + 1 < MAXFIELD ∧ 0 ≤ findSource uv.source t.source_p 0 ∧
      (findSource uv.source t.source_p 0).toNat < t.ras_p.length ∧
      (findSource uv.source t.source_p 0).toNat < t.decs_p.length) :
    ∃ s1, trackField uv t = .ok s1 := by
  unfold trackField
  by_cases hl : (uv.has .source || uv.has .dra || uv.has .ddec) = true
  · rw [if_pos hl]
    simp only
    by_cases hneg : findField
        { t with npoint := t.npoint + 1, ra_p := uv.ra, dec_p := uv.dec, dra_p := 0,
                 ddec_p := 0, object_p := uv.source }
        (findSource uv.source t.source_p 0) (List.range t.nfield) < 0
    · rw [if_pos hneg]
      have hk := (findField_neg_iff_not_mem
        { t with npoint := t.npoint + 1, ra_p := uv.ra, dec_p := uv.dec, dra_p := 0,
                 ddec_p := 0, object_p := uv.source } (findSource uv.source t.source_p 0)).1 hneg
      obtain ⟨c1, c2, c3, c4⟩ := h hl hk
      unfold newField
      simp only [and_self, if_true]
      rw [if_neg (by simp only [ge_iff_le, not_le]; exact c1), if_pos ⟨c2, c3, c4⟩]
      exact ⟨_, rfl⟩
    · rw [if_neg hneg]
      exact ⟨_, rfl⟩
  · rw [if_neg hl]
    exact ⟨_, rfl⟩

/-- One call of `Tracking` keeps `ras_p`, `decs_p` as long as `source_p`. -/
theorem Tracking_lengths (s s1 : Filler) (record : Int) (uv : Vars)
    (h : Tracking s record uv = .ok s1)
    (hr : s.ras_p.length = s.source_p.length) (hd : s.decs_p.length = s.source_p.length) :
    s1.ras_p.length = s1.source_p.length ∧ s1.decs_p.length = s1.source_p.length := by
  have h1 : trackAll s [(record, uv)] = .ok s1 := by
    simp only [trackAll, h]
  obtain ⟨a, b, _⟩ := trackAll_catalog [(record, uv)] s s1 h1 hr hd
  exact ⟨a, b⟩

/-- A run does not abort when the directory has room for every distinct key and every
lookup finds its source name in the list. -/
theorem trackAll_total (calls : List (Int × Vars)) (s0 : Filler)
    (hr : s0.ras_p.length = s0.source_p.length) (hd : s0.decs_p.length = s0.source_p.length)
    (hcap : (((pointings zeroOffset s0.source_p calls).map Pointing.key).foldl
      insertNew (fieldKeys s0)).length < MAXFIELD)
    (hnames : ∀ p ∈ pointings zeroOffset s0.source_p calls, 0 ≤ p.source) :
    ∃ s, trackAll s0 calls = .ok s := by
  induction calls generalizing s0 with
  | nil => exact ⟨s0, rfl⟩
  | cons c rest ih =>
    obtain ⟨record, uv⟩ := c
    have hT : ∃ s1, Tracking s0 record uv = .ok s1 := by
      unfold Tracking
      by_cases hrec : record < 0
      · rw [if_pos hrec]; exact ⟨_, rfl⟩
      · rw [if_neg hrec]
        have hdec : decide (0 ≤ record) = true := by simp; omega
        obtain ⟨b1, b2, b3, _, _, b6, _, _, b9, b10, b11⟩ := beforeLookup_frame s0 record uv
        have hkeys : fieldKeys (beforeLookup s0 record uv) = fieldKeys s0 :=
          fieldKeys_congr _ _ b1 b2 b3 b6
        have hn : (beforeLookup s0 record uv).source_p = namesAfter s0.source_p (record, uv) := by
          rw [b9]; simp [namesAfter, hdec]
        apply trackField_total
        intro hl hk
        have hlook : isLookup (record, uv) = true := by
          simp only [isLookup, hdec, Bool.true_and]; exact hl
        rw [hkeys] at hk
        rw [hn] at hk ⊢
        simp only [pointings, hlook, if_true, List.map_cons, List.foldl_cons, Pointing.key,
          zeroOffset] at hcap
        have hge := length_foldl_insertNew
          ((pointings zeroOffset (namesAfter s0.source_p (record, uv)) rest).map Pointing.key)
          (insertNew (fieldKeys s0)
            ((0 : Val), (0 : Val), findSource uv.source (namesAfter s0.source_p (record, uv)) 0))
        have hins : (insertNew (fieldKeys s0)
            ((0 : Val), (0 : Val),
              findSource uv.source (namesAfter s0.source_p (record, uv)) 0)).length
            = s0.nfield + 1 := by
          unfold insertNew
          rw [if_neg hk, List.length_append, length_fieldKeys]
          rfl
        have h0 : 0 ≤ findSource uv.source (namesAfter s0.source_p (record, uv)) 0 := by
          have := hnames
            { offset := zeroOffset uv,
              source := findSource uv.source (namesAfter s0.source_p (record, uv)) 0,
              ra := uv.ra, dec := uv.dec }
            (by simp only [pointings, hlook, if_true]; exact List.mem_cons_self _ _)
          exact this
        have hlt : (findSource uv.source (namesAfter s0.source_p (record, uv)) 0).toNat
            < (namesAfter s0.source_p (record, uv)).length := by
          rcases findSource_bounds uv.source (namesAfter s0.source_p (record, uv)) 0 with e | e
          · omega
          · have := e.2
            push_cast at this
            omega
        have hlr : (beforeLookup s0 record uv).ras_p.length
            = (namesAfter s0.source_p (record, uv)).length := by
          rw [b10, ← hn, b9]; split <;> simp [hr]
        have hld : (beforeLookup s0 record uv).decs_p.length
            = (namesAfter s0.source_p (record, uv)).length := by
          rw [b11, ← hn, b9]; split <;> simp [hd]
        refine ⟨?_, h0, by rw [hlr]; exact hlt, by rw [hld]; exact hlt⟩
        rw [b1]
        omega
    obtain ⟨s1, hs1⟩ := hT
    obtain ⟨hn, hno, hyes⟩ := Tracking_step s0 s1 record uv hs1
    obtain ⟨hr1, hd1⟩ := Tracking_lengths s0 s1 record uv hs1 hr hd
    have hk1 : fieldKeys s1 = ((pointings zeroOffset s0.source_p [(record, uv)]).map
        Pointing.key).foldl insertNew (fieldKeys s0) :=
      trackAll_fieldKeys [(record, uv)] s0 s1 (by simp only [trackAll, hs1])
    have hsplit : pointings zeroOffset s0.source_p ((record, uv) :: rest)
        = pointings zeroOffset s0.source_p [(record, uv)]
          ++ pointings zeroOffset s1.source_p rest := by
      rw [hn]
      simp only [pointings]
      split <;> simp
    rw [hsplit, List.map_append, List.foldl_append, ← hk1] at hcap
    obtain ⟨s, hs⟩ := ih s1 hr1 hd1 hcap (fun p hp => hnames p (by
      rw [hsplit]; exact List.mem_append_right _ hp))
    exact ⟨s, by simp only [trackAll, hs1, hs]⟩

theorem findSource_append (object_p : String) (l l2 : List String) (i : Nat)
    (h : object_p ∈ l) : findSource object_p (l ++ l2) i = findSource object_p l i := by
  induction l generalizing i with
  | nil => simp at h
  | cons name rest ih =>
    simp only [List.cons_append, findSource]
    by_cases hn : name = object_p
    · rw [if_pos hn, if_pos hn]
    · rw [if_neg hn, if_neg hn]
      apply ih
      rcases List.mem_cons.1 h with e | e
      · exact absurd e.symm hn
      · exact e

/-- `Tracking` re-reads the antenna table when `antpos` is reported at a record other than
the first; the later updates of the call leave it alone. -/
theorem Tracking_antpos (s s1 : Filler) (record : Int) (uv : Vars)
    (h : Tracking s record uv = .ok s1) :
    (uv.has .antpos = true → 0 < record →
      s1.nants_p = uv.nants ∧ s1.antpos = copyIn (3 * uv.nants) uv.antpos s.antpos) ∧
    ((uv.has .antpos = false ∨ record ≤ 0) →
      s1.nants_p = s.nants_p ∧ s1.antpos = s.antpos) := by
  unfold Tracking at h
  by_cases hr : record < 0
  · rw [if_pos hr] at h
    injection h with h
    subst h
    exact ⟨fun _ hp => by omega, fun _ => ⟨rfl, rfl⟩⟩
  · rw [if_neg hr] at h
    have hf : ∀ t t1 : Filler, trackField uv t = .ok t1 →
        t1.nants_p = t.nants_p ∧ t1.antpos = t.antpos := by
      intro t t1 ht
      unfold trackField at ht
      split at ht
      · simp only at ht
        split at ht
        · unfold newField at ht
          simp only at ht
          split at ht
          · exact absurd ht (by simp)
          · split at ht
            · split at ht
              · injection ht with ht; subst ht; simp
              · exact absurd ht (by simp)
            · injection ht with ht; subst ht; simp
        · injection ht with ht; subst ht; simp
      · injection ht with ht; subst ht; simp
    have e4 : ∀ t : Filler, (trackSource uv t).nants_p = t.nants_p ∧
        (trackSource uv t).antpos = t.antpos := by
      intro t; unfold trackSource; split <;> simp
    have e3 : ∀ t : Filler, (trackSystemp uv t).nants_p = t.nants_p ∧
        (trackSystemp uv t).antpos = t.antpos := by
      intro t; unfold trackSystemp; split <;> split <;> simp
    have e1 : (trackInttime uv s).nants_p = s.nants_p ∧
        (trackInttime uv s).antpos = s.antpos := by
      unfold trackInttime; split <;> simp
    obtain ⟨f1, f2⟩ := hf _ _ h
    unfold beforeLookup at f1 f2
    rw [(e4 _).1, (e3 _).1] at f1
    rw [(e4 _).2, (e3 _).2] at f2
    constructor
    · intro ha hp
      have hc : uv.has .antpos = true ∧ record ≠ 0 := ⟨ha, by omega⟩
      unfold trackAntpos at f1 f2
      rw [if_pos hc] at f1 f2
      simp only at f1 f2
      rw [e1.2] at f2
      exact ⟨f1, f2⟩
    · intro hc
      have hn : ¬ (uv.has .antpos = true ∧ record ≠ 0) := by
        rintro ⟨a, b⟩
        rcases hc with c | c
        · rw [a] at c; exact absurd c (by simp)
        · omega
      unfold trackAntpos at f1 f2
      rw [if_neg hn] at f1 f2
      rw [e1.1] at f1
      rw [e1.2] at f2
      exact ⟨f1, f2⟩

theorem seedGroup_nArray (m m1 : MainLoop) (r : Visibility) (h : seedGroup m r = .ok m1) :
    m1.f.nArray_p = m.f.nArray_p := by
  unfold seedGroup at h
  simp only at h
  split at h
  · exact absurd h (by simp)
  · rename_i f1 hf1
    split at h
    · exact absurd h (by simp)
    · rename_i f2 hf2
      split at h
      · exact absurd h (by simp)
      · rename_i f3 hf3
        injection h with h
        subst h
        have a := (raiseAnt_layout _ _ _ hf3).2.2.2.2.2.1
        have b := (raiseAnt_layout _ _ _ hf2).2.2.2.2.2.1
        have c : f1.nArray_p = m.f.nArray_p := by
          split at hf1
          · exact (Tracking_layout _ _ _ _ hf1).2.2.2.2.2.1
          · injection hf1 with hf1; subst hf1; rfl
        simp only
        rw [a, b, c]

/-- The rows added by the window loop carry the array id `nArray_p - 1`. -/
theorem foldl_emitRow_arrayId (l : List Nat) (m : MainLoop) :
    (l.foldl emitRow m).f.nArray_p = m.f.nArray_p ∧
    ∃ new : List MainRow, (l.foldl emitRow m).rows = m.rows ++ new ∧
      ∀ row ∈ new, row.arrayId = m.f.nArray_p - 1 := by
  induction l generalizing m with
  | nil => exact ⟨rfl, [], by simp, by simp⟩
  | cons i rest ih =>
    simp only [List.foldl_cons]
    obtain ⟨a1, new2, a2, a3⟩ := ih (emitRow m i)
    have hstep : (emitRow m i).f.nArray_p = m.f.nArray_p ∧
        ∃ new1 : List MainRow, (emitRow m i).rows = m.rows ++ new1 ∧
          ∀ row ∈ new1, row.arrayId = m.f.nArray_p - 1 := by
      unfold emitRow
      split
      · exact ⟨rfl, [], by simp, by simp⟩
      · refine ⟨rfl, [_], rfl, ?_⟩
        intro row hrow
        rw [List.mem_singleton] at hrow
        rw [hrow]
    obtain ⟨b1, new1, b2, b3⟩ := hstep
    refine ⟨a1.trans b1, new1 ++ new2, by rw [a2, b2, List.append_assoc], ?_⟩
    intro row hrow
    rcases List.mem_append.1 hrow with e | e
    · exact b3 row e
    · rw [a3 row e, b1]

/-- One turn of the loop: `nArray_p` is kept and the rows added carry `nArray_p - 1`. -/
theorem processRecord_arrayId (m m2 : MainLoop) (r : Visibility)
    (h : processRecord m r = .ok (.next m2)) :
    m2.f.nArray_p = m.f.nArray_p ∧
    ∃ new : List MainRow, m2.rows = m.rows ++ new ∧
      ∀ row ∈ new, row.arrayId = m.f.nArray_p - 1 := by
  obtain ⟨m1, idx, hm1, _, hm2⟩ := processRecord_next m m2 r h
  have hs : m1.f.nArray_p = m.f.nArray_p ∧ m1.rows = m.rows := by
    by_cases hp : m.polsleft = 0
    · rw [if_pos hp] at hm1
      exact ⟨seedGroup_nArray m m1 r hm1, (seedGroup_ok m m1 r hm1).1⟩
    · rw [if_neg hp] at hm1
      injection hm1 with hm1
      subst hm1
      exact ⟨rfl, rfl⟩
  have hfl : (flushGroup (accumulate m1 r idx)).f.nArray_p = m1.f.nArray_p ∧
      ∃ new : List MainRow, (flushGroup (accumulate m1 r idx)).rows = m1.rows ++ new ∧
        ∀ row ∈ new, row.arrayId = m1.f.nArray_p - 1 := by
    unfold flushGroup
    split
    · obtain ⟨a1, new, a2, a3⟩ := foldl_emitRow_arrayId
        (List.range (accumulate m1 r idx).f.nIF_p.toNat) (accumulate m1 r idx)
      exact ⟨a1, new, a2, a3⟩
    · exact ⟨rfl, [], by simp [accumulate], by simp⟩
  obtain ⟨c1, new, c2, c3⟩ := hfl
  rw [hm2]
  refine ⟨c1.trans hs.1, new, ?_, ?_⟩
  · simp only
    rw [c2, hs.2]
  · intro row hrow
    rw [c3 row hrow, hs.1]

/-- Every row added while the loop goes on carries the array id of the entry state. -/
theorem advance_arrayId (rs : List Visibility) (m m2 : MainLoop)
    (h : advance m rs = some m2) :
    m2.f.nArray_p = m.f.nArray_p ∧
    ∃ new : List MainRow, m2.rows = m.rows ++ new ∧
      ∀ row ∈ new, row.arrayId = m.f.nArray_p - 1 := by
  induction rs generalizing m with
  | nil =>
    simp only [advance] at h
    injection h with h
    subst h
    exact ⟨rfl, [], by simp, by simp⟩
  | cons r rest ih =>
    simp only [advance] at h
    cases hpr : processRecord m r with
    | error e => rw [hpr] at h; exact absurd h (by simp)
    | ok o =>
      cases o with
      | done m1 => rw [hpr] at h; exact absurd h (by simp)
      | next m1 =>
        rw [hpr] at h
        simp only at h
        obtain ⟨a1, new1, a2, a3⟩ := processRecord_arrayId m m1 r hpr
        obtain ⟨b1, new2, b2, b3⟩ := ih m1 h
        refine ⟨b1.trans a1, new1 ++ new2, by rw [b2, a2, List.append_assoc], ?_⟩
        intro row hrow
        rcases List.mem_append.1 hrow with e | e
        · exact a3 row e
        · rw [b3 row e, a1]

/-- A record whose channel counts differ from `nchan_p`, `nwide_p` leaves the loop with the
state unchanged. -/
theorem processRecord_mismatch (m : MainLoop) (r : Visibility)
    (h : r.nread ≠ m.f.nchan_p ∨ (if m.f.win.nspect > 0 then r.nwread else 0) ≠ m.f.nwide_p) :
    processRecord m r = .ok (.done m) := by
  unfold processRecord
  by_cases h1 : r.nread ≤ 0
  · rw [if_pos h1]
  · rw [if_neg h1]
    simp only
    by_cases h2 : r.nread ≠ m.f.nchan_p
    · rw [if_pos h2]
    · rw [if_neg h2]
      rcases h with h | h
      · exact absurd h h2
      · rw [if_pos h]

/-- A turn of the loop that goes on keeps the channel counts and the window layout. -/
theorem processRecord_sizes (m m2 : MainLoop) (r : Visibility)
    (h : processRecord m r = .ok (.next m2)) :
    m2.f.nchan_p = m.f.nchan_p ∧ m2.f.nwide_p = m.f.nwide_p ∧ m2.f.win = m.f.win := by
  obtain ⟨m1, idx, hm1, _, hm2⟩ := processRecord_next m m2 r h
  have hs : m1.f.nchan_p = m.f.nchan_p ∧ m1.f.nwide_p = m.f.nwide_p ∧ m1.f.win = m.f.win := by
    by_cases hp : m.polsleft = 0
    · rw [if_pos hp] at hm1
      obtain ⟨_, _, _, _, a5, _, _, _, a9, a10⟩ := seedGroup_ok m m1 r hm1
      exact ⟨a9, a10, a5⟩
    · rw [if_neg hp] at hm1
      injection hm1 with hm1
      subst hm1
      exact ⟨rfl, rfl, rfl⟩
  obtain ⟨_, _, _, _, _, _, a6, _, _, a9, a10⟩ := flushGroup_rows (accumulate m1 r idx)
  have c4 : (accumulate m1 r idx).f = m1.f := rfl
  rw [hm2]
  simp only
  rw [a9, a10, a6, c4]
  exact hs

theorem channelLoop_append (r : Visibility) (c : Int) (l1 l2 : List Nat) (count : Nat)
    (b : (Int → Int → Val × Val) × (Int → Int → Bool)) :
    channelLoop r c (l1 ++ l2) count b
      = channelLoop r c l2 (count + 2 * l1.length) (channelLoop r c l1 count b) := by
  induction l1 generalizing count b with
  | nil => simp [channelLoop]
  | cons chan rest ih =>
    obtain ⟨vis, flag⟩ := b
    have h : count + 2 + 2 * rest.length = count + 2 * (rest.length + 1) := by omega
    rw [List.cons_append, channelLoop, channelLoop, ih, List.length_cons, h]

/-- The buffers after the channel loop over the channels `0 .. n-1`. -/
theorem channelLoop_range (r : Visibility) (c : Int) (n : Nat)
    (b : (Int → Int → Val × Val) × (Int → Int → Bool)) (j ch : Int) :
    (channelLoop r c (List.range n) 0 b).1 j ch
      = (if j = c ∧ 0 ≤ ch ∧ ch < n then
          (r.data (2 * ch.toNat), -(r.data (2 * ch.toNat + 1))) else b.1 j ch) ∧
    (channelLoop r c (List.range n) 0 b).2 j ch
      = (if j = c ∧ 0 ≤ ch ∧ ch < n then decide (r.flags ch.toNat = 0) else b.2 j ch) := by
  induction n with
  | zero =>
    have : ¬ (j = c ∧ 0 ≤ ch ∧ ch < ((0 : Nat) : Int)) := by omega
    rw [if_neg this, if_neg this]
    exact ⟨rfl, rfl⟩
  | succ n ih =>
    rw [List.range_succ, channelLoop_append]
    cases hb : channelLoop r c (List.range n) 0 b with
    | mk vis flag =>
      rw [hb] at ih
      simp only [channelLoop, List.length_range, Nat.zero_add] at ih ⊢
      have hdiv : 2 * n / 2 = n := by omega
      by_cases hcur : j = c ∧ ch = (n : Int)
      · obtain ⟨h1, h2⟩ := hcur
        subst h1 h2
        have hin : j = j ∧ (0 : Int) ≤ (n : Int) ∧ (n : Int) < ((n + 1 : Nat) : Int) :=
          ⟨rfl, by omega, by push_cast; omega⟩
        simp only [true_and, if_true, hin, and_self, Int.toNat_ofNat, hdiv]
        by_cases hf : r.flags n = 0 <;> simp [hf]
      · rw [if_neg hcur, if_neg hcur, ih.1, ih.2]
        by_cases hold : j = c ∧ 0 ≤ ch ∧ ch < (n : Int)
        · have hnew : j = c ∧ 0 ≤ ch ∧ ch < ((n + 1 : Nat) : Int) :=
            ⟨hold.1, hold.2.1, by push_cast; omega⟩
          rw [if_pos hold, if_pos hold, if_pos hnew, if_pos hnew]
          exact ⟨rfl, rfl⟩
        · have hnew : ¬ (j = c ∧ 0 ≤ ch ∧ ch < ((n + 1 : Nat) : Int)) := by
            rintro ⟨h1, h2, h3⟩
            push_cast at h3
            by_cases he : ch = (n : Int)
            · exact hcur ⟨h1, he⟩
            · exact hold ⟨h1, h2, by omega⟩
          rw [if_neg hold, if_neg hold, if_neg hnew, if_neg hnew]
          exact ⟨rfl, rfl⟩
/-! ### Slices of the group buffers -/

theorem seedGroup_buffers (m m1 : MainLoop) (r : Visibility) (h : seedGroup m r = .ok m1) :
    m1.vis = (fun _ _ => (0, 0)) ∧ m1.flag = (fun _ _ => true) := by
  unfold seedGroup at h
  simp only at h
  split at h
  · exact absurd h (by simp)
  · split at h
    · exact absurd h (by simp)
    · split at h
      · exact absurd h (by simp)
      · injection h with h
        subst h
        exact ⟨rfl, rfl⟩

/-- A turn of the loop that ends in `break` leaves the state as it was. -/
theorem processRecord_done (m m1 : MainLoop) (r : Visibility)
    (h : processRecord m r = .ok (.done m1)) : m1 = m := by
  unfold processRecord at h
  by_cases h1 : r.nread ≤ 0
  · rw [if_pos h1] at h
    injection h with h
    injection h with h
    exact h.symm
  · rw [if_neg h1] at h
    simp only at h
    by_cases h2 : r.nread ≠ m.f.nchan_p
    · rw [if_pos h2] at h
      injection h with h
      injection h with h
      exact h.symm
    · rw [if_neg h2] at h
      by_cases h3 : (if m.f.win.nspect > 0 then r.nwread else 0) ≠ m.f.nwide_p
      · rw [if_pos h3] at h
        injection h with h
        injection h with h
        exact h.symm
      · rw [if_neg h3] at h
        split at h
        · exact absurd h (by simp)
        · split at h
          · exact absurd h (by simp)
          · injection h with h
            exact absurd h (by simp)

/-- The members and locals that the start of a group leaves alone. -/
theorem seedGroup_locals (m m1 : MainLoop) (r : Visibility) (h : seedGroup m r = .ok m1) :
    m1.rows = m.rows ∧ m1.row = m.row ∧ m1.lastRowFlag = m.lastRowFlag ∧ m1.iscan = m.iscan ∧
    m1.ifield_old = m.ifield_old ∧ m1.f.apply_tsys = m.f.apply_tsys ∧
    m1.f.zero_tsys = m.f.zero_tsys := by
  unfold seedGroup at h
  simp only at h
  split at h
  · exact absurd h (by simp)
  · rename_i f1 hf1
    split at h
    · exact absurd h (by simp)
    · rename_i f2 hf2
      split at h
      · exact absurd h (by simp)
      · rename_i f3 hf3
        injection h with h
        subst h
        obtain ⟨_, _, _, _, _, _, a7, a8, _⟩ := raiseAnt_layout _ _ _ hf3
        obtain ⟨_, _, _, _, _, _, b7, b8, _⟩ := raiseAnt_layout _ _ _ hf2
        have hc : f1.apply_tsys = m.f.apply_tsys ∧ f1.zero_tsys = m.f.zero_tsys := by
          split at hf1
          · obtain ⟨_, _, _, _, _, _, _, c8, c9⟩ := Tracking_layout _ _ _ _ hf1
            exact ⟨c8, c9⟩
          · injection hf1 with hf1
            subst hf1
            exact ⟨rfl, rfl⟩
        exact ⟨rfl, rfl, rfl, rfl, rfl, a7.trans (b7.trans hc.1), a8.trans (b8.trans hc.2)⟩

/-- A property kept by every added row is kept by the loop over the windows; the rows
are added while the group buffer is not wholly flagged. -/
theorem foldl_emitRow_induct (P : MainLoop → Prop)
    (hemit : ∀ m i, m.f.win.keep i ≠ 0 → allTrue m.nCorr m.nChan m.flag = false →
      P m → P (emitRow m i))
    (l : List Nat) (m : MainLoop) (hg : allTrue m.nCorr m.nChan m.flag = false) (h0 : P m) :
    P (l.foldl emitRow m) := by
  induction l generalizing m with
  | nil => exact h0
  | cons i rest ih =>
    simp only [List.foldl_cons]
    obtain ⟨b1, b2, b3, _⟩ := emitRow_frame m i
    apply ih
    · rw [b1, b2, b3]
      exact hg
    · by_cases hk : m.f.win.keep i = 0
      · have : emitRow m i = m := by
          unfold emitRow
          rw [if_pos hk]
        rw [this]
        exact h0
      · exact hemit m i hk hg h0

/-- A property kept by every added row and by the update of `fcount` is kept by the
flush of a group. -/
theorem flushGroup_induct (P : MainLoop → Prop)
    (hemit : ∀ m i, m.f.win.keep i ≠ 0 → allTrue m.nCorr m.nChan m.flag = false →
      P m → P (emitRow m i))
    (hfc : ∀ (m : MainLoop) (fc : Int → Int), P m → P { m with f := { m.f with fcount := fc } })
    (m : MainLoop) (h0 : P m) : P (flushGroup m) := by
  unfold flushGroup
  by_cases hc : m.polsleft = 0 ∧ allTrue m.nCorr m.nChan m.flag = false
  · rw [if_pos hc]
    exact hfc _ _ (foldl_emitRow_induct P hemit _ m hc.2 h0)
  · rw [if_neg hc]
    exact h0

/-- A property of the loop state that the start of a group, the channel loop, every added
row, the update of `fcount` and the record counter keep, holds at the end of the record
loop. -/
theorem fillLoop_induct (P : MainLoop → Prop)
    (hseed : ∀ m r m1, seedGroup m r = .ok m1 → P m → P m1)
    (hacc : ∀ m r c, P m → P (accumulate m r c))
    (hemit : ∀ m i, m.f.win.keep i ≠ 0 → allTrue m.nCorr m.nChan m.flag = false →
      P m → P (emitRow m i))
    (hfc : ∀ (m : MainLoop) (fc : Int → Int), P m → P { m with f := { m.f with fcount := fc } })
    (hgroup : ∀ (m : MainLoop) (g : Nat), P m → P { m with group := g })
    (recs : List Visibility) (m m3 : MainLoop) (h0 : P m) (h : fillLoop m recs = .ok m3) :
    P m3 := by
  induction recs generalizing m with
  | nil =>
    simp only [fillLoop] at h
    injection h with h
    rw [← h]
    exact h0
  | cons r rest ih =>
    simp only [fillLoop] at h
    cases hpr : processRecord m r with
    | error e => rw [hpr] at h; exact absurd h (by simp)
    | ok o =>
      cases o with
      | done m1 =>
        rw [hpr] at h
        simp only at h
        injection h with h
        rw [← h, processRecord_done m m1 r hpr]
        exact h0
      | next m1 =>
        rw [hpr] at h
        simp only at h
        obtain ⟨ms, idx, hs, _, hm⟩ := processRecord_next m m1 r hpr
        apply ih m1 _ h
        rw [hm]
        apply hgroup
        apply flushGroup_induct P hemit hfc
        apply hacc
        by_cases hp : m.polsleft = 0
        · rw [if_pos hp] at hs
          exact hseed m r ms hs h0
        · rw [if_neg hp] at hs
          injection hs with hs
          rw [← hs]
          exact h0

/-! ### The row added for a retained window -/

/-- What `emitRow` adds and leaves for a retained window. -/
theorem emitRow_new (m : MainLoop) (i : Nat) (hk : m.f.win.keep i ≠ 0) :
    ∃ row : MainRow, (emitRow m i).rows = m.rows ++ [row] ∧ (emitRow m i).row = m.row + 1 ∧
      row.rowFlag = allTrue m.nCorr m.nChan m.flag ∧
      row.flagRow =
        (if allTrue m.nCorr m.nChan m.flag ≠ (if m.row + 1 = 0 then false else m.lastRowFlag)
          then some (allTrue m.nCorr m.nChan m.flag)
          else if m.row + 1 = 0 then some false else none) ∧
      (emitRow m i).lastRowFlag =
        (if allTrue m.nCorr m.nChan m.flag ≠ (if m.row + 1 = 0 then false else m.lastRowFlag)
          then allTrue m.nCorr m.nChan m.flag
          else (if m.row + 1 = 0 then false else m.lastRowFlag)) ∧
      row.fieldId = m.f.ifield ∧ row.scanNumber = (emitRow m i).iscan ∧
      (emitRow m i).iscan =
        (if (if m.row + 1 = 0 then m.f.ifield else m.ifield_old) ≠ m.f.ifield
          then m.iscan + 1 else m.iscan) ∧
      (emitRow m i).ifield_old = m.f.ifield ∧
      row.weight = (rowWeight m).1 ∧ (emitRow m i).f.zero_tsys = (rowWeight m).2.2 ∧
      (emitRow m i).f.apply_tsys = m.f.apply_tsys ∧
      row.antenna1 = m.ant1 ∧ row.antenna2 = m.ant2 ∧ row.dataDescId = (i : Int) ∧
      (emitRow m i).ant1 = m.ant1 ∧ (emitRow m i).ant2 = m.ant2 := by
  unfold emitRow
  rw [if_neg hk]
  exact ⟨_, rfl, rfl, rfl, rfl, rfl, rfl, rfl, rfl, rfl, rfl, rfl, rfl, rfl, rfl, rfl, rfl, rfl⟩

/-! ### Columns written on change -/

/-- The cell of a row after the first: written when the value differs from the row before. -/
theorem writesOnChange_snoc (p : Option Bool) (l : List Bool) (x b : Bool) :
    writesOnChange p (l ++ [x] ++ [b])
      = writesOnChange p (l ++ [x]) ++ [if x = b then none else some b] := by
  induction l generalizing p with
  | nil => simp [writesOnChange]
  | cons a rest ih =>
    simp only [List.cons_append]
    rw [writesOnChange, writesOnChange, ih, List.cons_append]

/-- Reading back with carry-forward returns the values the writes were computed from. -/
theorem carryForward_writesOnChange (l : List Bool) (p : Option Bool) (d : Bool)
    (h : p = none ∨ p = some d) : carryForward d (writesOnChange p l) = l := by
  induction l generalizing p d with
  | nil => rfl
  | cons b rest ih =>
    simp only [writesOnChange]
    by_cases hb : p = some b
    · rw [if_pos hb]
      have hd : d = b := by
        rcases h with h | h
        · rw [h] at hb; exact absurd hb (by simp)
        · rw [h] at hb; injection hb
      subst hd
      simp only [carryForward]
      rw [ih (some d) d (Or.inr rfl)]
    · rw [if_neg hb]
      simp only [carryForward]
      rw [ih (some b) b (Or.inr rfl)]

/-- An added row keeps the state of the FLAG_ROW column. -/
theorem flagRowInv_emitRow (m : MainLoop) (i : Nat) (hk : m.f.win.keep i ≠ 0)
    (h : flagRowInv m) : flagRowInv (emitRow m i) := by
  obtain ⟨h1, h2, h3⟩ := h
  obtain ⟨row, e1, e2, e3, e4, e5, _⟩ := emitRow_new m i hk
  rcases List.eq_nil_or_concat m.rows with hnil | ⟨l, last, hl⟩
  · have hrow : m.row + 1 = 0 := by rw [h1, hnil]; rfl
    rw [if_pos hrow] at e4 e5
    refine ⟨?_, ?_, ?_⟩
    · rw [e1, e2, hnil, hrow]; rfl
    · rw [e1, hnil]
      simp only [List.nil_append, List.map_cons, List.map_nil, writesOnChange, e4, e3]
      cases allTrue m.nCorr m.nChan m.flag <;> simp [hrow]
    · intro l2 last2 hl2
      rw [e1, hnil] at hl2
      have : row = last2 := by
        have := congrArg List.getLast? hl2
        simpa using this
      rw [e5, ← this, e3]
      cases allTrue m.nCorr m.nChan m.flag <;> simp
  · rw [List.concat_eq_append] at hl
    have hlast := h3 l last hl
    have hrow : ¬ m.row + 1 = 0 := by
      rw [h1, hl]
      simp only [List.length_append, List.length_singleton]
      omega
    rw [if_neg hrow] at e4 e5
    refine ⟨?_, ?_, ?_⟩
    · rw [e1, e2, h1]
      simp only [List.length_append, List.length_singleton]
      push_cast
      ring
    · rw [e1, List.map_append, h2, hl]
      simp only [List.map_append, List.map_cons, List.map_nil]
      rw [writesOnChange_snoc, e4, e3, hlast]
      congr 2
      cases allTrue m.nCorr m.nChan m.flag <;> cases last.rowFlag <;> simp [hrow]
    · intro l2 last2 hl2
      rw [e1] at hl2
      have : row = last2 := by
        have := congrArg List.getLast? hl2
        simpa using this
      rw [e5, ← this, e3, hlast]
      cases allTrue m.nCorr m.nChan m.flag <;> cases last.rowFlag <;> simp

/-! ### Scan numbers -/

/-- The start of a group keeps the states of the FLAG_ROW and SCAN_NUMBER columns. -/
theorem columnInv_seedGroup (s : Int) (m m1 : MainLoop) (r : Visibility)
    (h : seedGroup m r = .ok m1) :
    (flagRowInv m → flagRowInv m1) ∧ (scanInv s m → scanInv s m1) := by
  obtain ⟨a1, a2, a3, a4, a5, _⟩ := seedGroup_locals m m1 r h
  unfold flagRowInv scanInv
  rw [a1, a2, a3, a4, a5]
  exact ⟨id, id⟩

/-! ### The baseline number -/

/-- A whole number of magnitude below `2 ^ 24` is kept by the conversion to `float`. -/
theorem toFloat_small (x : Val) (h : x.natAbs < 16777216) : toFloat x = x := by
  unfold toFloat
  rw [if_pos h]

/-- What `raiseAnt` puts into the cell of the current array. -/
theorem raiseAnt_cell (f f1 : Filler) (ant : Int) (h : raiseAnt f ant = .ok f1) :
    f1.nArray_p = f.nArray_p ∧ f1.nAnt_p.length = f.nAnt_p.length ∧
    ∃ old : Int, f.nAnt_p[(f.nArray_p - 1).toNat]? = some old ∧
      f1.nAnt_p[(f.nArray_p - 1).toNat]? = some (max old ant) := by
  unfold raiseAnt at h
  split at h
  · split at h
    · exact absurd h (by simp)
    · rename_i old hold
      injection h with h
      subst h
      refine ⟨rfl, by simp, old, hold, ?_⟩
      have hlt : (f.nArray_p - 1).toNat < f.nAnt_p.length := by
        by_contra hge
        rw [List.getElem?_eq_none (by omega)] at hold
        exact absurd hold (by simp)
      exact List.getElem?_set_self hlt
  · exact absurd h (by simp)

/-- The antennas of a group and the cell of `nAnt_p` after its start, from the baseline
number as converted to `float`. -/
theorem seedGroup_antennas (m m1 : MainLoop) (r : Visibility) (h : seedGroup m r = .ok m1) :
    m1.ant1 = Int.tdiv (toFloat (r.preamble 4)) 256 - 1 ∧
    m1.ant2 = toFloat (r.preamble 4) - Int.tdiv (toFloat (r.preamble 4)) 256 * 256 - 1 ∧
    ∃ v : Int, m1.f.nAnt_p[(m1.f.nArray_p - 1).toNat]? = some v ∧
      Int.tdiv (toFloat (r.preamble 4)) 256 ≤ v ∧
      toFloat (r.preamble 4) - Int.tdiv (toFloat (r.preamble 4)) 256 * 256 ≤ v := by
  unfold seedGroup at h
  simp only at h
  split at h
  · exact absurd h (by simp)
  · rename_i f1 hf1
    split at h
    · exact absurd h (by simp)
    · rename_i f2 hf2
      split at h
      · exact absurd h (by simp)
      · rename_i f3 hf3
        injection h with h
        subst h
        obtain ⟨a1, _, old2, a3, a4⟩ := raiseAnt_cell _ _ _ hf2
        obtain ⟨b1, _, old3, b3, b4⟩ := raiseAnt_cell _ _ _ hf3
        refine ⟨rfl, rfl,
          max old3 (toFloat (r.preamble 4) - Int.tdiv (toFloat (r.preamble 4)) 256 * 256),
          ?_, ?_, ?_⟩
        · show f3.nAnt_p[(f3.nArray_p - 1).toNat]? = _
          rw [b1]
          exact b4
        · rw [a1, a4] at b3
          injection b3 with b3
          rw [← b3]
          exact le_trans (le_max_right _ _) (le_max_left _ _)
        · exact le_max_right _ _

/-- The rows added by the flush of a group carry the antennas of the group, which the
flush leaves as they are. -/
theorem flushGroup_antennas (m : MainLoop) :
    (flushGroup m).ant1 = m.ant1 ∧ (flushGroup m).ant2 = m.ant2 ∧
    ∃ new : List MainRow, (flushGroup m).rows = m.rows ++ new ∧
      ∀ row ∈ new, row.antenna1 = m.ant1 ∧ row.antenna2 = m.ant2 := by
  apply flushGroup_induct (fun m2 => m2.ant1 = m.ant1 ∧ m2.ant2 = m.ant2 ∧
      ∃ new : List MainRow, m2.rows = m.rows ++ new ∧
        ∀ row ∈ new, row.antenna1 = m.ant1 ∧ row.antenna2 = m.ant2)
  · intro m2 i hk _ hp
    obtain ⟨p1, p2, new, p3, p4⟩ := hp
    obtain ⟨row, e1, _, _, _, _, _, _, _, _, _, _, _, e13, e14, _, e16, e17⟩ := emitRow_new m2 i hk
    refine ⟨e16.trans p1, e17.trans p2, new ++ [row], ?_, ?_⟩
    · rw [e1, p3, List.append_assoc]
    · intro x hx
      rw [List.mem_append, List.mem_singleton] at hx
      rcases hx with hx | hx
      · exact p4 x hx
      · rw [hx, e13, e14]
        exact ⟨p1, p2⟩
  · intro m2 fc hp
    exact hp
  · exact ⟨rfl, rfl, [], by simp, by simp⟩


/-! ### Runs of `Tracking`: composition and invariants -/

/-- A run over two lists of calls is the run over the second from the end of the first. -/
theorem trackAll_append (a b : List (Int × Vars)) (s0 : Filler) :
    trackAll s0 (a ++ b)
      = (match trackAll s0 a with
        | .error e => .error e
        | .ok s => trackAll s b) := by
  induction a generalizing s0 with
  | nil => rfl
  | cons c rest ih =>
    obtain ⟨record, uv⟩ := c
    simp only [List.cons_append, trackAll]
    cases hT : Tracking s0 record uv with
    | error e => rfl
    | ok s1 => exact ih s1

/-- A property kept by every call of `Tracking` holds at the end of a run. -/
theorem trackAll_induct (P : Filler → Prop)
    (hstep : ∀ s record uv s1, Tracking s record uv = .ok s1 → P s → P s1)
    (calls : List (Int × Vars)) (s0 s : Filler) (h0 : P s0) (h : trackAll s0 calls = .ok s) :
    P s := by
  induction calls generalizing s0 with
  | nil =>
    simp only [trackAll] at h
    injection h with h
    rw [← h]
    exact h0
  | cons c rest ih =>
    obtain ⟨record, uv⟩ := c
    simp only [trackAll] at h
    cases hT : Tracking s0 record uv with
    | error e => rw [hT] at h; exact absurd h (by simp)
    | ok s1 =>
      rw [hT] at h
      exact ih s1 (hstep s0 record uv s1 hT h0) h

/-- The source names at the end of a run. -/
theorem trackAll_names (calls : List (Int × Vars)) (s0 s : Filler)
    (h : trackAll s0 calls = .ok s) : s.source_p = calls.foldl namesAfter s0.source_p := by
  induction calls generalizing s0 with
  | nil =>
    simp only [trackAll] at h
    injection h with h
    rw [← h]
    rfl
  | cons c rest ih =>
    obtain ⟨record, uv⟩ := c
    simp only [trackAll] at h
    cases hT : Tracking s0 record uv with
    | error e => rw [hT] at h; exact absurd h (by simp)
    | ok s1 =>
      rw [hT] at h
      rw [ih s1 h, (Tracking_step s0 s1 record uv hT).1]
      rfl

/-- The pointings of two lists of calls. -/
theorem pointings_append (offset : Vars → Val × Val) (a b : List (Int × Vars))
    (names : List String) :
    pointings offset names (a ++ b)
      = pointings offset names a ++ pointings offset (a.foldl namesAfter names) b := by
  induction a generalizing names with
  | nil => rfl
  | cons c rest ih =>
    rw [List.cons_append, pointings, pointings, List.foldl_cons]
    by_cases hl : isLookup c = true
    · rw [if_pos hl, if_pos hl, ih, List.cons_append]
    · rw [if_neg hl, if_neg hl, ih]

/-- Every call that is a lookup gives one pointing. -/
theorem length_pointings (offset : Vars → Val × Val) (calls : List (Int × Vars))
    (names : List String) (h : ∀ c ∈ calls, isLookup c = true) :
    (pointings offset names calls).length = calls.length := by
  induction calls generalizing names with
  | nil => rfl
  | cons c rest ih =>
    simp only [pointings, h c (List.mem_cons_self _ _), if_true, List.length_cons]
    rw [ih _ (fun k hk => h k (List.mem_cons_of_mem _ hk))]

/-- A list without repetition is its own list of first appearances. -/
theorem firstSeen_nodup {α : Type} [DecidableEq α] (l : List α) (h : l.Nodup) :
    firstSeen l = l := by
  induction l with
  | nil => rfl
  | cons a rest ih =>
    rw [List.nodup_cons] at h
    simp only [firstSeen, ih h.2]
    congr 1
    rw [List.filter_eq_self]
    intro b hb
    have : b ≠ a := fun e => h.1 (e ▸ hb)
    simpa using this

/-- The lookup of a new key in a directory that has `MAXFIELD - 1` fields or more stops
the run. -/
theorem trackField_full (uv : Vars) (t : Filler)
    (hl : (uv.has .source || uv.has .dra || uv.has .ddec) = true)
    (hk : ((0 : Val), (0 : Val), findSource uv.source t.source_p 0) ∉ fieldKeys t)
    (hfull : MAXFIELD ≤ t.nfield + 1) :
    trackField uv t = .error .tooManyFields := by
  unfold trackField
  simp only [hl, if_true]
  have hneg : findField
      { t with npoint := t.npoint + 1, ra_p := uv.ra, dec_p := uv.dec, dra_p := 0,
               ddec_p := 0, object_p := uv.source }
      (findSource uv.source t.source_p 0) (List.range t.nfield) < 0 :=
    (findField_neg_iff_not_mem
      { t with npoint := t.npoint + 1, ra_p := uv.ra, dec_p := uv.dec, dra_p := 0,
               ddec_p := 0, object_p := uv.source } (findSource uv.source t.source_p 0)).2 hk
  rw [if_pos hneg]
  unfold newField
  simp only
  rw [if_pos hfull]

/-! ### The fields of the directory -/

/-- A call of `Tracking` keeps these facts on the fields: the stored offsets are zero, the
id is the negative sentinel of the source index, and no two fields have the same source
index; after a lookup `ifield` is the field of the source index of the current name. -/
theorem Tracking_fields (s s1 : Filler) (record : Int) (uv : Vars)
    (h : Tracking s record uv = .ok s1)
    (hA : ∀ i, i < s.nfield → s.dra i = 0 ∧ s.ddec i = 0 ∧ s.sid_p i = -(s.field i + 1))
    (hB : ∀ i k, i < s.nfield → k < s.nfield → s.field i = s.field k → i = k) :
    (∀ i, i < s1.nfield → s1.dra i = 0 ∧ s1.ddec i = 0 ∧ s1.sid_p i = -(s1.field i + 1)) ∧
    (∀ i k, i < s1.nfield → k < s1.nfield → s1.field i = s1.field k → i = k) ∧
    (isLookup (record, uv) = true →
      s1.dra_p = 0 ∧ s1.ddec_p = 0 ∧
      ∃ i, i < s1.nfield ∧ s1.ifield = (i : Int) ∧
        s1.field i = findSource uv.source s1.source_p 0) := by
  unfold Tracking at h
  by_cases hr : record < 0
  · rw [if_pos hr] at h
    injection h with h
    subst h
    have hd : decide (0 ≤ record) = false := by simp; omega
    exact ⟨hA, hB, fun hl => absurd hl (by simp [isLookup, hd])⟩
  · rw [if_neg hr] at h
    have hd : decide (0 ≤ record) = true := by simp; omega
    obtain ⟨b1, b2, b3, _, _, b6, b7, _, _, _, _⟩ := beforeLookup_frame s record uv
    by_cases hl : (uv.has .source || uv.has .dra || uv.has .ddec) = true
    · have hoff : s1.dra_p = 0 ∧ s1.ddec_p = 0 := by
        have h2 := h
        unfold trackField at h2
        simp only [hl, if_true] at h2
        split at h2
        · unfold newField at h2
          simp only [and_self, if_true] at h2
          split at h2
          · exact absurd h2 (by simp)
          · split at h2
            · injection h2 with h2
              subst h2
              exact ⟨rfl, rfl⟩
            · exact absurd h2 (by simp)
        · injection h2 with h2
          subst h2
          exact ⟨rfl, rfl⟩
      by_cases hk : ((0 : Val), (0 : Val),
          findSource uv.source (beforeLookup s record uv).source_p 0)
          ∈ fieldKeys (beforeLookup s record uv)
      · obtain ⟨f1, f2, f3, _, _, f6, f7, f8, _, _, i, g1, g2, _, _, g5⟩ :=
          trackField_found uv _ s1 hl hk h
        rw [b1] at f1 g1
        rw [b2] at f2
        rw [b3] at f3
        rw [b6] at f6 g5
        rw [b7] at f7
        refine ⟨?_, ?_, fun _ => ⟨hoff.1, hoff.2, i, ?_, g2, ?_⟩⟩
        · intro k hk2
          rw [f1] at hk2
          rw [f2, f3, f6, f7]
          exact hA k hk2
        · intro k k2 hk1 hk2
          rw [f1] at hk1 hk2
          rw [f6]
          exact hB k k2 hk1 hk2
        · rw [f1]; exact g1
        · rw [f6, f8]; exact g5
      · obtain ⟨n1, _, _, _, _, n6, n7, _, _, n10, n11, n12, _, _, n15⟩ :=
          trackField_new uv _ s1 hl hk h
        rw [b1] at n1 n6 n7 n10 n11 n15
        rw [b2] at n6
        rw [b3] at n7
        rw [b6] at n10
        rw [b7] at n11
        have hnew : ∀ k, k < s.nfield →
            s.field k ≠ findSource uv.source (beforeLookup s record uv).source_p 0 := by
          intro k hk2 hfk
          apply hk
          rw [mem_fieldKeys]
          refine ⟨k, by rw [b1]; exact hk2, ?_⟩
          rw [b2, b3, b6, (hA k hk2).1, (hA k hk2).2.1, hfk]
        refine ⟨?_, ?_, fun _ => ⟨hoff.1, hoff.2, s.nfield, ?_, n15, ?_⟩⟩
        · intro k hk2
          rw [n1] at hk2
          rw [n6, n7, n10, n11]
          by_cases hkn : k = s.nfield
          · subst hkn
            simp [setAt]
          · have hlt : k < s.nfield := by omega
            simp only [setAt, hkn, if_false]
            exact hA k hlt
        · intro k k2 hk1 hk2 hf
          rw [n1] at hk1 hk2
          rw [n10] at hf
          by_cases h1 : k = s.nfield <;> by_cases h2 : k2 = s.nfield
          · rw [h1, h2]
          · have hlt : k2 < s.nfield := by omega
            simp only [setAt, h1, h2, if_true, if_false] at hf
            exact absurd hf.symm (hnew k2 hlt)
          · have hlt : k < s.nfield := by omega
            simp only [setAt, h1, h2, if_true, if_false] at hf
            exact absurd hf (hnew k hlt)
          · simp only [setAt, h1, h2, if_false] at hf
            exact hB k k2 (by omega) (by omega) hf
        · rw [n1]; omega
        · rw [n10, n12]
          simp [setAt]
    · have hl2 : (uv.has .source || uv.has .dra || uv.has .ddec) = false := by
        simpa using hl
      rw [trackField_skip uv _ hl2] at h
      injection h with h
      subst h
      refine ⟨?_, ?_, fun hlk => absurd hlk (by simp [isLookup, hl2])⟩
      · intro k hk2
        rw [b1] at hk2
        rw [b2, b3, b6, b7]
        exact hA k hk2
      · intro k k2 hk1 hk2
        rw [b1] at hk1 hk2
        rw [b6]
        exact hB k k2 hk1 hk2

/-- The values of the archive variables `dra` and `ddec` are not read by `Tracking`. -/
theorem Tracking_offsets_unread (s : Filler) (record : Int) (uv : Vars) (x y : Val) :
    Tracking s record { uv with dra := x, ddec := y } = Tracking s record uv := rfl

/-! ### Runs over pairwise distinct sources -/

/-- A name that is not listed, once appended, is found at the end of the list. -/
theorem findSource_new (x : String) (l : List String) (i : Nat) (h : x ∉ l) :
    findSource x (l ++ [x]) i = ((i + l.length : Nat) : Int) := by
  induction l generalizing i with
  | nil => simp [findSource]
  | cons a rest ih =>
    have ha : a ≠ x := fun e => h (e ▸ List.mem_cons_self _ _)
    have hr : x ∉ rest := fun e => h (List.mem_cons_of_mem _ e)
    rw [List.cons_append, findSource, if_neg ha, ih (i + 1) hr, List.length_cons]
    congr 1
    omega

/-- Different numbers give different source names. -/
theorem sourceName_injective : Function.Injective sourceName := by
  intro i k h
  unfold sourceName at h
  have h2 := congrArg (fun t : String => t.data.length) h
  simp only [List.length_replicate] at h2
  omega

/-- The calls up to number `n`. -/
theorem distinctSources_succ (n : Nat) :
    distinctSources (n + 1) = distinctSources n ++
      [(Int.ofNat n, pointingVars true false false (sourceName n) 0 0 0 0)] := by
  unfold distinctSources
  rw [List.range_succ, List.map_append]
  rfl

/-- Every call of the family reaches the field lookup. -/
theorem distinctSources_lookup (n : Nat) : ∀ c ∈ distinctSources n, isLookup c = true := by
  intro c hc
  unfold distinctSources at hc
  rw [List.mem_map] at hc
  obtain ⟨i, _, hi⟩ := hc
  rw [← hi]
  simp [isLookup, pointingVars]

/-- The names listed after the calls of the family. -/
theorem distinctSources_names (n : Nat) :
    (distinctSources n).foldl namesAfter [] = (List.range n).map sourceName := by
  induction n with
  | zero => rfl
  | succ n ih =>
    rw [distinctSources_succ, List.foldl_append, ih, List.range_succ, List.map_append]
    simp [namesAfter, pointingVars]

/-- The pointing of call `i` has the source index `i`. -/
theorem distinctSources_pointings (n : Nat) :
    pointings zeroOffset [] (distinctSources n)
      = (List.range n).map fun i =>
          { offset := (0, 0), source := Int.ofNat i, ra := 0, dec := 0 } := by
  induction n with
  | zero => rfl
  | succ n ih =>
    rw [distinctSources_succ, pointings_append, ih, distinctSources_names, List.range_succ,
      List.map_append]
    congr 1
    have hnew : sourceName n ∉ (List.range n).map sourceName := by
      intro hm
      rw [List.mem_map] at hm
      obtain ⟨i, hi, he⟩ := hm
      have := sourceName_injective he
      rw [List.mem_range] at hi
      omega
    have hfs := findSource_new (sourceName n) ((List.range n).map sourceName) 0 hnew
    simp only [List.length_map, List.length_range, Nat.zero_add] at hfs
    have hl : isLookup (Int.ofNat n, pointingVars true false false (sourceName n) 0 0 0 0) = true := by
      simp [isLookup, pointingVars]
    have hna : namesAfter ((List.range n).map sourceName)
        (Int.ofNat n, pointingVars true false false (sourceName n) 0 0 0 0)
        = (List.range n).map sourceName ++ [sourceName n] := by
      simp [namesAfter, pointingVars]
    simp only [pointings, hl, if_true, hna, List.map_cons, List.map_nil]
    have hsrc : (pointingVars true false false (sourceName n) 0 0 0 0).source = sourceName n := rfl
    rw [hsrc, hfs]
    rfl

/-! ## Claims on the polarization lookup and the window layout -/

/-- C6: the polarization lookup sends archive code -5 (XX) to 0, -7 (XY) to 1, -8 (YX) to 2
and -6 (YY) to 3, and restricted to these four codes it is a bijection onto the four
canonical indices 0, 1, 2, 3. -/
theorem C6_polmapping_canonical :
    casapolidx (-5) = .ok 0 ∧ casapolidx (-7) = .ok 1 ∧ casapolidx (-8) = .ok 2 ∧
    casapolidx (-6) = .ok 3 ∧
    Set.BijOn casapolidx {-5, -7, -8, -6} {.ok 0, .ok 1, .ok 2, .ok 3} := by
  refine ⟨by decide, by decide, by decide, by decide, ?_, ?_, ?_⟩
  · intro c hc
    simp only [Set.mem_insert_iff, Set.mem_singleton_iff] at hc ⊢
    rcases hc with h | h | h | h <;> subst h <;> decide
  · intro c hc d hd hcd
    simp only [Set.mem_insert_iff, Set.mem_singleton_iff, Set.mem_setOf_eq] at hc hd
    rcases hc with h | h | h | h <;> rcases hd with g | g | g | g <;> subst h <;> subst g <;>
      first
        | rfl
        | exact absurd hcd (by decide)
  · intro k hk
    simp only [Set.mem_insert_iff, Set.mem_singleton_iff] at hk
    simp only [Set.mem_image, Set.mem_insert_iff, Set.mem_singleton_iff]
    rcases hk with h | h | h | h <;> subst h
    · exact ⟨-5, by decide, by decide⟩
    · exact ⟨-7, by decide, by decide⟩
    · exact ⟨-8, by decide, by decide⟩
    · exact ⟨-6, by decide, by decide⟩

/-- C8: for `nSpect <= MAXWIN` narrow and `nWide <= MAXWIDE` wide windows, `init_window`
returns a layout as soon as the narrow-window variables are reported (or there is no narrow
window), and every layout it returns has `nSpect + nWide` entries, all with `keep` set:
entry `i < nSpect` carries the archive's per-window values, and entry `nSpect + i` has one
channel, starting channel `nchan + i + 1`, first-channel frequency `wfreq[i]` and rest
frequency -1. -/
theorem C8_init_window_layout (MAXWIN MAXWIDE : Nat) (nchan_p : Int) (uv : Vars) (win : WINDOW)
    (nSpect nWide : Nat) (hns : nspectRead uv = nSpect) (hnw : nwideRead uv = nWide)
    (hs : nSpect ≤ MAXWIN) (hw : nWide ≤ MAXWIDE) :
    ((nSpect = 0 ∨ (uv.has .ischan = true ∧ uv.has .nschan = true ∧ uv.has .restfreq = true ∧
        uv.has .sdf = true ∧ uv.has .sfreq = true)) →
      ∃ w, init_window MAXWIN MAXWIDE nchan_p uv win = .ok w) ∧
    ∀ w, init_window MAXWIN MAXWIDE nchan_p uv win = .ok w →
      w.nspect = nSpect ∧ w.nwide = nWide ∧
      (∀ k, k < nSpect + nWide → w.keep k = 1) ∧
      (∀ i, i < nSpect →
        (uv.has .ischan = true → w.ischan i = uv.ischan i) ∧
        (uv.has .nschan = true → w.nschan i = uv.nschan i) ∧
        w.restfreq i = uv.restfreq i ∧
        (uv.has .sdf = true → w.sdf i = uv.sdf i) ∧
        w.sfreq i = uv.sfreq i) ∧
      (∀ i, i < nWide →
        w.nschan (nSpect + i) = 1 ∧
        w.ischan (nSpect + i) = nchanRead uv + i + 1 ∧
        w.sfreq (nSpect + i) = w.wfreq i ∧
        (uv.has .wfreq = true → w.wfreq i = uv.wfreq i) ∧
        w.restfreq (nSpect + i) = -1) := by
  constructor
  · intro hv
    unfold init_window
    simp only [hns]
    by_cases h0 : (0 : Int) < nSpect ∧ (nSpect : Int) ≤ MAXWIN
    · rcases hv with hv | ⟨h1, h2, h3, h4, h5⟩
      · omega
      · obtain ⟨w1, hw1⟩ := readNarrow_total nchan_p uv nSpect
          { win with nspect := nSpect, nwide := nwideRead uv } h1 h2 h3 h4 h5
        simp only [h0, and_self, if_true, hw1]
        exact ⟨_, rfl⟩
    · simp only [h0, if_false]
      exact ⟨_, rfl⟩
  · intro w hok
    obtain ⟨w1, w2, hz, hp, hwo, hwp, hfin⟩ :=
      init_window_stages MAXWIN MAXWIDE nchan_p uv win w nSpect hns hs hok
    rw [hnw, Int.toNat_ofNat] at hfin
    rw [hnw] at hwo hwp hz hp
    -- the structure after the two reading stages
    have hw2 : w2.nspect = w1.nspect ∧ w2.nwide = w1.nwide ∧ w2.nschan = w1.nschan ∧
        w2.ischan = w1.ischan ∧ w2.sdf = w1.sdf ∧ w2.sfreq = w1.sfreq ∧
        w2.restfreq = w1.restfreq ∧ w2.code = w1.code ∧ w2.keep = w1.keep := by
      rcases hwo with h | h
      · rw [h]; simp
      · rw [h]; exact readWide_frame uv nWide w1
    have hw2f : uv.has .wfreq = true → ∀ i, i < nWide → w2.wfreq i = uv.wfreq i := by
      intro hf i hi
      rw [hwp (by omega) (by omega), readWide_wfreq, hf]
      simp only [if_true]
      exact copyIn_lt _ _ _ _ (by omega)
    have hw1 : w1.nspect = nSpect ∧ w1.nwide = nWide := by
      rcases Nat.eq_zero_or_pos nSpect with h | h
      · rw [hz h]; simp
      · have := readNarrow_ok nchan_p uv nSpect _ w1 (hp h)
        exact ⟨this.1, this.2.1⟩
    obtain ⟨f1, f2, f3, f4⟩ := buildWide_frame (nchanRead uv) nWide nSpect
      (markNarrow (List.range nSpect) w2)
    obtain ⟨m1, m2, m3, m4, m5, m6, m7, m8, m9⟩ := markNarrow_frame (List.range nSpect) w2
    refine ⟨?_, ?_, ?_, ?_, ?_⟩
    · rw [hfin, f1, m1, hw2.1, hw1.1]
    · rw [hfin, f2, m2, hw2.2.1, hw1.2]
    · intro k hk
      rw [hfin, buildWide_keep, markNarrow_keep]
      by_cases h : nSpect ≤ k ∧ k < nSpect + nWide
      · simp [h]
      · have : k < nSpect := by omega
        simp [h, this]
    · intro i hi
      have hout : ¬ (nSpect ≤ i ∧ i < nSpect + nWide) := by omega
      have hr := readNarrow_ok nchan_p uv nSpect _ w1 (hp (by omega))
      obtain ⟨_, _, _, _, _, _, r1, r2, r3, r4, r5, _⟩ := hr
      have hlt : (i : Int) < (nSpect : Int) := by omega
      refine ⟨?_, ?_, ?_, ?_, ?_⟩
      · intro hv
        rw [hfin, buildWide_ischan, if_neg hout, m4, hw2.2.2.2.1, r1, hv]
        simp only [if_true]
        exact copyIn_lt _ _ _ _ hlt
      · intro hv
        rw [hfin, buildWide_nschan, if_neg hout, m3, hw2.2.2.1, r2, hv]
        simp only [if_true]
        exact copyIn_lt _ _ _ _ hlt
      · rw [hfin, buildWide_restfreq, if_neg hout, m7, hw2.2.2.2.2.2.2.1, r3]
        exact copyIn_lt _ _ _ _ hlt
      · intro hv
        rw [hfin, buildWide_sdf_outside _ _ _ _ _ (Or.inl hi), m5, hw2.2.2.2.2.1, r4, hv]
        simp only [if_true]
        exact copyIn_lt _ _ _ _ hlt
      · rw [hfin, buildWide_sfreq, if_neg hout, m6, hw2.2.2.2.2.2.1, r5]
        exact copyIn_lt _ _ _ _ hlt
    · intro i hi
      have hin : nSpect ≤ nSpect + i ∧ nSpect + i < nSpect + nWide := by omega
      refine ⟨?_, ?_, ?_, ?_, ?_⟩
      · rw [hfin, buildWide_nschan, if_pos hin]
      · rw [hfin, buildWide_ischan, if_pos hin]
        simp
      · rw [hfin, buildWide_sfreq, if_pos hin, f3]
        simp
      · intro hv
        rw [hfin, f3, m8]
        exact hw2f hv i hi
      · rw [hfin, buildWide_restfreq, if_pos hin]

/-- C8 at the layout of the specification: narrow windows of 2 and 4 channels (6 fine
channels) and one wide channel give 3 entries, the third with 1 channel starting at 7. -/
theorem C8_init_window_layout_witness :
    nspectRead twoNarrowOneWide = (2 : Nat) ∧ nwideRead twoNarrowOneWide = (1 : Nat) ∧
    2 ≤ 16 ∧ 1 ≤ 18 ∧
    ∃ w, init_window 16 18 0 twoNarrowOneWide blankWindow = .ok w ∧
      w.nspect = 2 ∧ w.nwide = 1 ∧ w.keep 0 = 1 ∧ w.keep 1 = 1 ∧ w.keep 2 = 1 ∧
      w.nschan 0 = 2 ∧ w.nschan 1 = 4 ∧ w.nschan 2 = 1 ∧ w.ischan 2 = 7 := by
  have h := C8_init_window_layout 16 18 0 twoNarrowOneWide blankWindow 2 1
    (by decide) (by decide) (by decide) (by decide)
  obtain ⟨w, hw⟩ := h.1 (Or.inr (by decide))
  obtain ⟨a, b, c, d, e⟩ := h.2 w hw
  refine ⟨by decide, by decide, by decide, by decide, w, hw, a, b, c 0 (by decide),
    c 1 (by decide), c 2 (by decide), ?_, ?_, (e 0 (by decide)).1, ?_⟩
  · rw [(d 0 (by decide)).2.1 (by decide)]; decide
  · rw [(d 1 (by decide)).2.1 (by decide)]; decide
  · rw [(e 0 (by decide)).2.1]; decide

/-- C10, as stated, fails: with one narrow window and `ischan`, `nschan` not reported,
`init_window` does not fail; it takes starting channel 1 and channel count `nchan_p`. -/
theorem C10_counterexample :
    nspectRead singleWindowNoChannels = 1 ∧
    singleWindowNoChannels.has .ischan = false ∧ singleWindowNoChannels.has .nschan = false ∧
    ∃ w, init_window 16 18 64 singleWindowNoChannels blankWindow = .ok w ∧
      w.ischan 0 = 1 ∧ w.nschan 0 = 64 :=
  ⟨by decide, by decide, by decide, _, rfl, by decide, by decide⟩

/-- C10, amended: for `1 <= nSpect <= MAXWIN`, `init_window` fails exactly when `restfreq`
or `sfreq` is not reported, or `nSpect > 1` and `ischan`, `nschan` or `sdf` is not reported;
the error is then "missing v" for one of the variables `v` not reported. With `nSpect = 1`
and `restfreq`, `sfreq` reported it succeeds, taking starting channel 1 when `ischan` is not
reported and channel count `nchan_p` when `nschan` is not. -/
theorem C10_missing_layout_variable (MAXWIN MAXWIDE : Nat) (nchan_p : Int) (uv : Vars)
    (win : WINDOW) (nSpect : Nat) (hns : nspectRead uv = nSpect) (h1 : 1 ≤ nSpect)
    (hs : nSpect ≤ MAXWIN) :
    ((∃ e, init_window MAXWIN MAXWIDE nchan_p uv win = .error e) ↔
      (uv.has .restfreq = false ∨ uv.has .sfreq = false ∨
        (1 < nSpect ∧
          (uv.has .ischan = false ∨ uv.has .nschan = false ∨ uv.has .sdf = false)))) ∧
    (∀ e, init_window MAXWIN MAXWIDE nchan_p uv win = .error e →
      (e = .missing "ischan" ∧ uv.has .ischan = false) ∨
      (e = .missing "nschan" ∧ uv.has .nschan = false) ∨
      (e = .missing "restfreq" ∧ uv.has .restfreq = false) ∨
      (e = .missing "sdf" ∧ uv.has .sdf = false) ∨
      (e = .missing "sfreq" ∧ uv.has .sfreq = false)) ∧
    (nSpect = 1 → uv.has .restfreq = true → uv.has .sfreq = true →
      ∃ w, init_window MAXWIN MAXWIDE nchan_p uv win = .ok w ∧
        (uv.has .ischan = false → w.ischan 0 = 1) ∧
        (uv.has .nschan = false → w.nschan 0 = nchan_p)) := by
  obtain ⟨he, ho⟩ := init_window_narrow MAXWIN MAXWIDE nchan_p uv win nSpect hns h1 hs
  refine ⟨?_, ?_, ?_⟩
  · constructor
    · rintro ⟨e, h⟩
      have := readNarrow_error _ _ _ _ _ ((he e).1 h)
      rcases this with ⟨_, a, b⟩ | ⟨_, a, b⟩ | ⟨_, a⟩ | ⟨_, a, b⟩ | ⟨_, a⟩
      · exact Or.inr (Or.inr ⟨by omega, Or.inl a⟩)
      · exact Or.inr (Or.inr ⟨by omega, Or.inr (Or.inl a)⟩)
      · exact Or.inl a
      · exact Or.inr (Or.inr ⟨by omega, Or.inr (Or.inr a)⟩)
      · exact Or.inr (Or.inl a)
    · intro hc
      cases hi : init_window MAXWIN MAXWIDE nchan_p uv win with
      | error e => exact ⟨e, rfl⟩
      | ok w =>
        exfalso
        obtain ⟨w1, hw1⟩ := ho.1 ⟨w, hi⟩
        obtain ⟨_, _, _, _, _, _, _, _, _, _, _, r1, r2, r3, r4, r5⟩ :=
          readNarrow_ok _ _ _ _ _ hw1
        rcases hc with a | a | ⟨g, a | a | a⟩
        · simp [r3] at a
        · simp [r5] at a
        · have := r1 a; omega
        · have := r2 a; omega
        · have := r4 a; omega
  · intro e h
    have := readNarrow_error _ _ _ _ _ ((he e).1 h)
    rcases this with ⟨a, b, _⟩ | ⟨a, b, _⟩ | ⟨a, b⟩ | ⟨a, b, _⟩ | ⟨a, b⟩
    · exact Or.inl ⟨a, b⟩
    · exact Or.inr (Or.inl ⟨a, b⟩)
    · exact Or.inr (Or.inr (Or.inl ⟨a, b⟩))
    · exact Or.inr (Or.inr (Or.inr (Or.inl ⟨a, b⟩)))
    · exact Or.inr (Or.inr (Or.inr (Or.inr ⟨a, b⟩)))
  · intro hone h3 h5
    subst hone
    obtain ⟨w1, hw1⟩ := readNarrow_isOk nchan_p uv (1 : Nat)
      { win with nspect := (1 : Nat), nwide := nwideRead uv }
      (Or.inr rfl) (Or.inr rfl) h3 (Or.inr (by simp)) h5
    obtain ⟨w, hw⟩ := ho.2 ⟨w1, hw1⟩
    obtain ⟨v1, v2, _, hp, hwo, _, hfin⟩ :=
      init_window_stages MAXWIN MAXWIDE nchan_p uv win w 1 hns hs hw
    have hr := readNarrow_ok _ _ _ _ _ (hp (by omega))
    have hv2 : v2.nschan = v1.nschan ∧ v2.ischan = v1.ischan := by
      rcases hwo with h | h
      · rw [h]; simp
      · rw [h]; exact ⟨(readWide_frame _ _ _).2.2.1, (readWide_frame _ _ _).2.2.2.1⟩
    have hout : ¬ (1 ≤ 0 ∧ 0 < 1 + (nwideRead uv).toNat) := by omega
    refine ⟨w, hw, ?_, ?_⟩
    · intro ha
      rw [hfin, buildWide_ischan, if_neg hout, (markNarrow_frame _ _).2.2.2.1, hv2.2,
        hr.2.2.2.2.2.2.1, ha]
      simp [setAt]
    · intro ha
      rw [hfin, buildWide_nschan, if_neg hout, (markNarrow_frame _ _).2.2.1, hv2.1,
        hr.2.2.2.2.2.2.2.1, ha]
      simp [setAt]

/-- C10 (amended) at two narrow windows with `sdf` not reported: the call fails. -/
theorem C10_missing_layout_variable_witness :
    nspectRead twoWindowsNoSdf = (2 : Nat) ∧ 1 ≤ 2 ∧ 2 ≤ 16 ∧
    ∃ e, init_window 16 18 0 twoWindowsNoSdf blankWindow = .error e :=
  ⟨by decide, by decide, by decide,
    (C10_missing_layout_variable 16 18 0 twoWindowsNoSdf blankWindow 2 (by decide) (by decide)
      (by decide)).1.2 (Or.inr (Or.inr ⟨by decide, Or.inr (Or.inr (by decide))⟩))⟩

/-! ## Claims on the field and source directories -/

/-- C1, as stated, fails: two pointings of source "A" with archive offsets (0, 0) and (1, 0)
are two distinct (offset, source index) pairs, but `Tracking` ends with one field. -/
theorem C1_counterexample :
    ∃ s, trackAll (construct false zeroFiller) sameSourceTwoOffsets = .ok s ∧ s.nfield = 1 ∧
      ((pointings archiveOffset [] sameSourceTwoOffsets).map Pointing.key).toFinset.card = 2 :=
  ⟨_, rfl, by decide, by decide⟩

/-- C1, amended: every lookup of `Tracking` has the offset pair (0, 0), whatever the archive
offsets are. A sequence of calls on the constructed object is processed without abort when
its lookups have fewer than `MAXFIELD` distinct keys (0, 0, source index) and each finds
its source name in the list; and whenever it is processed without abort, `nfield` is the
number of distinct keys of its lookups, and field `i` holds the `i`-th distinct key in
order of first appearance. -/
theorem C1_fields_distinct_in_order (apply_tsys : Bool) (junk : Filler)
    (calls : List (Int × Vars)) :
    ((((pointings zeroOffset [] calls).map Pointing.key).toFinset.card < MAXFIELD ∧
        ∀ p ∈ pointings zeroOffset [] calls, 0 ≤ p.source) →
      ∃ s, trackAll (construct apply_tsys junk) calls = .ok s) ∧
    ∀ s, trackAll (construct apply_tsys junk) calls = .ok s →
      s.nfield = ((pointings zeroOffset [] calls).map Pointing.key).toFinset.card ∧
      fieldKeys s = firstSeen ((pointings zeroOffset [] calls).map Pointing.key) := by
  have h0 : fieldKeys (construct apply_tsys junk) = [] := by
    simp [fieldKeys, construct]
  have hs : (construct apply_tsys junk).source_p = [] := rfl
  constructor
  · rintro ⟨hcap, hnames⟩
    apply trackAll_total calls (construct apply_tsys junk) rfl rfl
    · rw [h0, hs, foldl_insert_eq]
      simpa [length_firstSeen] using hcap
    · rw [hs]
      exact hnames
  · intro s h
    have hk := trackAll_fieldKeys calls (construct apply_tsys junk) s h
    rw [h0, hs, foldl_insert_eq] at hk
    have hf : fieldKeys s = firstSeen ((pointings zeroOffset [] calls).map Pointing.key) := by
      rw [hk]
      simp
    refine ⟨?_, hf⟩
    rw [← length_fieldKeys, hf, length_firstSeen]

/-- C1 (amended) on the names "A", "B", "A", "C": the run does not abort and ends with
three fields, for the source indices 0, 1 and 3. -/
theorem C1_fields_distinct_in_order_witness :
    ∃ s, trackAll (construct false zeroFiller) namesABAC = .ok s ∧
      s.nfield = 3 ∧ fieldKeys s = [(0, 0, 0), (0, 0, 1), (0, 0, 3)] := by
  have h := C1_fields_distinct_in_order false zeroFiller namesABAC
  obtain ⟨s, hs⟩ := h.1 ⟨by decide, by decide⟩
  obtain ⟨h1, h2⟩ := h.2 s hs
  exact ⟨s, hs, h1.trans (by decide), h2.trans (by decide)⟩

/-- C2 at the names "A", "B", "A", "C": `source_p` holds the four entries, and
`fillSourceTable` leaves its loop at the repeated "A", so the table has the rows "A" and
"B" only; the distinct name "C" has no row. -/
theorem C2_source_rows_stop_at_repeat :
    ∃ s, trackAll (construct false zeroFiller) namesABAC = .ok s ∧
      s.source_p = ["A", "B", "A", "C"] ∧
      (fillSourceTable s).map SourceRow.name = ["A", "B"] :=
  ⟨_, rfl, by decide, by decide⟩

/-- C3, as stated, fails: the only pointing of source "A" has archive offset (1, 0), so no
zero-offset pointing was seen, yet the catalog position of "A" is (5, 7), not (0, 0). -/
theorem C3_counterexample :
    ∃ s, trackAll (construct false zeroFiller) offsetOnlyPointing = .ok s ∧
      s.ras_p = [5] ∧ s.decs_p = [7] ∧
      (pointings archiveOffset [] offsetOnlyPointing).find?
        (fun p => decide (p.offset = (0, 0) ∧ p.source = 0)) = none :=
  ⟨_, rfl, by decide, by decide, by decide⟩

/-- C3, amended: after every sequence of calls processed without abort from the constructed
object, `ras_p` and `decs_p` have one cell per entry of `source_p`, and the position stored
at index `j` is the `ra`, `dec` current at the first lookup resolved to source index `j`,
whatever the archive offsets of that lookup; later lookups do not change it, and it is
(0, 0) when no lookup resolved to `j`. -/
theorem C3_catalog_position (apply_tsys : Bool) (junk : Filler)
    (calls : List (Int × Vars)) (s : Filler)
    (h : trackAll (construct apply_tsys junk) calls = .ok s) :
    s.ras_p.length = s.source_p.length ∧ s.decs_p.length = s.source_p.length ∧
    ∀ j : Nat, (s.ras_p.getD j 0, s.decs_p.getD j 0) =
      (((pointings zeroOffset [] calls).find?
        (fun p => decide (p.source = (j : Int)))).map (fun p => (p.ra, p.dec))).getD (0, 0) := by
  obtain ⟨h1, h2, h3⟩ := trackAll_catalog calls (construct apply_tsys junk) s h rfl rfl
  refine ⟨h1, h2, fun j => ?_⟩
  have h0 : ((0 : Val), (0 : Val), (j : Int)) ∉ fieldKeys (construct apply_tsys junk) := by
    simp [fieldKeys, construct]
  have hs : (construct apply_tsys junk).source_p = [] := rfl
  have hr : (construct apply_tsys junk).ras_p = [] := rfl
  have hd : (construct apply_tsys junk).decs_p = [] := rfl
  rw [h3 j, if_neg h0, hs, hr, hd]
  rfl

/-- C3 (amended) on the names "A", "B", "A", "C" at positions (5, 7), (6, 8), (5, 7),
(9, 4): the repeated entry of "A" (index 2) is never resolved and keeps (0, 0). -/
theorem C3_catalog_position_witness :
    ∃ s, trackAll (construct false zeroFiller) namesABAC = .ok s ∧
      (s.ras_p.getD 0 0, s.decs_p.getD 0 0) = (5, 7) ∧
      (s.ras_p.getD 2 0, s.decs_p.getD 2 0) = (0, 0) ∧
      (s.ras_p.getD 3 0, s.decs_p.getD 3 0) = (9, 4) :=
  ⟨_, rfl,
    ((C3_catalog_position false zeroFiller namesABAC _ rfl).2.2 0).trans (by decide),
    ((C3_catalog_position false zeroFiller namesABAC _ rfl).2.2 2).trans (by decide),
    ((C3_catalog_position false zeroFiller namesABAC _ rfl).2.2 3).trans (by decide)⟩

/-! ## Claims on the record loop -/

/-- C4, as stated, fails: in an archive with wide channels only (`nspect` not reported, so
`nIF_p = 0`) a group seeded to 1 is complete after its record and its flag buffer is not
wholly set, yet no row is emitted. -/
theorem C4_counterexample :
    ∃ m m2, enterLoop 16 18 false 0 zeroLoop wideOnlyRecord = .ok m ∧
      m.polsleft = 0 ∧ wideOnlyRecord.npol = 1 ∧ m.f.nIF_p = 0 ∧
      advance m [wideOnlyRecord] = some m2 ∧
      allTrue m2.nCorr m2.nChan m2.flag = false ∧ m2.rows = m.rows :=
  ⟨_, _, rfl, by decide, by decide, by decide, rfl, by decide, by decide⟩

/-- C4, amended: for a group seeded to `n = rest.length + 1 >= 1` records that the loop
takes without `break` or error, no row is emitted during the first `n - 1` records; at the
`n`-th record the rows emitted are one per window below `nIF_p` whose `keep` is set if not
every entry of the flag buffer is set, and none if every entry is set. So rows are emitted
at the `n`-th record if and only if not every entry of the flag buffer is set and some
window below `nIF_p` is retained. -/
theorem C4_group_flush (m : MainLoop) (r0 : Visibility) (rest : List Visibility)
    (hp : m.polsleft = 0) (hn : r0.npol = rest.length + 1) :
    (∀ k mk, k ≤ rest.length → advance m ((r0 :: rest).take k) = some mk →
      mk.rows = m.rows) ∧
    (∀ m2, advance m (r0 :: rest) = some m2 →
      (∃ new : List MainRow, m2.rows = m.rows ++ new ∧
        new.map MainRow.dataDescId =
          (if allTrue m2.nCorr m2.nChan m2.flag = false then
            ((List.range m.f.nIF_p.toNat).filter
              (fun i => decide (m.f.win.keep i ≠ 0))).map Int.ofNat
          else [])) ∧
      (allTrue m2.nCorr m2.nChan m2.flag = true → m2.rows = m.rows) ∧
      (m2.rows ≠ m.rows ↔
        (allTrue m2.nCorr m2.nChan m2.flag = false ∧
          ∃ ifno : Nat, (ifno : Int) < m.f.nIF_p ∧ m.f.win.keep ifno ≠ 0))) := by
  constructor
  · intro k mk hk hadv
    have hlen : ((r0 :: rest).take k).length = k := by
      rw [List.length_take]
      simp only [List.length_cons]
      omega
    refine (advance_pending _ m mk (rest.length + 1) hadv ?_ (by rw [hlen]; omega)).1
    intro r hr
    rw [if_pos hp]
    cases k with
    | zero => simp at hr
    | succ k =>
      simp only [List.take_succ_cons, List.head?_cons, Option.some.injEq] at hr
      rw [← hr, hn]
  · intro m2 hadv
    obtain ⟨_, _, _, _, _, new, h6, h7⟩ := advance_complete (r0 :: rest) m m2 (rest.length + 1)
      hadv (by
        intro r hr
        simp only [List.head?_cons, Option.some.injEq] at hr
        rw [if_pos hp, ← hr, hn]) (by simp) (by simp)
    refine ⟨⟨new, h6, h7⟩, ?_, ?_⟩
    · intro ht
      have : new.map MainRow.dataDescId = [] := by
        rw [h7, if_neg (by simp [ht])]
      have : new = [] := by simpa using this
      rw [h6, this, List.append_nil]
    · have hrows : m2.rows ≠ m.rows ↔ new ≠ [] := by
        rw [h6]
        constructor
        · intro hne he
          exact hne (by rw [he, List.append_nil])
        · intro hne he
          exact hne (List.append_right_eq_self.1 he)
      have hnew : new ≠ [] ↔ new.map MainRow.dataDescId ≠ [] := by simp
      rw [hrows, hnew, h7]
      by_cases hf : allTrue m2.nCorr m2.nChan m2.flag = false
      · rw [if_pos hf]
        constructor
        · intro hne
          refine ⟨hf, ?_⟩
          have hfil : (List.range m.f.nIF_p.toNat).filter
              (fun i => decide (m.f.win.keep i ≠ 0)) ≠ [] := fun he => hne (by rw [he]; rfl)
          obtain ⟨i, hi⟩ := List.exists_mem_of_ne_nil _ hfil
          rw [List.mem_filter, List.mem_range] at hi
          exact ⟨i, by omega, of_decide_eq_true hi.2⟩
        · rintro ⟨_, i, hi, hk⟩ he
          have hmem : i ∈ (List.range m.f.nIF_p.toNat).filter
              (fun i => decide (m.f.win.keep i ≠ 0)) :=
            List.mem_filter.2 ⟨List.mem_range.2 (by omega), decide_eq_true hk⟩
          rw [List.map_eq_nil_iff.1 he] at hmem
          exact absurd hmem (List.not_mem_nil _)
      · rw [if_neg hf]
        simp [hf]

/-- C4 (amended) on a group seeded to 2 in the archive with two narrow windows: nothing is
emitted after the first record, rows are emitted after the second, and a group of two
records with every channel flagged emits nothing. -/
theorem C4_group_flush_witness :
    narrowWideStart.polsleft = 0 ∧
    (narrowWideRecord 2 (-5)).npol = ([narrowWideRecord 2 (-6)].length : Int) + 1 ∧
    (∃ m1, advance narrowWideStart [narrowWideRecord 2 (-5)] = some m1 ∧
      m1.rows = narrowWideStart.rows) ∧
    (∃ m2, advance narrowWideStart [narrowWideRecord 2 (-5), narrowWideRecord 2 (-6)]
        = some m2 ∧ m2.rows ≠ narrowWideStart.rows) ∧
    (∃ m3, advance narrowWideStart [narrowWideFlagged 2 (-5), narrowWideFlagged 2 (-6)]
        = some m3 ∧ m3.rows = narrowWideStart.rows) := by
  have hA := C4_group_flush narrowWideStart (narrowWideRecord 2 (-5))
    [narrowWideRecord 2 (-6)] (by decide) (by decide)
  have hB := C4_group_flush narrowWideStart (narrowWideFlagged 2 (-5))
    [narrowWideFlagged 2 (-6)] (by decide) (by decide)
  obtain ⟨m1, h1⟩ : ∃ m1, advance narrowWideStart [narrowWideRecord 2 (-5)] = some m1 :=
    ⟨_, rfl⟩
  obtain ⟨m2, h2⟩ : ∃ m2,
      advance narrowWideStart [narrowWideRecord 2 (-5), narrowWideRecord 2 (-6)] = some m2 :=
    ⟨_, rfl⟩
  obtain ⟨m3, h3⟩ : ∃ m3,
      advance narrowWideStart [narrowWideFlagged 2 (-5), narrowWideFlagged 2 (-6)] = some m3 :=
    ⟨_, rfl⟩
  have e2 : allTrue m2.nCorr m2.nChan m2.flag = false := by
    have : (advance narrowWideStart
        [narrowWideRecord 2 (-5), narrowWideRecord 2 (-6)]).map
          (fun m => allTrue m.nCorr m.nChan m.flag) = some false := by decide
    rw [h2] at this
    simpa using this
  have e3 : allTrue m3.nCorr m3.nChan m3.flag = true := by
    have : (advance narrowWideStart
        [narrowWideFlagged 2 (-5), narrowWideFlagged 2 (-6)]).map
          (fun m => allTrue m.nCorr m.nChan m.flag) = some true := by decide
    rw [h3] at this
    simpa using this
  exact ⟨by decide, by decide, ⟨m1, h1, hA.1 1 m1 (by decide) h1⟩,
    ⟨m2, h2, ((hA.2 m2 h2).2.2).2 ⟨e2, 0, by decide, by decide⟩⟩,
    ⟨m3, h3, (hB.2 m3 h3).2.1 e3⟩⟩

/-- C5, as stated, fails: the layout with two narrow windows and one wide channel has three
windows with `keep` set, but a flushed group adds two rows (windows 0 and 1). -/
theorem C5_counterexample :
    ∃ m m2, enterLoop 16 18 false 0 zeroLoop (narrowWideRecord 1 (-5)) = .ok m ∧
      advance m [narrowWideRecord 1 (-5)] = some m2 ∧
      ((List.range (m.f.win.nspect + m.f.win.nwide).toNat).filter
        (fun i => decide (m.f.win.keep i ≠ 0))).length = 3 ∧
      m2.rows.length = m.rows.length + 2 ∧
      m2.rows.map MainRow.dataDescId = [0, 1] :=
  ⟨_, _, rfl, rfl, by decide, by decide, by decide⟩

/-- C5, amended: when a completed, not wholly flagged group is flushed, the rows appended
are one per window with index below `nIF_p` whose `keep` flag is set, in window order, each
tagged with that window's index; `nIF_p` is the number of narrow windows `win.nspect` at
the entry of the loop, so the wide pseudo-windows get no row. -/
theorem C5_rows_per_retained_window (m : MainLoop) (hp : m.polsleft = 0)
    (hf : allTrue m.nCorr m.nChan m.flag = false) :
    (∃ new : List MainRow, (flushGroup m).rows = m.rows ++ new ∧
      new.map MainRow.dataDescId =
        ((List.range m.f.nIF_p.toNat).filter
          (fun i => decide (m.f.win.keep i ≠ 0))).map Int.ofNat ∧
      new.length =
        ((List.range m.f.nIF_p.toNat).filter (fun i => decide (m.f.win.keep i ≠ 0))).length) ∧
    (∀ (MAXWIN MAXWIDE : Nat) (apply_tsys : Bool) (snumbase : Int) (junk : MainLoop)
      (r : Visibility) (m0 : MainLoop),
      enterLoop MAXWIN MAXWIDE apply_tsys snumbase junk r = .ok m0 →
        m0.f.nIF_p = m0.f.win.nspect) := by
  constructor
  · obtain ⟨⟨new, h1, h2⟩, _⟩ := flushGroup_rows m
    rw [if_pos ⟨hp, hf⟩] at h2
    refine ⟨new, h1, h2, ?_⟩
    have := congrArg List.length h2
    simpa using this
  · intro MAXWIN MAXWIDE apply_tsys snumbase junk r m0 h
    unfold enterLoop at h
    split at h
    · exact absurd h (by simp)
    · injection h with h
      subst h
      rfl

/-- C5 (amended) at a completed group of the archive with two narrow windows and one wide
channel, the flags of correlation 0 being clear: the flush adds the rows of windows 0 and
1. -/
theorem C5_rows_per_retained_window_witness :
    ∃ m : MainLoop, m.polsleft = 0 ∧ allTrue m.nCorr m.nChan m.flag = false ∧
      m.f.nIF_p = 2 ∧ m.f.win.nwide = 1 ∧
      ∃ new : List MainRow, (flushGroup m).rows = m.rows ++ new ∧
        new.map MainRow.dataDescId = [0, 1] :=
  ⟨{ narrowWideStart with polsleft := 0, flag := fun j _ => decide (j ≠ 0) },
    by decide, by decide, by decide, by decide,
    (C5_rows_per_retained_window
      { narrowWideStart with polsleft := 0, flag := fun j _ => decide (j ≠ 0) }
      (by decide) (by decide)).1.imp fun _ h => ⟨h.1, h.2.1.trans (by decide)⟩⟩

/-- C7 at a code outside -8 .. 4, such as 5 or -9: the index `mirpol + 8` lies outside
the 13 cells of `polmapping`, and the lookup has no range check before the read of line
622. The C++ read has no defined behaviour there (`outOfBounds` in the model), so the
unknown-polarization error of line 625 is not what the code provides for such a code. -/
theorem C7_read_outside_table :
    polmapping.length = 13 ∧
    ¬ ((0 : Int) ≤ 5 + 8 ∧ (5 + 8 : Int) < polmapping.length) ∧
    ¬ ((0 : Int) ≤ -9 + 8 ∧ (-9 + 8 : Int) < polmapping.length) ∧
    casapolidx 5 = .error .outOfBounds ∧ casapolidx (-9) = .error .outOfBounds ∧
    ∀ c : Int, (c < -8 ∨ 4 < c) →
      ¬ ((0 : Int) ≤ c + 8 ∧ c + 8 < polmapping.length) ∧
      casapolidx c = .error .outOfBounds := by
  have hlen : polmapping.length = 13 := by decide
  refine ⟨hlen, by decide, by decide, by decide, by decide, fun c hc => ⟨?_, ?_⟩⟩
  · rw [hlen]
    omega
  · unfold casapolidx
    by_cases hneg : c + 8 < 0
    · rw [if_pos hneg]
    · rw [if_neg hneg]
      have hnone : polmapping[(c + 8).toNat]? = none := by
        apply List.getElem?_eq_none
        rw [hlen]
        omega
      rw [hnone]

/-- C7 within the table: for every polarization code within the range -8 .. 4 of the
table other than -5, -6, -7, -8, the lookup fails with the unknown-polarization error; a
record with such a code never makes the loop go on (the only result that is not an error is the
`break` of the channel-count checks, with the state unchanged, so nothing is written into
the group buffer), and a record that passes the channel-count checks and the start of its
group raises the error. -/
theorem C7_unknown_polarization (c : Int) (h1 : -8 ≤ c) (h2 : c ≤ 4)
    (hc : c ≠ -5 ∧ c ≠ -6 ∧ c ≠ -7 ∧ c ≠ -8) :
    casapolidx c = .error (.unexpectedPolarization c) ∧
    ∀ (m : MainLoop) (r : Visibility), r.pol = c →
      (∀ o, processRecord m r = .ok o → o = .done m) ∧
      (∀ m1, (if m.polsleft = 0 then seedGroup m r else .ok m) = .ok m1 →
        0 < r.nread → r.nread = m.f.nchan_p →
        (if m.f.win.nspect > 0 then r.nwread else 0) = m.f.nwide_p →
        processRecord m r = .error (.unexpectedPolarization c)) := by
  have hlook : casapolidx c = .error (.unexpectedPolarization c) := by
    obtain ⟨c5, c6, c7, c8⟩ := hc
    have : c = -4 ∨ c = -3 ∨ c = -2 ∨ c = -1 ∨ c = 0 ∨ c = 1 ∨ c = 2 ∨ c = 3 ∨ c = 4 := by
      omega
    rcases this with h | h | h | h | h | h | h | h | h <;> subst h <;> decide
  refine ⟨hlook, fun m r hr => ⟨?_, ?_⟩⟩
  · intro o ho
    unfold processRecord at ho
    by_cases g1 : r.nread ≤ 0
    · rw [if_pos g1] at ho
      injection ho with ho
      exact ho.symm
    · rw [if_neg g1] at ho
      simp only at ho
      by_cases g2 : r.nread ≠ m.f.nchan_p
      · rw [if_pos g2] at ho
        injection ho with ho
        exact ho.symm
      · rw [if_neg g2] at ho
        by_cases g3 : (if m.f.win.nspect > 0 then r.nwread else 0) ≠ m.f.nwide_p
        · rw [if_pos g3] at ho
          injection ho with ho
          exact ho.symm
        · rw [if_neg g3] at ho
          cases hm1 : (if m.polsleft = 0 then seedGroup m r else .ok m) with
          | error e => rw [hm1] at ho; exact absurd ho (by simp)
          | ok m1 =>
            rw [hm1, hr, hlook] at ho
            exact absurd ho (by simp)
  · intro m1 hm1 g1 g2 g3
    unfold processRecord
    rw [if_neg (by omega)]
    simp only
    rw [if_neg (by simp [g2]), if_neg (by simp [g3]), hm1, hr, hlook]

/-- C7 within the table, at code 1 (Stokes I): the lookup raises the error, and so does
the first record of the archive with two narrow windows when it carries that code. -/
theorem C7_unknown_polarization_witness :
    (-8 : Int) ≤ 1 ∧ (1 : Int) ≤ 4 ∧ ((1 : Int) ≠ -5 ∧ (1 : Int) ≠ -6 ∧ (1 : Int) ≠ -7 ∧
      (1 : Int) ≠ -8) ∧
    casapolidx 1 = .error (.unexpectedPolarization 1) ∧
    processRecord narrowWideStart (narrowWideRecord 1 1) = .error (.unexpectedPolarization 1) :=
  ⟨by decide, by decide, by decide,
    (C7_unknown_polarization 1 (by decide) (by decide) (by decide)).1,
    ((C7_unknown_polarization 1 (by decide) (by decide) (by decide)).2 narrowWideStart
      (narrowWideRecord 1 1) rfl).2 _ rfl (by decide) (by decide) (by decide)⟩

/-! ## Claims on the directories, the array generation and the record loop -/

/-- C13: a call of `Tracking` that returns keeps every existing field: the field count does
not decrease, and for each index below the count before the call the stored offset, the
position, the source index and the stored id are unchanged; `source_p` is only appended
to, so every listed source name keeps its index. -/
theorem C13_tracking_append_only (s s1 : Filler) (record : Int) (uv : Vars)
    (h : Tracking s record uv = .ok s1) :
    s.nfield ≤ s1.nfield ∧
    (∀ i, i < s.nfield →
      s1.dra i = s.dra i ∧ s1.ddec i = s.ddec i ∧ s1.ra i = s.ra i ∧ s1.dec i = s.dec i ∧
      s1.field i = s.field i ∧ s1.sid_p i = s.sid_p i) ∧
    (∃ added, s1.source_p = s.source_p ++ added) ∧
    (∀ name, name ∈ s.source_p →
      findSource name s1.source_p 0 = findSource name s.source_p 0) := by
  have key : s.nfield ≤ s1.nfield ∧
      (∀ i, i < s.nfield →
        s1.dra i = s.dra i ∧ s1.ddec i = s.ddec i ∧ s1.ra i = s.ra i ∧ s1.dec i = s.dec i ∧
        s1.field i = s.field i ∧ s1.sid_p i = s.sid_p i) ∧
      (∃ added, s1.source_p = s.source_p ++ added) := by
    unfold Tracking at h
    by_cases hr : record < 0
    · rw [if_pos hr] at h
      injection h with h
      subst h
      exact ⟨le_refl _, fun i _ => ⟨rfl, rfl, rfl, rfl, rfl, rfl⟩, [], by simp⟩
    · rw [if_neg hr] at h
      obtain ⟨b1, b2, b3, b4, b5, b6, b7, _, b9, _, _⟩ := beforeLookup_frame s record uv
      have hsrc : ∃ added, (beforeLookup s record uv).source_p = s.source_p ++ added := by
        rw [b9]
        split
        · exact ⟨_, rfl⟩
        · exact ⟨[], by simp⟩
      by_cases hl : (uv.has .source || uv.has .dra || uv.has .ddec) = true
      · by_cases hk : ((0 : Val), (0 : Val),
            findSource uv.source (beforeLookup s record uv).source_p 0)
            ∈ fieldKeys (beforeLookup s record uv)
        · obtain ⟨f1, f2, f3, f4, f5, f6, f7, f8, _⟩ := trackField_found uv _ s1 hl hk h
          refine ⟨by rw [f1, b1], fun i _ => ?_, by rw [f8]; exact hsrc⟩
          rw [f2, f3, f4, f5, f6, f7, b2, b3, b4, b5, b6, b7]
          exact ⟨rfl, rfl, rfl, rfl, rfl, rfl⟩
        · obtain ⟨n1, _, _, _, _, n6, n7, n8, n9, n10, n11, n12, _⟩ :=
            trackField_new uv _ s1 hl hk h
          refine ⟨by rw [n1, b1]; omega, fun i hi => ?_, by rw [n12]; exact hsrc⟩
          have hne : i ≠ (beforeLookup s record uv).nfield := by rw [b1]; omega
          rw [n6, n7, n8, n9, n10, n11]
          simp only [setAt, hne, if_false]
          rw [b2, b3, b4, b5, b6, b7]
          exact ⟨rfl, rfl, rfl, rfl, rfl, rfl⟩
      · have hl2 : (uv.has .source || uv.has .dra || uv.has .ddec) = false := by
          simpa using hl
        rw [trackField_skip uv _ hl2] at h
        injection h with h
        subst h
        refine ⟨by rw [b1], fun i _ => ?_, hsrc⟩
        rw [b2, b3, b4, b5, b6, b7]
        exact ⟨rfl, rfl, rfl, rfl, rfl, rfl⟩
  obtain ⟨k1, k2, added, k3⟩ := key
  refine ⟨k1, k2, ⟨added, k3⟩, fun name hn => ?_⟩
  rw [k3]
  exact findSource_append name s.source_p added 0 hn

/-- C13 at the object holding the fields of "A" and "B", for a call that reports the new
source "C": the two fields are kept and a third is appended. -/
theorem C13_tracking_append_only_witness :
    ∃ s1, Tracking afterAB 2 (pointingVars true false false "C" 9 4 0 0) = .ok s1 ∧
      afterAB.nfield = 2 ∧ s1.nfield = 3 ∧
      (s1.field 0 = afterAB.field 0 ∧ s1.sid_p 0 = afterAB.sid_p 0) ∧
      (s1.field 1 = afterAB.field 1 ∧ s1.sid_p 1 = afterAB.sid_p 1) ∧
      findSource "B" s1.source_p 0 = 1 :=
  ⟨_, rfl, by decide, by decide,
    ⟨((C13_tracking_append_only afterAB _ 2 (pointingVars true false false "C" 9 4 0 0)
        rfl).2.1 0 (by decide)).2.2.2.2.1,
      ((C13_tracking_append_only afterAB _ 2 (pointingVars true false false "C" 9 4 0 0)
        rfl).2.1 0 (by decide)).2.2.2.2.2⟩,
    ⟨((C13_tracking_append_only afterAB _ 2 (pointingVars true false false "C" 9 4 0 0)
        rfl).2.1 1 (by decide)).2.2.2.2.1,
      ((C13_tracking_append_only afterAB _ 2 (pointingVars true false false "C" 9 4 0 0)
        rfl).2.1 1 (by decide)).2.2.2.2.2⟩,
    ((C13_tracking_append_only afterAB _ 2 (pointingVars true false false "C" 9 4 0 0)
        rfl).2.2.2 "B" (by decide)).trans (by decide)⟩

/-- C14: when the lookup appends a new field for source index `j` (lines 1345-1368), the
field takes the index `nfield` and the source index `j`. If the offset `dra_p`, `ddec_p` is
exactly (0, 0), the stored id is `-(j + 1)` and the cells `j` of `ras_p`, `decs_p` are
overwritten with the current `ra_p`, `dec_p`; otherwise the stored id is `j + 1` and
`ras_p`, `decs_p` are unchanged. In `Tracking` the offset is (0, 0) at every lookup, so a
field appended by `trackField` always falls in the first case. -/
theorem C14_new_field_id (j : Int) (s s1 : Filler) (h : newField j s = .ok s1) :
    s1.nfield = s.nfield + 1 ∧ s1.field s.nfield = j ∧
    (s.dra_p = 0 ∧ s.ddec_p = 0 →
      s1.sid_p s.nfield = -(j + 1) ∧ 0 ≤ j ∧
      j.toNat < s.ras_p.length ∧ j.toNat < s.decs_p.length ∧
      s1.ras_p = s.ras_p.set j.toNat s.ra_p ∧ s1.decs_p = s.decs_p.set j.toNat s.dec_p) ∧
    (¬ (s.dra_p = 0 ∧ s.ddec_p = 0) →
      s1.sid_p s.nfield = j + 1 ∧ s1.ras_p = s.ras_p ∧ s1.decs_p = s.decs_p) ∧
    (∀ (uv : Vars) (t t1 : Filler),
      (uv.has .source || uv.has .dra || uv.has .ddec) = true →
      ((0 : Val), (0 : Val), findSource uv.source t.source_p 0) ∉ fieldKeys t →
      trackField uv t = .ok t1 →
        t1.sid_p t.nfield = -(findSource uv.source t.source_p 0 + 1) ∧
        t1.ras_p = t.ras_p.set (findSource uv.source t.source_p 0).toNat uv.ra ∧
        t1.decs_p = t.decs_p.set (findSource uv.source t.source_p 0).toNat uv.dec) := by
  unfold newField at h
  simp only at h
  split at h
  · exact absurd h (by simp)
  · by_cases hz : s.dra_p = 0 ∧ s.ddec_p = 0
    · rw [if_pos hz] at h
      split at h
      · rename_i hj
        injection h with h
        subst h
        refine ⟨rfl, by simp [setAt], fun _ => ⟨by simp [setAt], hj.1, hj.2.1, hj.2.2, rfl, rfl⟩,
          fun hn => absurd hz hn, ?_⟩
        intro uv t t1 hl hk ht
        obtain ⟨_, _, _, _, _, _, _, _, _, _, n11, _, n13, n14, _⟩ :=
          trackField_new uv t t1 hl hk ht
        rw [n11, n13, n14]
        exact ⟨by simp [setAt], rfl, rfl⟩
      · exact absurd h (by simp)
    · rw [if_neg hz] at h
      injection h with h
      subst h
      refine ⟨rfl, by simp [setAt], fun hy => absurd hy hz, fun _ => ⟨by simp [setAt], rfl, rfl⟩,
        ?_⟩
      intro uv t t1 hl hk ht
      obtain ⟨_, _, _, _, _, _, _, _, _, _, n11, _, n13, n14, _⟩ :=
        trackField_new uv t t1 hl hk ht
      rw [n11, n13, n14]
      exact ⟨by simp [setAt], rfl, rfl⟩

/-- C14 at the object holding the fields of "A" and "B", for a new field of source index 1
at position (9, 4): with offset (0, 0) the stored id is -2 and the catalog position of
source 1 becomes (9, 4); with offset (1, 0) the stored id is 2 and the catalog is kept. -/
theorem C14_new_field_id_witness :
    (∃ s1, newField 1 { afterAB with dra_p := 0, ddec_p := 0, ra_p := 9, dec_p := 4 } = .ok s1 ∧
      s1.sid_p 2 = -2 ∧ s1.ras_p = [5, 9] ∧ s1.decs_p = [7, 4]) ∧
    (∃ s2, newField 1 { afterAB with dra_p := 1, ddec_p := 0, ra_p := 9, dec_p := 4 } = .ok s2 ∧
      s2.sid_p 2 = 2 ∧ s2.ras_p = [5, 6] ∧ s2.decs_p = [7, 8]) :=
  ⟨⟨_, rfl,
      ((C14_new_field_id 1 { afterAB with dra_p := 0, ddec_p := 0, ra_p := 9, dec_p := 4 } _
        rfl).2.2.1 (by decide)).1,
      ((C14_new_field_id 1 { afterAB with dra_p := 0, ddec_p := 0, ra_p := 9, dec_p := 4 } _
        rfl).2.2.1 (by decide)).2.2.2.2.1.trans (by decide),
      ((C14_new_field_id 1 { afterAB with dra_p := 0, ddec_p := 0, ra_p := 9, dec_p := 4 } _
        rfl).2.2.1 (by decide)).2.2.2.2.2.trans (by decide)⟩,
    ⟨_, rfl,
      ((C14_new_field_id 1 { afterAB with dra_p := 1, ddec_p := 0, ra_p := 9, dec_p := 4 } _
        rfl).2.2.2.1 (by decide)).1,
      ((C14_new_field_id 1 { afterAB with dra_p := 1, ddec_p := 0, ra_p := 9, dec_p := 4 } _
        rfl).2.2.2.1 (by decide)).2.1.trans (by decide),
      ((C14_new_field_id 1 { afterAB with dra_p := 1, ddec_p := 0, ra_p := 9, dec_p := 4 } _
        rfl).2.2.2.1 (by decide)).2.2.trans (by decide)⟩⟩

/-- C15, as stated, fails: at record 1 the variable `antpos` is reported changed, and
`Tracking` leaves `nArray_p` at 1; the rows of the two groups all carry array id 0. -/
theorem C15_counterexample :
    (narrowWideRecord 1 (-5)).vars.has .antpos = true ∧ narrowWideStart.f.nArray_p = 1 ∧
    (∃ s1, Tracking narrowWideStart.f 1 (narrowWideRecord 1 (-5)).vars = .ok s1 ∧
      s1.nArray_p = 1) ∧
    (advance narrowWideStart [narrowWideRecord 1 (-5), narrowWideRecord 1 (-5)]).map
      (fun m => (m.f.nArray_p, m.rows.map MainRow.arrayId)) = some (1, [0, 0, 0, 0]) :=
  ⟨by decide, by decide, ⟨_, rfl, by decide⟩, by decide⟩

/-- C15, amended: a call of `Tracking` never changes the generation counter `nArray_p`; when
`antpos` is reported at a record after the first it re-reads `nants_p` and the antenna
positions, and otherwise leaves them. Only `fillAntennaTable` increments `nArray_p`, and
it is called once before the record loop; so every row emitted while the loop goes on
carries the array id `nArray_p - 1` of the entry of the loop. -/
theorem C15_array_generation (s s1 : Filler) (record : Int) (uv : Vars)
    (h : Tracking s record uv = .ok s1) :
    s1.nArray_p = s.nArray_p ∧
    (uv.has .antpos = true → 0 < record →
      s1.nants_p = uv.nants ∧ s1.antpos = copyIn (3 * uv.nants) uv.antpos s.antpos) ∧
    ((uv.has .antpos = false ∨ record ≤ 0) →
      s1.nants_p = s.nants_p ∧ s1.antpos = s.antpos) ∧
    (∀ f : Filler, (fillAntennaTable f).nArray_p = f.nArray_p + 1) ∧
    (∀ (rs : List Visibility) (m m2 : MainLoop), advance m rs = some m2 →
      m2.f.nArray_p = m.f.nArray_p ∧
      ∃ new : List MainRow, m2.rows = m.rows ++ new ∧
        ∀ row ∈ new, row.arrayId = m.f.nArray_p - 1) :=
  ⟨(Tracking_layout s s1 record uv h).2.2.2.2.2.1, (Tracking_antpos s s1 record uv h).1,
    (Tracking_antpos s s1 record uv h).2, fun _ => rfl,
    fun rs m m2 hadv => advance_arrayId rs m m2 hadv⟩

/-- C15 (amended) at record 1 of the archive with two narrow windows, `antpos` reported:
the counter stays at 1 and the antenna count is re-read. -/
theorem C15_array_generation_witness :
    ∃ s1, Tracking narrowWideStart.f 1 (narrowWideRecord 1 (-5)).vars = .ok s1 ∧
      s1.nArray_p = narrowWideStart.f.nArray_p ∧
      s1.nants_p = (narrowWideRecord 1 (-5)).vars.nants :=
  ⟨_, rfl,
    (C15_array_generation narrowWideStart.f _ 1 (narrowWideRecord 1 (-5)).vars rfl).1,
    ((C15_array_generation narrowWideStart.f _ 1 (narrowWideRecord 1 (-5)).vars rfl).2.1
      (by decide) (by decide)).1⟩
/-! ## Claims on the record loop, the window bounds and the group buffers -/

/-- C12: when a record's channel count differs from the count fixed at the start of the
stream (narrow `nread != nchan_p`, or wide `nwread != nwide_p`), the record loop ends at
that record: the result, and with it the rows, is the one of the stream cut before the
record, whatever follows it; no earlier row is removed or changed. -/
theorem C12_channel_count_break (m : MainLoop) (pre : List Visibility) (r : Visibility)
    (rest : List Visibility)
    (hmis : r.nread ≠ m.f.nchan_p ∨
      (if m.f.win.nspect > 0 then r.nwread else 0) ≠ m.f.nwide_p) :
    fillLoop m (pre ++ r :: rest) = fillLoop m pre := by
  induction pre generalizing m with
  | nil => simp only [List.nil_append, fillLoop, processRecord_mismatch m r hmis]
  | cons p pre ih =>
    simp only [List.cons_append, fillLoop]
    cases hp : processRecord m p with
    | error e => rfl
    | ok o =>
      cases o with
      | done m1 => rfl
      | next m1 =>
        simp only
        obtain ⟨a1, a2, a3⟩ := processRecord_sizes m m1 p hp
        apply ih
        rw [a1, a2, a3]
        exact hmis

/-- C12 on the archive with two narrow windows: a record of 5 channels after one record
of 6 channels ends the loop, and the record after it adds nothing. -/
theorem C12_channel_count_break_witness :
    ((visRecord narrowWideVars 5 1 1 (-5) [1, 1, 1, 1, 1]).nread ≠ narrowWideStart.f.nchan_p ∨
      (if narrowWideStart.f.win.nspect > 0
        then (visRecord narrowWideVars 5 1 1 (-5) [1, 1, 1, 1, 1]).nwread else 0)
        ≠ narrowWideStart.f.nwide_p) ∧
    fillLoop narrowWideStart ([narrowWideRecord 1 (-5)] ++
        visRecord narrowWideVars 5 1 1 (-5) [1, 1, 1, 1, 1] :: [narrowWideRecord 1 (-5)])
      = fillLoop narrowWideStart [narrowWideRecord 1 (-5)] :=
  ⟨Or.inl (by decide),
    C12_channel_count_break narrowWideStart [narrowWideRecord 1 (-5)]
      (visRecord narrowWideVars 5 1 1 (-5) [1, 1, 1, 1, 1]) [narrowWideRecord 1 (-5)]
      (Or.inl (by decide))⟩

/-- C16: `init_window` has no error for a narrow-window count above `MAXWIN`: it
returns a layout, in which every index below `nspect` is marked 'N' and kept and every
index `nspect + i`, `i < nwide`, is marked 'S' and kept, whatever `MAXWIN + MAXWIDE` is. -/
theorem C16_no_bound_error (MAXWIN MAXWIDE : Nat) (nchan_p : Int) (uv : Vars) (win : WINDOW)
    (h : (MAXWIN : Int) < nspectRead uv) :
    ∃ w, init_window MAXWIN MAXWIDE nchan_p uv win = .ok w ∧
      (∀ k : Nat, k < (nspectRead uv).toNat → w.code k = 'N' ∧ w.keep k = 1) ∧
      (∀ i : Nat, i < (nwideRead uv).toNat →
        w.code ((nspectRead uv).toNat + i) = 'S' ∧ w.keep ((nspectRead uv).toNat + i) = 1) := by
  have hn : ¬ (0 < nspectRead uv ∧ nspectRead uv ≤ (MAXWIN : Int)) := by omega
  have hpos : nspectRead uv > 0 := by omega
  unfold init_window
  simp only [if_neg hn, if_pos hpos]
  refine ⟨_, rfl, ?_, ?_⟩
  · intro k hk
    have hk2 : ¬ ((nspectRead uv).toNat ≤ k ∧ k < (nspectRead uv).toNat + (nwideRead uv).toNat) := by
      omega
    rw [buildWide_code, buildWide_keep, if_neg hk2, if_neg hk2, markNarrow_code, markNarrow_keep,
      if_pos (List.mem_range.2 hk), if_pos (List.mem_range.2 hk)]
    exact ⟨rfl, rfl⟩
  · intro i hi
    have hk2 : (nspectRead uv).toNat ≤ (nspectRead uv).toNat + i ∧
        (nspectRead uv).toNat + i < (nspectRead uv).toNat + (nwideRead uv).toNat := by omega
    rw [buildWide_code, buildWide_keep, if_pos hk2, if_pos hk2]
    exact ⟨rfl, rfl⟩

/-- C16 with `MAXWIN = 16`, `MAXWIDE = 18` on an archive of 17 narrow windows and 19 wide
channels: a layout is returned and index 35, beyond `MAXWIN + MAXWIDE = 34`, is written. -/
theorem C16_no_bound_error_witness :
    ((16 : Nat) : Int) < nspectRead manyWindows ∧
    ∃ w, init_window 16 18 0 manyWindows blankWindow = .ok w ∧
      (∀ k : Nat, k < (nspectRead manyWindows).toNat → w.code k = 'N' ∧ w.keep k = 1) ∧
      (∀ i : Nat, i < (nwideRead manyWindows).toNat →
        w.code ((nspectRead manyWindows).toNat + i) = 'S' ∧
        w.keep ((nspectRead manyWindows).toNat + i) = 1) :=
  ⟨by decide, C16_no_bound_error 16 18 0 manyWindows blankWindow (by decide)⟩
/-- C20: for a record with canonical polarization index `c`, the channel loop stores at
(c, ch), for every channel `ch < nChan`, the visibility `(data[2 ch], - data[2 ch + 1])`
and a flag that is true exactly when `flags[ch]` is 0; every entry of another correlation
index is left as it was, which right after the start of the group is flagged and zero. -/
theorem C20_accumulate (m : MainLoop) (r : Visibility) (c : Int) :
    (∀ ch : Nat, (ch : Int) < m.nChan →
      (accumulate m r c).vis c ch = (r.data (2 * ch), -(r.data (2 * ch + 1))) ∧
      ((accumulate m r c).flag c ch = true ↔ r.flags ch = 0)) ∧
    (∀ j ch : Int, j ≠ c →
      (accumulate m r c).vis j ch = m.vis j ch ∧ (accumulate m r c).flag j ch = m.flag j ch) ∧
    (∀ m0 : MainLoop, seedGroup m0 r = .ok m → ∀ j ch : Int, j ≠ c →
      (accumulate m r c).vis j ch = (0, 0) ∧ (accumulate m r c).flag j ch = true) := by
  have hother : ∀ j ch : Int, j ≠ c →
      (accumulate m r c).vis j ch = m.vis j ch ∧ (accumulate m r c).flag j ch = m.flag j ch := by
    intro j ch hj
    obtain ⟨a1, a2⟩ := channelLoop_range r c m.nChan.toNat (m.vis, m.flag) j ch
    have hn : ¬ (j = c ∧ 0 ≤ ch ∧ ch < (m.nChan.toNat : Int)) := fun h => hj h.1
    rw [if_neg hn] at a1 a2
    exact ⟨a1, a2⟩
  refine ⟨fun ch hch => ?_, hother, fun m0 h0 j ch hj => ?_⟩
  · obtain ⟨a1, a2⟩ := channelLoop_range r c m.nChan.toNat (m.vis, m.flag) c ch
    have hp : c = c ∧ (0 : Int) ≤ (ch : Int) ∧ (ch : Int) < (m.nChan.toNat : Int) := by
      refine ⟨rfl, by omega, by omega⟩
    rw [if_pos hp] at a1 a2
    simp only [Int.toNat_ofNat] at a1 a2
    refine ⟨a1, ?_⟩
    show (channelLoop r c (List.range m.nChan.toNat) 0 (m.vis, m.flag)).2 c ch = true ↔ _
    rw [a2]
    simp
  · obtain ⟨b1, b2⟩ := seedGroup_buffers m0 m r h0
    obtain ⟨a1, a2⟩ := hother j ch hj
    rw [a1, a2, b1, b2]
    exact ⟨rfl, rfl⟩
/-! ## Claims on the spectral-window table and the row columns -/

/-- C17: the FLAG_ROW column is written at row 0 and, at a later row, exactly when the
value computed for the row differs from the value computed for the row before
(`writesOnChange`); read back with carry-forward of the last written value it gives on
every row the value computed for that row. -/
theorem C17_flag_row_on_change (f : Filler) (snumbase : Int) (junk : MainLoop)
    (recs : List Visibility) (m : MainLoop)
    (h : fillLoop (mainStart f snumbase junk) recs = .ok m) :
    m.rows.map MainRow.flagRow = writesOnChange none (m.rows.map MainRow.rowFlag) ∧
    ∀ d : Bool, carryForward d (m.rows.map MainRow.flagRow) = m.rows.map MainRow.rowFlag := by
  have hinv : flagRowInv m := by
    apply fillLoop_induct flagRowInv
      (fun m r m1 hs => (columnInv_seedGroup 0 m m1 r hs).1)
      (fun _ _ _ hp => hp)
      (fun m i hk _ hp => flagRowInv_emitRow m i hk hp)
      (fun _ _ hp => hp)
      (fun _ _ hp => hp)
      recs (mainStart f snumbase junk) m ?_ h
    refine ⟨rfl, rfl, ?_⟩
    intro l last hl
    exact absurd hl (by simp [mainStart])
  refine ⟨hinv.2.1, fun d => ?_⟩
  rw [hinv.2.1]
  exact carryForward_writesOnChange _ none d (Or.inl rfl)

/-- C17 on two records of the archive with two narrow windows: of the four rows only row 0
has FLAG_ROW written. -/
theorem C17_flag_row_on_change_witness :
    ∃ m, fillLoop (mainStart narrowWideStart.f 0 zeroLoop)
        [narrowWideRecord 1 (-5), narrowWideRecord 1 (-5)] = .ok m ∧
      m.rows.map MainRow.flagRow = [some false, none, none, none] ∧
      m.rows.map MainRow.flagRow = writesOnChange none (m.rows.map MainRow.rowFlag) := by
  obtain ⟨m, hm⟩ : ∃ m, fillLoop (mainStart narrowWideStart.f 0 zeroLoop)
      [narrowWideRecord 1 (-5), narrowWideRecord 1 (-5)] = .ok m := ⟨_, rfl⟩
  have hv : (fillLoop (mainStart narrowWideStart.f 0 zeroLoop)
      [narrowWideRecord 1 (-5), narrowWideRecord 1 (-5)]).map
        (fun m => m.rows.map MainRow.flagRow) = .ok [some false, none, none, none] := by
    decide
  rw [hm] at hv
  exact ⟨m, hm, Except.ok.inj hv,
    (C17_flag_row_on_change narrowWideStart.f 0 zeroLoop
      [narrowWideRecord 1 (-5), narrowWideRecord 1 (-5)] m hm).1⟩

/-- C21 at a record whose window 0 is wholly invalid and whose window 1 is valid: two rows
are emitted; every flag carried by the row of window 0 is set, yet the boolean computed
for that row is false. -/
theorem C21_counterexample :
    ∃ m, fillLoop narrowWideStart [narrowWideHalfFlagged] = .ok m ∧
      m.rows.map (fun row => (row.dataDescId, row.flag, row.rowFlag))
        = [(0, [[true, true], [true, true], [true, true], [true, true]], false),
           (1, [[false, false, false, false], [true, true, true, true],
                [true, true, true, true], [true, true, true, true]], false)] :=
  ⟨_, rfl, by decide⟩

/-- C21: the boolean `rowFlag` computed for an emitted row is the test of the whole group
buffer, made only when that buffer is not wholly flagged: it is false for every emitted
row, whatever the flags of the row's own window slice are. -/
theorem C21_row_flag_never_set (f : Filler) (snumbase : Int) (junk : MainLoop)
    (recs : List Visibility) (m : MainLoop)
    (h : fillLoop (mainStart f snumbase junk) recs = .ok m) :
    (∀ row ∈ m.rows, row.rowFlag = false) ∧
    ∀ (m1 : MainLoop) (i : Nat), m1.f.win.keep i ≠ 0 →
      ∃ row : MainRow, (emitRow m1 i).rows = m1.rows ++ [row] ∧
        row.rowFlag = allTrue m1.nCorr m1.nChan m1.flag := by
  refine ⟨?_, fun m1 i hk => ?_⟩
  · apply fillLoop_induct (fun m => ∀ row ∈ m.rows, row.rowFlag = false)
      (fun m r m1 hs hp => by rw [(seedGroup_locals m m1 r hs).1]; exact hp)
      (fun _ _ _ hp => hp)
      ?_
      (fun _ _ hp => hp)
      (fun _ _ hp => hp)
      recs (mainStart f snumbase junk) m ?_ h
    · intro m1 i hk hg hp
      obtain ⟨row, e1, _, e3, _⟩ := emitRow_new m1 i hk
      intro x hx
      rw [e1, List.mem_append, List.mem_singleton] at hx
      rcases hx with hx | hx
      · exact hp x hx
      · rw [hx, e3, hg]
    · intro row hrow
      exact absurd hrow (by simp [mainStart])
  · obtain ⟨row, e1, _, e3, _⟩ := emitRow_new m1 i hk
    exact ⟨row, e1, e3⟩

/-- C21 on the archive with two narrow windows: the rows of the record with window 0
wholly invalid all have the boolean false. -/
theorem C21_row_flag_never_set_witness :
    ∃ m, fillLoop (mainStart narrowWideStart.f 0 zeroLoop) [narrowWideHalfFlagged] = .ok m ∧
      m.rows.length = 2 ∧ ∀ row ∈ m.rows, row.rowFlag = false := by
  obtain ⟨m, hm⟩ : ∃ m, fillLoop (mainStart narrowWideStart.f 0 zeroLoop)
      [narrowWideHalfFlagged] = .ok m := ⟨_, rfl⟩
  have hv : (fillLoop (mainStart narrowWideStart.f 0 zeroLoop) [narrowWideHalfFlagged]).map
      (fun m => m.rows.length) = .ok 2 := by decide
  rw [hm] at hv
  exact ⟨m, hm, Except.ok.inj hv,
    (C21_row_flag_never_set narrowWideStart.f 0 zeroLoop [narrowWideHalfFlagged] m hm).1⟩

/-- C22: with weights from the system temperatures, a row added for a retained window
carries the 0-based antennas of the group; when the temperature of either antenna is zero
its weight is zero and `zero_tsys` grows by one, otherwise the weight is
`1 / sqrt (t1 * t2)` and `zero_tsys` stays. At the end of the record loop `zero_tsys` has
grown by the number of rows of weight zero. -/
theorem C22_zero_tsys_count (f : Filler) (snumbase : Int) (junk : MainLoop)
    (recs : List Visibility) (m : MainLoop) (ha : f.apply_tsys = true)
    (h : fillLoop (mainStart f snumbase junk) recs = .ok m) :
    m.f.zero_tsys = f.zero_tsys +
      ((m.rows.filter fun row => decide (row.weight = some Weight.zero)).length : Int) ∧
    ∀ (m1 : MainLoop) (i : Nat), m1.f.apply_tsys = true → m1.f.win.keep i ≠ 0 →
      ∃ row : MainRow, (emitRow m1 i).rows = m1.rows ++ [row] ∧
        row.antenna1 = m1.ant1 ∧ row.antenna2 = m1.ant2 ∧
        (m1.f.systemp m1.ant1 = 0 ∨ m1.f.systemp m1.ant2 = 0 →
          row.weight = some Weight.zero ∧
          (emitRow m1 i).f.zero_tsys = m1.f.zero_tsys + 1) ∧
        (¬ (m1.f.systemp m1.ant1 = 0 ∨ m1.f.systemp m1.ant2 = 0) →
          row.weight = some (Weight.invSqrt (m1.f.systemp m1.ant1) (m1.f.systemp m1.ant2)) ∧
          (emitRow m1 i).f.zero_tsys = m1.f.zero_tsys) := by
  have hstep : ∀ (m1 : MainLoop) (i : Nat), m1.f.apply_tsys = true → m1.f.win.keep i ≠ 0 →
      ∃ row : MainRow, (emitRow m1 i).rows = m1.rows ++ [row] ∧
        row.antenna1 = m1.ant1 ∧ row.antenna2 = m1.ant2 ∧
        (m1.f.systemp m1.ant1 = 0 ∨ m1.f.systemp m1.ant2 = 0 →
          row.weight = some Weight.zero ∧
          (emitRow m1 i).f.zero_tsys = m1.f.zero_tsys + 1) ∧
        (¬ (m1.f.systemp m1.ant1 = 0 ∨ m1.f.systemp m1.ant2 = 0) →
          row.weight = some (Weight.invSqrt (m1.f.systemp m1.ant1) (m1.f.systemp m1.ant2)) ∧
          (emitRow m1 i).f.zero_tsys = m1.f.zero_tsys) := by
    intro m1 i hat hk
    obtain ⟨row, e1, _, _, _, _, _, _, _, _, e10, e11, _, e13, e14, _⟩ := emitRow_new m1 i hk
    refine ⟨row, e1, e13, e14, fun hz => ?_, fun hz => ?_⟩
    · rw [e10, e11]
      simp [rowWeight, hat, if_pos hz]
    · rw [e10, e11]
      simp [rowWeight, hat, if_neg hz]
  refine ⟨?_, hstep⟩
  have hinv : m.f.apply_tsys = true ∧ m.f.zero_tsys = f.zero_tsys +
      ((m.rows.filter fun row => decide (row.weight = some Weight.zero)).length : Int) := by
    apply fillLoop_induct (fun m => m.f.apply_tsys = true ∧ m.f.zero_tsys = f.zero_tsys +
        ((m.rows.filter fun row => decide (row.weight = some Weight.zero)).length : Int))
      (fun m r m1 hs hp => by
        obtain ⟨a1, _, _, _, _, a6, a7⟩ := seedGroup_locals m m1 r hs
        rw [a1, a6, a7]
        exact hp)
      (fun _ _ _ hp => hp)
      ?_
      (fun _ _ hp => hp)
      (fun _ _ hp => hp)
      recs (mainStart f snumbase junk) m ?_ h
    · intro m1 i hk _ hp
      obtain ⟨row, e1, _, _, _, _, _, _, _, _, _, _, e12, _⟩ := emitRow_new m1 i hk
      obtain ⟨row2, g1, _, _, g4, g5⟩ := hstep m1 i hp.1 hk
      have hrow : row2 = row := by
        have := g1.symm.trans e1
        simpa using this
      subst hrow
      refine ⟨e12.trans hp.1, ?_⟩
      rw [e1, List.filter_append, List.length_append]
      by_cases hz : m1.f.systemp m1.ant1 = 0 ∨ m1.f.systemp m1.ant2 = 0
      · obtain ⟨w1, w2⟩ := g4 hz
        rw [w2, hp.2]
        simp [List.filter_cons, w1]
        ring
      · obtain ⟨w1, w2⟩ := g5 hz
        rw [w2, hp.2]
        simp [List.filter_cons, w1]
    · exact ⟨ha, by simp [mainStart]⟩
  exact hinv.2

/-- C22 on the archive whose antenna 0 has system temperature zero: the two rows of the
record of baseline 1-2 have weight zero and `zero_tsys` ends at 2. -/
theorem C22_zero_tsys_count_witness :
    zeroTempStart.f.apply_tsys = true ∧
    ∃ m, fillLoop (mainStart zeroTempStart.f 0 zeroLoop) [zeroTempRecord] = .ok m ∧
      m.rows.map MainRow.weight = [some Weight.zero, some Weight.zero] ∧
      m.f.zero_tsys = 2 ∧
      m.f.zero_tsys = zeroTempStart.f.zero_tsys +
        ((m.rows.filter fun row => decide (row.weight = some Weight.zero)).length : Int) := by
  obtain ⟨m, hm⟩ : ∃ m, fillLoop (mainStart zeroTempStart.f 0 zeroLoop)
      [zeroTempRecord] = .ok m := ⟨_, rfl⟩
  have hv : (fillLoop (mainStart zeroTempStart.f 0 zeroLoop) [zeroTempRecord]).map
      (fun m => (m.rows.map MainRow.weight, m.f.zero_tsys))
        = .ok ([some Weight.zero, some Weight.zero], 2) := by decide
  rw [hm] at hv
  have hv2 := Except.ok.inj hv
  exact ⟨by decide, m, hm, congrArg Prod.fst hv2, congrArg Prod.snd hv2,
    (C22_zero_tsys_count zeroTempStart.f 0 zeroLoop [zeroTempRecord] m (by decide) hm).1⟩

/-! ## Claims on the baseline number, the field lookup and the field capacity -/

/-- C24 as stated fails: at the baseline number `256 * 65536 + 1` the conversion to
`float` drops the last bit, and the group gets the 0-based antennas 65535 and -1, that is
`ant2 = 0`, not 1. -/
theorem C24_counterexample :
    largeBaselineRecord.preamble 4 = 256 * 65536 + 1 ∧
    ∃ m1, seedGroup narrowWideStart largeBaselineRecord = .ok m1 ∧
      m1.ant1 = 65536 - 1 ∧ m1.ant2 = 0 - 1 :=
  ⟨by decide, _, rfl, by decide, by decide⟩

/-- C24, amended: for `A1 >= 0` and `0 <= A2 <= 255` with `256 * A1 + A2 < 2 ^ 24`, the
start of a group at the baseline number `256 * A1 + A2` sets the 0-based antennas to
`A1 - 1` and `A2 - 1` and raises the cell of `nAnt_p` for the current array to at least
`max (A1, A2)`; the flush of a group with these antennas puts them into every row it
adds. -/
theorem C24_baseline_decoding (A1 A2 : Int) (m m1 : MainLoop) (r : Visibility)
    (h1 : 0 ≤ A1) (h2 : 0 ≤ A2) (h3 : A2 ≤ 255) (hb : 256 * A1 + A2 < 16777216)
    (hr : r.preamble 4 = 256 * A1 + A2) (h : seedGroup m r = .ok m1) :
    m1.ant1 = A1 - 1 ∧ m1.ant2 = A2 - 1 ∧
    (∃ v : Int, m1.f.nAnt_p[(m1.f.nArray_p - 1).toNat]? = some v ∧ max A1 A2 ≤ v) ∧
    ∀ m2 : MainLoop, m2.ant1 = m1.ant1 → m2.ant2 = m1.ant2 →
      ∃ new : List MainRow, (flushGroup m2).rows = m2.rows ++ new ∧
        ∀ row ∈ new, row.antenna1 = A1 - 1 ∧ row.antenna2 = A2 - 1 := by
  have hfl : toFloat (r.preamble 4) = 256 * A1 + A2 := by
    rw [hr]
    exact toFloat_small _ (by omega)
  have hdiv : Int.tdiv (256 * A1 + A2) 256 = A1 := by
    rw [Int.tdiv_eq_ediv (by omega) (by omega)]
    omega
  obtain ⟨a1, a2, v, a3, a4, a5⟩ := seedGroup_antennas m m1 r h
  rw [hfl, hdiv] at a1 a2 a4 a5
  have hant2 : m1.ant2 = A2 - 1 := by rw [a2]; ring
  refine ⟨a1, hant2, ⟨v, a3, max_le a4 (by rw [show A2 = 256 * A1 + A2 - A1 * 256 by ring]; exact a5)⟩,
    fun m2 g1 g2 => ?_⟩
  obtain ⟨_, _, new, b1, b2⟩ := flushGroup_antennas m2
  refine ⟨new, b1, fun row hrow => ?_⟩
  obtain ⟨c1, c2⟩ := b2 row hrow
  exact ⟨c1.trans (g1.trans a1), c2.trans (g2.trans hant2)⟩

/-- C24 amended, at the baseline number 258 of antennas 1 and 2 in the archive with two
narrow windows. -/
theorem C24_baseline_decoding_witness :
    (0 : Int) ≤ 1 ∧ (0 : Int) ≤ 2 ∧ (2 : Int) ≤ 255 ∧ (256 * 1 + 2 : Int) < 16777216 ∧
    (narrowWideRecord 1 (-5)).preamble 4 = 256 * 1 + 2 ∧
    ∃ m1, seedGroup narrowWideStart (narrowWideRecord 1 (-5)) = .ok m1 ∧
      m1.ant1 = 1 - 1 ∧ m1.ant2 = 2 - 1 ∧
      ∃ v : Int, m1.f.nAnt_p[(m1.f.nArray_p - 1).toNat]? = some v ∧ max 1 2 ≤ v := by
  obtain ⟨m1, hm⟩ : ∃ m1, seedGroup narrowWideStart (narrowWideRecord 1 (-5)) = .ok m1 :=
    ⟨_, rfl⟩
  have hC := C24_baseline_decoding 1 2 narrowWideStart m1 (narrowWideRecord 1 (-5))
    (by decide) (by decide) (by decide) (by decide) (by decide) hm
  exact ⟨by decide, by decide, by decide, by decide, by decide, m1, hm, hC.1, hC.2.1, hC.2.2.1⟩

/-- C23: `Tracking` does not read the values of the archive variables `dra` and `ddec`,
and every lookup leaves the offsets `dra_p`, `ddec_p` at zero. So after every run from the
constructed object every field has stored offset (0, 0) and the negative sentinel id
`-(source index + 1)`, no two fields have the same source index, and the field index a
lookup resolves to is the one field of its source index, whatever the archive offsets. -/
theorem C23_offsets_ignored (apply_tsys : Bool) (junk : Filler) (calls : List (Int × Vars))
    (s : Filler) (h : trackAll (construct apply_tsys junk) calls = .ok s) :
    (∀ (t : Filler) (record : Int) (uv : Vars) (x y : Val),
      Tracking t record { uv with dra := x, ddec := y } = Tracking t record uv) ∧
    (∀ i, i < s.nfield → s.dra i = 0 ∧ s.ddec i = 0 ∧ s.sid_p i = -(s.field i + 1)) ∧
    (∀ i k, i < s.nfield → k < s.nfield → s.field i = s.field k → i = k) ∧
    (∀ (pre : List (Int × Vars)) (c : Int × Vars), calls = pre ++ [c] → isLookup c = true →
      s.dra_p = 0 ∧ s.ddec_p = 0 ∧
      (∃ i, i < s.nfield ∧ s.ifield = (i : Int) ∧
        s.field i = findSource c.2.source s.source_p 0) ∧
      ∀ k, k < s.nfield → s.field k = findSource c.2.source s.source_p 0 →
        s.ifield = (k : Int)) := by
  have hrun : ∀ (l : List (Int × Vars)) (t : Filler),
      trackAll (construct apply_tsys junk) l = .ok t →
      (∀ i, i < t.nfield → t.dra i = 0 ∧ t.ddec i = 0 ∧ t.sid_p i = -(t.field i + 1)) ∧
      (∀ i k, i < t.nfield → k < t.nfield → t.field i = t.field k → i = k) := by
    intro l t ht
    apply trackAll_induct (fun t =>
        (∀ i, i < t.nfield → t.dra i = 0 ∧ t.ddec i = 0 ∧ t.sid_p i = -(t.field i + 1)) ∧
        (∀ i k, i < t.nfield → k < t.nfield → t.field i = t.field k → i = k))
      (fun t record uv t1 hT hp =>
        ⟨(Tracking_fields t t1 record uv hT hp.1 hp.2).1,
          (Tracking_fields t t1 record uv hT hp.1 hp.2).2.1⟩)
      l (construct apply_tsys junk) t ?_ ht
    exact ⟨fun i hi => absurd hi (by simp [construct]),
      fun i k hi => absurd hi (by simp [construct])⟩
  obtain ⟨hA, hB⟩ := hrun calls s h
  refine ⟨fun t record uv x y => rfl, hA, hB, fun pre c hc hl => ?_⟩
  subst hc
  rw [trackAll_append] at h
  cases hp : trackAll (construct apply_tsys junk) pre with
  | error e => rw [hp] at h; exact absurd h (by simp)
  | ok sp =>
    rw [hp] at h
    obtain ⟨record, uv⟩ := c
    simp only [trackAll] at h
    cases hT : Tracking sp record uv with
    | error e => rw [hT] at h; exact absurd h (by simp)
    | ok s1 =>
      rw [hT] at h
      injection h with h
      subst h
      obtain ⟨pA, pB⟩ := hrun pre sp hp
      obtain ⟨g1, g2, i, g3, g4, g5⟩ := (Tracking_fields sp s1 record uv hT pA pB).2.2 hl
      refine ⟨g1, g2, ⟨i, g3, g4, g5⟩, fun k hk hf => ?_⟩
      rw [g4, hB k i hk g3 (hf.trans g5.symm)]

/-- C23 on two calls for the source "A", the archive offsets being (0, 0) and then (1, 0):
there is one field, with stored offset (0, 0) and id -1, and the second lookup resolves
to it. -/
theorem C23_offsets_ignored_witness :
    ∃ s, trackAll (construct false zeroFiller) sameSourceTwoOffsets = .ok s ∧
      s.nfield = 1 ∧ s.ifield = 0 ∧ s.sid_p 0 = -1 ∧
      ∀ i, i < s.nfield → s.dra i = 0 ∧ s.ddec i = 0 ∧ s.sid_p i = -(s.field i + 1) := by
  obtain ⟨s, hs⟩ : ∃ s, trackAll (construct false zeroFiller) sameSourceTwoOffsets = .ok s :=
    ⟨_, rfl⟩
  have hv : (trackAll (construct false zeroFiller) sameSourceTwoOffsets).map
      (fun s => (s.nfield, s.ifield, s.sid_p 0)) = .ok (1, 0, -1) := by decide
  rw [hs] at hv
  have hv2 := Except.ok.inj hv
  exact ⟨s, hs, congrArg Prod.fst hv2, congrArg (fun p => p.2.1) hv2,
    congrArg (fun p => p.2.2) hv2,
    (C23_offsets_ignored false zeroFiller sameSourceTwoOffsets s hs).2.1⟩

/-- C11: for calls of `Tracking` that all reach the field lookup, with listed source names
and pairwise distinct field keys, the run succeeds with one field for each call as long as
there are fewer than `MAXFIELD` calls, and stops with the capacity error as soon as there
are `MAXFIELD` calls: the insertion number `MAXFIELD`, not number `MAXFIELD + 1`, is the
first that aborts, and the directory never holds `MAXFIELD` fields. -/
theorem C11_field_capacity (apply_tsys : Bool) (junk : Filler) (calls : List (Int × Vars))
    (hlook : ∀ c ∈ calls, isLookup c = true)
    (hsrc : ∀ p ∈ pointings zeroOffset [] calls, 0 ≤ p.source)
    (hnd : ((pointings zeroOffset [] calls).map Pointing.key).Nodup) :
    (calls.length < MAXFIELD →
      ∃ s, trackAll (construct apply_tsys junk) calls = .ok s ∧ s.nfield = calls.length) ∧
    (MAXFIELD ≤ calls.length →
      trackAll (construct apply_tsys junk) calls = .error .tooManyFields) := by
  have part1 : ∀ l : List (Int × Vars), (∀ c ∈ l, isLookup c = true) →
      (∀ p ∈ pointings zeroOffset [] l, 0 ≤ p.source) →
      ((pointings zeroOffset [] l).map Pointing.key).Nodup → l.length < MAXFIELD →
      ∃ s, trackAll (construct apply_tsys junk) l = .ok s ∧ s.nfield = l.length ∧
        fieldKeys s = (pointings zeroOffset [] l).map Pointing.key := by
    intro l h1 h2 h3 h4
    have hkeys : ((pointings zeroOffset (construct apply_tsys junk).source_p l).map
        Pointing.key).foldl insertNew (fieldKeys (construct apply_tsys junk))
        = (pointings zeroOffset [] l).map Pointing.key := by
      rw [foldl_insert_eq]
      show _ ++ (firstSeen ((pointings zeroOffset [] l).map Pointing.key)).filter _ = _
      rw [firstSeen_nodup _ h3]
      simp [fieldKeys, construct]
    have hlen : ((pointings zeroOffset [] l).map Pointing.key).length = l.length := by
      rw [List.length_map, length_pointings zeroOffset l [] h1]
    obtain ⟨s, hs⟩ := trackAll_total l (construct apply_tsys junk) rfl rfl
      (by rw [hkeys, hlen]; exact h4) h2
    have hk := trackAll_fieldKeys l (construct apply_tsys junk) s hs
    rw [hkeys] at hk
    refine ⟨s, hs, ?_, hk⟩
    rw [← length_fieldKeys, hk, hlen]
  refine ⟨fun hlt => ?_, fun hge => ?_⟩
  · obtain ⟨s, hs, hn, _⟩ := part1 calls hlook hsrc hnd hlt
    exact ⟨s, hs, hn⟩
  · have hsplit : calls = calls.take (MAXFIELD - 1) ++ calls.drop (MAXFIELD - 1) :=
      (List.take_append_drop _ _).symm
    have hprelen : (calls.take (MAXFIELD - 1)).length = MAXFIELD - 1 := by
      rw [List.length_take]
      have : MAXFIELD = 256 := rfl
      omega
    cases hpost : calls.drop (MAXFIELD - 1) with
    | nil =>
      have := congrArg List.length hpost
      rw [List.length_drop] at this
      have h256 : MAXFIELD = 256 := rfl
      simp only [List.length_nil] at this
      omega
    | cons c rest =>
      rw [hpost] at hsplit
      have hpts := pointings_append zeroOffset (calls.take (MAXFIELD - 1)) (c :: rest) []
      rw [← hsplit] at hpts
      rw [hpts, List.map_append, List.nodup_append] at hnd
      obtain ⟨record, uv⟩ := c
      have hlc : isLookup (record, uv) = true :=
        hlook _ (by rw [hsplit]; exact List.mem_append_right _ (List.mem_cons_self _ _))
      obtain ⟨s, hs, hn, hk⟩ := part1 (calls.take (MAXFIELD - 1))
        (fun k hk => hlook k (List.mem_of_mem_take hk))
        (fun p hp => hsrc p (by rw [hpts]; exact List.mem_append_left _ hp))
        hnd.1 (by rw [hprelen]; have : MAXFIELD = 256 := rfl; omega)
      have hnames := trackAll_names _ _ _ hs
      have hT : Tracking s record uv = .error .tooManyFields := by
        have hrec : ¬ record < 0 := by
          simp only [isLookup, Bool.and_eq_true, decide_eq_true_eq] at hlc
          omega
        have hd : decide (0 ≤ record) = true := by simp; omega
        have hl : (uv.has .source || uv.has .dra || uv.has .ddec) = true := by
          simp only [isLookup, hd, Bool.true_and] at hlc
          exact hlc
        unfold Tracking
        rw [if_neg hrec]
        obtain ⟨b1, b2, b3, _, _, b6, _, _, b9, _, _⟩ := beforeLookup_frame s record uv
        have hkeys : fieldKeys (beforeLookup s record uv) = fieldKeys s :=
          fieldKeys_congr _ _ b1 b2 b3 b6
        have hn2 : (beforeLookup s record uv).source_p
            = namesAfter ((calls.take (MAXFIELD - 1)).foldl namesAfter []) (record, uv) := by
          rw [b9, hnames]
          simp [namesAfter, hd, construct]
        apply trackField_full uv _ hl
        · rw [hkeys, hk, hn2]
          intro hmem
          have hhead : ((0 : Val), (0 : Val), findSource uv.source
              (namesAfter ((calls.take (MAXFIELD - 1)).foldl namesAfter []) (record, uv)) 0)
              ∈ (pointings zeroOffset ((calls.take (MAXFIELD - 1)).foldl namesAfter [])
                ((record, uv) :: rest)).map Pointing.key := by
            simp only [pointings, hlc, if_true, List.map_cons]
            exact List.mem_cons_self _ _
          exact hnd.2.2 hmem hhead
        · rw [b1, hn, hprelen]
          have : MAXFIELD = 256 := rfl
          omega
      rw [hsplit, trackAll_append, hs]
      simp only [trackAll, hT]

/-- C11 on calls for pairwise distinct sources: 255 calls leave 255 fields, and the run of
256 calls stops with the capacity error at the insertion number 256 = `MAXFIELD`. -/
theorem C11_field_capacity_witness :
    (∀ c ∈ distinctSources 256, isLookup c = true) ∧
    (∀ p ∈ pointings zeroOffset [] (distinctSources 256), 0 ≤ p.source) ∧
    ((pointings zeroOffset [] (distinctSources 256)).map Pointing.key).Nodup ∧
    MAXFIELD ≤ (distinctSources 256).length ∧
    trackAll (construct false zeroFiller) (distinctSources 256) = .error .tooManyFields := by
  have h1 := distinctSources_lookup 256
  have h2 : ∀ p ∈ pointings zeroOffset [] (distinctSources 256), 0 ≤ p.source := by
    intro p hp
    rw [distinctSources_pointings, List.mem_map] at hp
    obtain ⟨i, _, hi⟩ := hp
    rw [← hi]
    exact Int.ofNat_nonneg i
  have h3 : ((pointings zeroOffset [] (distinctSources 256)).map Pointing.key).Nodup := by
    rw [distinctSources_pointings, List.map_map]
    apply List.Nodup.map _ (List.nodup_range 256)
    intro i k hik
    simp only [Function.comp, Pointing.key, Prod.mk.injEq, true_and] at hik
    exact Int.ofNat.inj hik
  have h4 : MAXFIELD ≤ (distinctSources 256).length := by
    simp [distinctSources, MAXFIELD]
  exact ⟨h1, h2, h3, h4, (C11_field_capacity false zeroFiller (distinctSources 256) h1 h2 h3).2 h4⟩

end CarmaFiller
